import Mathlib

/-!
HtmlScrubber: a shallow embedding of the scrub engine and its two sinks

The development follows the C++ sources

* `include/html_scrubber_engine.h`, `source/html_scrubber_engine.cpp` (class `Engine`),
* `source/html_scrubber_scrubber.cpp` (class `Scrubber`, the materialising sink),
* `source/html_scrubber_hasher.cpp` (class `Hasher`, the digest sink).

Bytes are natural numbers (a `char` holds a value below 256); the buffer `inputData` is a
list of bytes that is rewritten in place with `List.set`, and the three loop variables
`inputBase`, `inputIndex`, `outputLength` are natural numbers.

The generated tokenizer `Parser` (`html_scrubber_parser.h`) is not part of the sources.  The
engine is therefore written over an arbitrary tokenizer table `Parser`; the concrete table
`htmlParser` is reconstructed from the edge lists documented in `html_scrubber_engine.h`
and from the specification.
-/

namespace HtmlScrubber

/-! ## Data model -/

/-- The supported data capture modes (`Engine::CaptureMode`). -/
inductive CaptureMode where
  | IGNORE
  | IN_TEXT
  | IN_SCRIPT
  | IN_STYLE
  | IN_URL
  deriving DecidableEq

/-- The tokenizer states named by the edge lists of `html_scrubber_engine.h`. -/
inductive States where
  | IN_TEXT
  | IN_TEXT_SPACE
  | IN_TEXT_MULTIPLE_SPACE
  | IN_TAG_START
  | IN_TAG_SEARCH
  | IN_TAG_SPACE
  | IN_TAG_SPACE_S
  | IN_TAG_SPACE_SR
  | IN_TAG_SPACE_SRC
  | IN_TAG_SPACE_SRC_EQUALS
  | IN_TAG_SPACE_SRC_EQUALS_QUOTE
  | IN_TAG_SPACE_H
  | IN_TAG_SPACE_HR
  | IN_TAG_SPACE_HRE
  | IN_TAG_SPACE_HREF
  | IN_TAG_SPACE_HREF_EQUALS
  | IN_TAG_SPACE_HREF_EQUALS_QUOTE
  | IN_TAG_SPACE_C
  | IN_TAG_SPACE_CI
  | IN_TAG_SPACE_CIT
  | IN_TAG_SPACE_CITE
  | IN_TAG_SPACE_CITE_EQUALS
  | IN_TAG_SPACE_CITE_EQUALS_QUOTE
  | IN_TAG_S
  | IN_TAG_SC
  | IN_TAG_SCR
  | IN_TAG_SCRI
  | IN_TAG_SCRIP
  | IN_TAG_SCRIPT
  | IN_TAG_SCRIPT_SPACE
  | IN_TAG_SCRIPT_SPACE_S
  | IN_TAG_SCRIPT_SPACE_SR
  | IN_TAG_SCRIPT_SPACE_SRC
  | IN_TAG_SCRIPT_SPACE_SRC_EQUALS
  | IN_TAG_SCRIPT_SPACE_SRC_EQUALS_QUOTE
  | IN_TAG_ST
  | IN_TAG_STY
  | IN_TAG_STYL
  | IN_TAG_STYLE
  | IN_TAG_STYLE_SLASH
  | IN_TAG_STYLE_SEARCH
  | IN_STYLE_START
  | IN_STYLE
  deriving DecidableEq

/-- The transition callbacks that `Engine` overrides, plus `noCallback` for an edge on which
the tokenizer calls nothing. -/
inductive Callback where
  | noCallback
  | startTag
  | multipleWhiteSpace
  | whitespace
  | resumeText
  | endTag
  | startSrcAttribute
  | endSrcAttribute
  | startHrefAttribute
  | endHrefAttribute
  | startCiteAttribute
  | endCiteAttribute
  | startScriptSrcAttribute
  | endScriptSrcAttribute
  | startStyle
  | endStyle
  deriving DecidableEq

/-- A tokenizer: the state installed by `reset()` and the Mealy table behind `parse(c)`,
which maps the current state and byte to the next state and the callback of that edge. -/
structure Parser where
  reset : States
  parse : States → Nat → States × Callback

/-! ## Engine constants and callbacks (`html_scrubber_engine.h`, `html_scrubber_engine.cpp`) -/

/-- Value indicating the start of a source attribute. -/
def Engine.beginSrcAttribute : Nat := 0x18

/-- Value indicating the end of a source attribute. -/
def Engine.finishSrcAttribute : Nat := 0x19

/-- Value indicating the start of an href attribute. -/
def Engine.beginHrefAttribute : Nat := 0x1A

/-- Value indicating the end of an href attribute. -/
def Engine.finishHrefAttribute : Nat := 0x1B

/-- Value indicating the start of a cite attribute. -/
def Engine.beginCiteAttribute : Nat := 0x1C

/-- Value indicating the end of a cite attribute. -/
def Engine.finishCiteAttribute : Nat := 0x1D

/-- `Engine::startTag`: `captureMode = IGNORE`.  A callback maps the pair
(capture mode, current byte `c`) to the pair after the call. -/
def Engine.startTag (_v : CaptureMode × Nat) : CaptureMode × Nat := (CaptureMode.IGNORE, _v.2)

/-- `Engine::multipleWhiteSpace`: `captureMode = IGNORE`. -/
def Engine.multipleWhiteSpace (v : CaptureMode × Nat) : CaptureMode × Nat :=
  (CaptureMode.IGNORE, v.2)

/-- `Engine::whitespace`: `c = ' '`. -/
def Engine.whitespace (v : CaptureMode × Nat) : CaptureMode × Nat := (v.1, 32)

/-- `Engine::resumeText`: `captureMode = IN_TEXT`. -/
def Engine.resumeText (v : CaptureMode × Nat) : CaptureMode × Nat := (CaptureMode.IN_TEXT, v.2)

/-- `Engine::endTag`: empty body. -/
def Engine.endTag (v : CaptureMode × Nat) : CaptureMode × Nat := v

/-- `Engine::startSrcAttribute`: `c = beginSrcAttribute; captureMode = IN_URL`. -/
def Engine.startSrcAttribute (_v : CaptureMode × Nat) : CaptureMode × Nat :=
  (CaptureMode.IN_URL, Engine.beginSrcAttribute)

/-- `Engine::endSrcAttribute`: `c = finishSrcAttribute; captureMode = IGNORE`. -/
def Engine.endSrcAttribute (_v : CaptureMode × Nat) : CaptureMode × Nat :=
  (CaptureMode.IGNORE, Engine.finishSrcAttribute)

/-- `Engine::startHrefAttribute`: `c = beginHrefAttribute; captureMode = IN_URL`. -/
def Engine.startHrefAttribute (_v : CaptureMode × Nat) : CaptureMode × Nat :=
  (CaptureMode.IN_URL, Engine.beginHrefAttribute)

/-- `Engine::endHrefAttribute`: `c = finishHrefAttribute; captureMode = IGNORE`. -/
def Engine.endHrefAttribute (_v : CaptureMode × Nat) : CaptureMode × Nat :=
  (CaptureMode.IGNORE, Engine.finishHrefAttribute)

/-- `Engine::startCiteAttribute`: `c = beginCiteAttribute; captureMode = IN_URL`. -/
def Engine.startCiteAttribute (_v : CaptureMode × Nat) : CaptureMode × Nat :=
  (CaptureMode.IN_URL, Engine.beginCiteAttribute)

/-- `Engine::endCiteAttribute`: `c = finishCiteAttribute; captureMode = IGNORE`. -/
def Engine.endCiteAttribute (_v : CaptureMode × Nat) : CaptureMode × Nat :=
  (CaptureMode.IGNORE, Engine.finishCiteAttribute)

/-- `Engine::startScriptSrcAttribute`: `c = beginSrcAttribute; captureMode = IN_URL`. -/
def Engine.startScriptSrcAttribute (_v : CaptureMode × Nat) : CaptureMode × Nat :=
  (CaptureMode.IN_URL, Engine.beginSrcAttribute)

/-- `Engine::endScriptSrcAttribute`: `c = finishSrcAttribute; captureMode = IGNORE`. -/
def Engine.endScriptSrcAttribute (_v : CaptureMode × Nat) : CaptureMode × Nat :=
  (CaptureMode.IGNORE, Engine.finishSrcAttribute)

/-- `Engine::startStyle`: `captureMode = IN_STYLE`. -/
def Engine.startStyle (v : CaptureMode × Nat) : CaptureMode × Nat := (CaptureMode.IN_STYLE, v.2)

/-- `Engine::endStyle`: `captureMode = IGNORE`. -/
def Engine.endStyle (v : CaptureMode × Nat) : CaptureMode × Nat := (CaptureMode.IGNORE, v.2)

/-- The virtual dispatch from the tokenizer into the `Engine` overrides: the effect of the
callback of an edge on the capture mode and on the current byte. -/
def Engine.dispatch (cb : Callback) (v : CaptureMode × Nat) : CaptureMode × Nat :=
  match cb with
  | .noCallback => v
  | .startTag => Engine.startTag v
  | .multipleWhiteSpace => Engine.multipleWhiteSpace v
  | .whitespace => Engine.whitespace v
  | .resumeText => Engine.resumeText v
  | .endTag => Engine.endTag v
  | .startSrcAttribute => Engine.startSrcAttribute v
  | .endSrcAttribute => Engine.endSrcAttribute v
  | .startHrefAttribute => Engine.startHrefAttribute v
  | .endHrefAttribute => Engine.endHrefAttribute v
  | .startCiteAttribute => Engine.startCiteAttribute v
  | .endCiteAttribute => Engine.endCiteAttribute v
  | .startScriptSrcAttribute => Engine.startScriptSrcAttribute v
  | .endScriptSrcAttribute => Engine.endScriptSrcAttribute v
  | .startStyle => Engine.startStyle v
  | .endStyle => Engine.endStyle v

/-! ## The scan loop (`Engine::scrub`) -/

/-- The variables of `Engine::scrub`: the buffer `inputData` (whose size is `inputLength`),
the locals `inputBase`, `inputIndex`, `outputLength`, the member `captureMode`, the
tokenizer state, and the state of the sink behind the virtual `update`. -/
structure ScrubState (σ : Type) where
  inputData : List Nat
  inputBase : Nat
  inputIndex : Nat
  outputLength : Nat
  captureMode : CaptureMode
  currentState : States
  sink : σ

/-- One iteration of the body of `while (inputIndex < inputLength)` in `Engine::scrub`.
`update sink buffer base n` is the call `update(basePointer + base, n)`. -/
def Engine.scrubStep {σ : Type} (P : Parser) (update : σ → List Nat → Nat → Nat → σ)
    (e : ScrubState σ) : ScrubState σ :=
  let c := e.inputData.getD e.inputIndex 0
  if c &&& 0x80 = 0x00 then
    let lastCaptureMode := e.captureMode
    let t := P.parse e.currentState c
    let r := Engine.dispatch t.2 (e.captureMode, c)
    let buffer := e.inputData.set e.inputIndex r.2
    if r.1 = CaptureMode.IGNORE then
      if lastCaptureMode ≠ CaptureMode.IGNORE then
        { inputData := buffer, inputBase := e.inputBase, inputIndex := e.inputIndex + 1,
          outputLength := 0, captureMode := r.1, currentState := t.1,
          sink := update e.sink buffer e.inputBase e.outputLength }
      else
        { inputData := buffer, inputBase := e.inputBase, inputIndex := e.inputIndex + 1,
          outputLength := e.outputLength, captureMode := r.1, currentState := t.1,
          sink := e.sink }
    else
      { inputData := buffer,
        inputBase := if lastCaptureMode = CaptureMode.IGNORE then e.inputIndex else e.inputBase,
        inputIndex := e.inputIndex + 1,
        outputLength := e.outputLength + 1, captureMode := r.1, currentState := t.1,
        sink := e.sink }
  else if c &&& 0xE0 = 0xC0 then
    { e with
      outputLength := if e.captureMode ≠ CaptureMode.IGNORE then e.outputLength + 2
                      else e.outputLength,
      inputIndex := e.inputIndex + 2 }
  else if c &&& 0xF0 = 0xE0 then
    { e with
      outputLength := if e.captureMode ≠ CaptureMode.IGNORE then e.outputLength + 3
                      else e.outputLength,
      inputIndex := e.inputIndex + 3 }
  else if c &&& 0xF8 = 0xF0 then
    { e with
      outputLength := if e.captureMode ≠ CaptureMode.IGNORE then e.outputLength + 4
                      else e.outputLength,
      inputIndex := e.inputIndex + 4 }
  else
    { e with
      outputLength := if e.captureMode ≠ CaptureMode.IGNORE then e.outputLength + 1
                      else e.outputLength,
      inputIndex := e.inputIndex + 1 }

/-- The loop `while (inputIndex < inputLength) { ... }`, with a bound on the number of
iterations; `Engine.scrub` runs it with `inputLength` iterations allowed, which is enough
because every iteration advances `inputIndex`. -/
def Engine.scrubLoop {σ : Type} (P : Parser) (update : σ → List Nat → Nat → Nat → σ) :
    Nat → ScrubState σ → ScrubState σ
  | 0, e => e
  | fuel + 1, e =>
    if e.inputIndex < e.inputData.length then
      Engine.scrubLoop P update fuel (Engine.scrubStep P update e)
    else e

/-- The flush after the loop: `if (captureMode != IGNORE) update(basePointer + inputBase,
outputLength)`. -/
def Engine.finalFlush {σ : Type} (update : σ → List Nat → Nat → Nat → σ)
    (e : ScrubState σ) : ScrubState σ :=
  if e.captureMode ≠ CaptureMode.IGNORE then
    { e with sink := update e.sink e.inputData e.inputBase e.outputLength }
  else e

/-- The state with which the loop of `Engine::scrub` starts: four zero bytes appended to the
raw data, all counters zero, capture mode `IN_TEXT`, tokenizer reset. -/
def Engine.start {σ : Type} (P : Parser) (rawData : List Nat) (sink : σ) : ScrubState σ :=
  { inputData := rawData ++ [0, 0, 0, 0], inputBase := 0, inputIndex := 0, outputLength := 0,
    captureMode := CaptureMode.IN_TEXT, currentState := P.reset, sink := sink }

/-- `Engine::scrub`, for a tokenizer `P` and a sink given by its `update` and its state. -/
def Engine.scrub {σ : Type} (P : Parser) (update : σ → List Nat → Nat → Nat → σ)
    (rawData : List Nat) (sink : σ) : ScrubState σ :=
  let e := Engine.start P rawData sink
  Engine.finalFlush update (Engine.scrubLoop P update e.inputData.length e)

/-! ## The tokenizer table -/

/-- `std::isspace(c)` in the C locale: space, `\t`, `\n`, `\v`, `\f`, `\r`. -/
def isspace (c : Nat) : Bool := c == 32 || (9 ≤ c && c ≤ 13)

/-- Modelled from the spec: the generated header `html_scrubber_parser.h` (class `Parser`,
its `reset` and `parse`) is missing.  Every edge that carries a callback is taken from the
edge lists in the doc comments of `html_scrubber_engine.h`, with the condition written there
(`c == '<'` is 60, `c == '>'` is 62, `c == '"'` is 34).  The edges without a callback follow
section 4.1 of the specification: a keyword ladder advances on the exact next letter, and any
other byte falls back to `IN_TAG_SPACE` when it is whitespace and to `IN_TAG_SEARCH`
otherwise; `IN_TEXT`, `IN_TEXT_MULTIPLE_SPACE`, `IN_TAG_SEARCH`, `IN_STYLE` and the states of
a quoted value loop on a byte that they do not recognise.  For a byte that `IN_TAG_START` or
`IN_TAG_SPACE` does not recognise the sources settle nothing: no edge list mentions such an
edge, and the specification names both a fall-back to a generic state and a self-loop.  This
table takes the fall-back; `isOpenEdge` marks these edges and `tokenizerWith` leaves them
open.  `IN_TAG_STYLE_SLASH` and `IN_TAG_STYLE_SEARCH`, of which only the `'>'` edge is
documented, are entered from `IN_TAG_STYLE` on `'/'` and on any other byte. -/
def parseTable (s : States) (c : Nat) : States × Callback :=
  -- the fallback of a ladder state on a byte that is neither its next letter nor '>'
  let fallback : States × Callback :=
    if isspace c then (States.IN_TAG_SPACE, Callback.noCallback)
    else (States.IN_TAG_SEARCH, Callback.noCallback)
  -- a ladder state: the next letter advances, '>' resumes text
  let ladder (letter : Nat) (next : States) : States × Callback :=
    if c = letter then (next, Callback.noCallback)
    else if c = 62 then (States.IN_TEXT_SPACE, Callback.resumeText)
    else fallback
  match s with
  | .IN_TEXT =>
    if c = 60 then (.IN_TAG_START, .startTag)
    else if isspace c then (.IN_TEXT_SPACE, .whitespace)
    else (.IN_TEXT, .noCallback)
  | .IN_TEXT_SPACE =>
    if c = 60 then (.IN_TAG_START, .startTag)
    else if isspace c then (.IN_TEXT_MULTIPLE_SPACE, .multipleWhiteSpace)
    else (.IN_TEXT, .resumeText)
  | .IN_TEXT_MULTIPLE_SPACE =>
    if c = 60 then (.IN_TAG_START, .startTag)
    else if isspace c then (.IN_TEXT_MULTIPLE_SPACE, .noCallback)
    else (.IN_TEXT, .resumeText)
  | .IN_TAG_START =>
    if c = 115 then (.IN_TAG_S, .noCallback)
    else fallback
  | .IN_TAG_SEARCH =>
    if c = 62 then (.IN_TEXT_SPACE, .endTag)
    else if isspace c then (.IN_TAG_SPACE, .noCallback)
    else (.IN_TAG_SEARCH, .noCallback)
  | .IN_TAG_SPACE =>
    if c = 62 then (.IN_TEXT_SPACE, .endTag)
    else if c = 115 then (.IN_TAG_SPACE_S, .noCallback)
    else if c = 104 then (.IN_TAG_SPACE_H, .noCallback)
    else if c = 99 then (.IN_TAG_SPACE_C, .noCallback)
    else fallback
  -- attribute ladder  s r c = "
  | .IN_TAG_SPACE_S => ladder 114 .IN_TAG_SPACE_SR
  | .IN_TAG_SPACE_SR => ladder 99 .IN_TAG_SPACE_SRC
  | .IN_TAG_SPACE_SRC => ladder 61 .IN_TAG_SPACE_SRC_EQUALS
  | .IN_TAG_SPACE_SRC_EQUALS =>
    if c = 34 then (.IN_TAG_SPACE_SRC_EQUALS_QUOTE, .startSrcAttribute)
    else if c = 62 then (.IN_TEXT_SPACE, .resumeText)
    else fallback
  | .IN_TAG_SPACE_SRC_EQUALS_QUOTE =>
    if c = 34 then (.IN_TAG_SEARCH, .endSrcAttribute)
    else (.IN_TAG_SPACE_SRC_EQUALS_QUOTE, .noCallback)
  -- attribute ladder  h r e f = "
  | .IN_TAG_SPACE_H => ladder 114 .IN_TAG_SPACE_HR
  | .IN_TAG_SPACE_HR => ladder 101 .IN_TAG_SPACE_HRE
  | .IN_TAG_SPACE_HRE => ladder 102 .IN_TAG_SPACE_HREF
  | .IN_TAG_SPACE_HREF => ladder 61 .IN_TAG_SPACE_HREF_EQUALS
  | .IN_TAG_SPACE_HREF_EQUALS =>
    if c = 34 then (.IN_TAG_SPACE_HREF_EQUALS_QUOTE, .startHrefAttribute)
    else if c = 62 then (.IN_TEXT_SPACE, .resumeText)
    else fallback
  | .IN_TAG_SPACE_HREF_EQUALS_QUOTE =>
    if c = 34 then (.IN_TAG_SEARCH, .endHrefAttribute)
    else (.IN_TAG_SPACE_HREF_EQUALS_QUOTE, .noCallback)
  -- attribute ladder  c i t e = "
  | .IN_TAG_SPACE_C => ladder 105 .IN_TAG_SPACE_CI
  | .IN_TAG_SPACE_CI => ladder 116 .IN_TAG_SPACE_CIT
  | .IN_TAG_SPACE_CIT => ladder 101 .IN_TAG_SPACE_CITE
  | .IN_TAG_SPACE_CITE => ladder 61 .IN_TAG_SPACE_CITE_EQUALS
  | .IN_TAG_SPACE_CITE_EQUALS =>
    if c = 34 then (.IN_TAG_SPACE_CITE_EQUALS_QUOTE, .startCiteAttribute)
    else if c = 62 then (.IN_TEXT_SPACE, .resumeText)
    else fallback
  | .IN_TAG_SPACE_CITE_EQUALS_QUOTE =>
    if c = 34 then (.IN_TAG_SEARCH, .endCiteAttribute)
    else (.IN_TAG_SPACE_CITE_EQUALS_QUOTE, .noCallback)
  -- tag name ladders  s c r i p t  and  s t y l e
  | .IN_TAG_S =>
    if c = 99 then (.IN_TAG_SC, .noCallback)
    else if c = 116 then (.IN_TAG_ST, .noCallback)
    else if c = 62 then (.IN_TEXT_SPACE, .resumeText)
    else fallback
  | .IN_TAG_SC => ladder 114 .IN_TAG_SCR
  | .IN_TAG_SCR => ladder 105 .IN_TAG_SCRI
  | .IN_TAG_SCRI => ladder 112 .IN_TAG_SCRIP
  | .IN_TAG_SCRIP => ladder 116 .IN_TAG_SCRIPT
  | .IN_TAG_SCRIPT =>
    if c = 62 then (.IN_TEXT_SPACE, .resumeText)
    else if isspace c then (.IN_TAG_SCRIPT_SPACE, .noCallback)
    else (.IN_TAG_SEARCH, .noCallback)
  | .IN_TAG_SCRIPT_SPACE =>
    if c = 62 then (.IN_TEXT_SPACE, .resumeText)
    else if c = 115 then (.IN_TAG_SCRIPT_SPACE_S, .noCallback)
    else if isspace c then (.IN_TAG_SCRIPT_SPACE, .noCallback)
    else (.IN_TAG_SEARCH, .noCallback)
  | .IN_TAG_SCRIPT_SPACE_S => ladder 114 .IN_TAG_SCRIPT_SPACE_SR
  | .IN_TAG_SCRIPT_SPACE_SR => ladder 99 .IN_TAG_SCRIPT_SPACE_SRC
  | .IN_TAG_SCRIPT_SPACE_SRC => ladder 61 .IN_TAG_SCRIPT_SPACE_SRC_EQUALS
  | .IN_TAG_SCRIPT_SPACE_SRC_EQUALS =>
    if c = 34 then (.IN_TAG_SCRIPT_SPACE_SRC_EQUALS_QUOTE, .startScriptSrcAttribute)
    else if c = 62 then (.IN_TEXT_SPACE, .resumeText)
    else fallback
  | .IN_TAG_SCRIPT_SPACE_SRC_EQUALS_QUOTE =>
    if c = 34 then (.IN_TEXT_SPACE, .endScriptSrcAttribute)
    else (.IN_TAG_SCRIPT_SPACE_SRC_EQUALS_QUOTE, .noCallback)
  | .IN_TAG_ST => ladder 121 .IN_TAG_STY
  | .IN_TAG_STY => ladder 108 .IN_TAG_STYL
  | .IN_TAG_STYL => ladder 101 .IN_TAG_STYLE
  | .IN_TAG_STYLE =>
    if c = 62 then (.IN_STYLE_START, .startStyle)
    else if c = 47 then (.IN_TAG_STYLE_SLASH, .noCallback)
    else (.IN_TAG_STYLE_SEARCH, .noCallback)
  | .IN_TAG_STYLE_SLASH =>
    if c = 62 then (.IN_TEXT_SPACE, .resumeText)
    else (.IN_TAG_STYLE_SEARCH, .noCallback)
  | .IN_TAG_STYLE_SEARCH =>
    if c = 62 then (.IN_TEXT_SPACE, .resumeText)
    else if c = 47 then (.IN_TAG_STYLE_SLASH, .noCallback)
    else (.IN_TAG_STYLE_SEARCH, .noCallback)
  | .IN_STYLE_START => (.IN_STYLE, .startStyle)
  | .IN_STYLE =>
    if c = 60 then (.IN_TAG_START, .endStyle)
    else (.IN_STYLE, .noCallback)

/-- Modelled from the spec: the tokenizer of the repository, whose generated source is
missing: `parse` follows `parseTable`.  The sources do not name the state that `reset()`
installs; `IN_TEXT` is taken, the state in which a scan of text begins (the engine sets the
capture mode to `IN_TEXT` at the same point), and `tokenizerWith` leaves the choice open. -/
def htmlParser : Parser := { reset := States.IN_TEXT, parse := parseTable }

/-! ## The two sinks -/

/-- `Scrubber::update`: `outputData.append(inputPointer, charsToCopy)`. -/
def Scrubber.update (outputData : List Nat) (buffer : List Nat) (base charsToCopy : Nat) :
    List Nat :=
  outputData ++ (buffer.drop base).take charsToCopy

/-- `Scrubber::scrub(rawData)` over a tokenizer `P`: clear the output, run the engine, return
`outputData`. -/
def Scrubber.scrubWith (P : Parser) (rawData : List Nat) : List Nat :=
  (Engine.scrub P Scrubber.update rawData []).sink

/-- A streaming hash in the style of `QCryptographicHash`: the context after `reset()`,
`addData`, and `result()`. -/
structure HashAlgorithm where
  Context : Type
  Digest : Type
  reset : Context
  addData : Context → List Nat → Context
  result : Context → Digest

/-- The one-shot hash of a byte sequence: reset, add all the data, take the result. -/
def HashAlgorithm.hash (A : HashAlgorithm) (data : List Nat) : A.Digest :=
  A.result (A.addData A.reset data)

/-- `Hasher::update`: `QCryptographicHash::addData(inputPointer, charsToCopy)`. -/
def Hasher.update (A : HashAlgorithm) (context : A.Context) (buffer : List Nat)
    (base charsToCopy : Nat) : A.Context :=
  A.addData context ((buffer.drop base).take charsToCopy)

/-- `Hasher::scrubAndHash(rawData, hashAlgorithm)` over a tokenizer `P`: reset the hash, run
the engine, return `result()`. -/
def Hasher.scrubAndHashWith (P : Parser) (A : HashAlgorithm) (rawData : List Nat) : A.Digest :=
  A.result (Engine.scrub P (Hasher.update A) rawData A.reset).sink

/-- `Scrubber::scrub(const QByteArray&)` with the tokenizer of the repository. -/
def Scrubber.scrub (rawData : List Nat) : List Nat := Scrubber.scrubWith htmlParser rawData

/-- `Hasher::scrubAndHash(const QByteArray&, Algorithm)` with the tokenizer of the
repository. -/
def Hasher.scrubAndHash (A : HashAlgorithm) (rawData : List Nat) : A.Digest :=
  Hasher.scrubAndHashWith htmlParser A rawData

/-- The bytes of an ASCII string literal. -/
def ascii (s : String) : List Nat := s.toList.map Char.toNat

/-! ## Observing the sink -/

/-- A sink that records every `update(basePointer + base, n)` call of a scrub as the triple
of the offset `base`, the length `n`, and the bytes that the call reads through the pointer
(at the time of the call). -/
def Engine.record (calls : List (Nat × Nat × List Nat)) (buffer : List Nat)
    (base charsToCopy : Nat) : List (Nat × Nat × List Nat) :=
  calls ++ [(base, charsToCopy, (buffer.drop base).take charsToCopy)]

/-- The `update` calls that `Engine::scrub` makes on the raw data, in order. -/
def Engine.runs (P : Parser) (rawData : List Nat) : List (Nat × Nat × List Nat) :=
  (Engine.scrub P Engine.record rawData []).sink

/-- The bytes of a list of recorded calls, each with its position in the buffer. -/
def Engine.positioned (calls : List (Nat × Nat × List Nat)) : List (Nat × Nat) :=
  calls.flatMap (fun r => r.2.2.enumFrom r.1)

/-- The bytes handed to the sink, each with its position in the buffer, in the order of
delivery: `(i, b)` is listed when a run covers position `i` and reads the byte `b` there. -/
def Engine.deliveries (P : Parser) (rawData : List Nat) : List (Nat × Nat) :=
  Engine.positioned (Engine.runs P rawData)

/-- A sink `u` together with a record of the calls it receives. -/
def Engine.observed {σ : Type} (u : σ → List Nat → Nat → Nat → σ)
    (s : σ × List (Nat × Nat × List Nat)) (buffer : List Nat) (base charsToCopy : Nat) :
    σ × List (Nat × Nat × List Nat) :=
  (u s.1 buffer base charsToCopy, Engine.record s.2 buffer base charsToCopy)

/-- Two scrub states agree on everything but the sink, and their sinks are related by `R`. -/
def Engine.Sim {σ τ : Type} (R : σ → τ → Prop) (e : ScrubState σ) (f : ScrubState τ) : Prop :=
  e.inputData = f.inputData ∧ e.inputBase = f.inputBase ∧ e.inputIndex = f.inputIndex ∧
  e.outputLength = f.outputLength ∧ e.captureMode = f.captureMode ∧
  e.currentState = f.currentState ∧ R e.sink f.sink

/-! ## The scan as a per-byte automaton -/

/-- The number of bytes that an iteration on a high-bit byte `c` skips: 2 for `110xxxxx`,
3 for `1110xxxx`, 4 for `11110xxx`, and 1 for any other high-bit byte. -/
def Engine.width (c : Nat) : Nat :=
  if c &&& 0xE0 = 0xC0 then 2
  else if c &&& 0xF0 = 0xE0 then 3
  else if c &&& 0xF8 = 0xF0 then 4
  else 1

/-- The configuration of the scan in front of a byte: the tokenizer state, the capture mode,
and the number of bytes still to pass as the rest of a skipped multi-byte group. -/
structure Engine.Config where
  state : States
  mode : CaptureMode
  skip : Nat
  deriving DecidableEq

/-- The configuration after one byte. -/
def Engine.nextConfig (P : Parser) (q : Engine.Config) (c : Nat) : Engine.Config :=
  match q.skip with
  | k + 1 => { q with skip := k }
  | 0 =>
    if c &&& 0x80 = 0x00 then
      { state := (P.parse q.state c).1,
        mode := (Engine.dispatch (P.parse q.state c).2 (q.mode, c)).1, skip := 0 }
    else { q with skip := Engine.width c - 1 }

/-- What the scan leaves of one byte: the byte that the buffer holds afterwards, and whether
the capture mode is not `IGNORE` right after the byte is scanned. -/
def Engine.byteView (P : Parser) (q : Engine.Config) (c : Nat) : Nat × Bool :=
  match q.skip with
  | _ + 1 => (c, decide (q.mode ≠ CaptureMode.IGNORE))
  | 0 =>
    if c &&& 0x80 = 0x00 then
      ((Engine.dispatch (P.parse q.state c).2 (q.mode, c)).2,
        decide ((Engine.dispatch (P.parse q.state c).2 (q.mode, c)).1 ≠ CaptureMode.IGNORE))
    else (c, decide (q.mode ≠ CaptureMode.IGNORE))

/-- The per-byte view of a whole scan from configuration `q`. -/
def Engine.scanFrom (P : Parser) : Engine.Config → List Nat → List (Nat × Bool)
  | _, [] => []
  | q, c :: rest => Engine.byteView P q c :: Engine.scanFrom P (Engine.nextConfig P q c) rest

/-- The configuration after scanning a list of bytes from configuration `q`. -/
def Engine.configAfter (P : Parser) : Engine.Config → List Nat → Engine.Config
  | q, [] => q
  | q, c :: rest => Engine.configAfter P (Engine.nextConfig P q c) rest

/-- The configuration with which a scrub starts. -/
def Engine.startConfig (P : Parser) : Engine.Config :=
  { state := P.reset, mode := CaptureMode.IN_TEXT, skip := 0 }

/-- The visible entries of a per-byte view, each with its position, counted from `k`. -/
def Engine.visibleFrom (k : Nat) (views : List (Nat × Bool)) : List (Nat × Nat) :=
  (views.enumFrom k).filterMap (fun p => if p.2.2 then some (p.1, p.2.1) else none)

/-- The window of a scrub state that is still to be flushed, with positions: empty in mode
`IGNORE`, else the bytes `[inputBase, inputBase + outputLength)` of the buffer. -/
def Engine.pending {σ : Type} (e : ScrubState σ) : List (Nat × Nat) :=
  if e.captureMode ≠ CaptureMode.IGNORE then
    ((e.inputData.drop e.inputBase).take e.outputLength).enumFrom e.inputBase
  else []

/-- The invariant of the scan loop on the pending run: outside `IGNORE` the run ends at the
cursor, and in `IGNORE` it is empty. -/
def Engine.WindowInv {σ : Type} (e : ScrubState σ) : Prop :=
  (e.captureMode ≠ CaptureMode.IGNORE → e.inputBase + e.outputLength = e.inputIndex) ∧
  (e.captureMode = CaptureMode.IGNORE → e.outputLength = 0)

/-- Position `i` of the buffer is covered by a run handed to the sink. -/
def Engine.delivered (P : Parser) (rawData : List Nat) (i : Nat) : Prop :=
  ∃ b, (i, b) ∈ Engine.deliveries P rawData

/-- The marker bytes `0x18 .. 0x1D` (begin and finish of src, href and cite). -/
def isMarker (b : Nat) : Bool := 0x18 ≤ b && b ≤ 0x1D

/-- The scan stands between two bytes of text, outside every tag: no multi-byte group is
open and the tokenizer is in one of the three text states (in `IN_TEXT` while capturing). -/
def Engine.TextConfig (q : Engine.Config) : Prop :=
  q.skip = 0 ∧
  ((q.state = States.IN_TEXT ∧ q.mode = CaptureMode.IN_TEXT) ∨ q.state = States.IN_TEXT_SPACE ∨
    q.state = States.IN_TEXT_MULTIPLE_SPACE)

/-- No two bytes `0x20` are adjacent in the list. -/
def singleSpaced : List Nat → Bool
  | a :: b :: rest => !(a == 32 && b == 32) && singleSpaced (b :: rest)
  | _ => true

/-! ## Observing the iterations -/

/-- The state of `Engine::scrub` on the raw data at the head of the loop after `k`
iterations (the state at loop exit once the loop has ended), with the recording sink. -/
def Engine.loopState (P : Parser) (rawData : List Nat) (k : Nat) :
    ScrubState (List (Nat × Nat × List Nat)) :=
  Engine.scrubLoop P Engine.record k (Engine.start P rawData [])

/-- The buffer `inputData` after `Engine::scrub`. -/
def Engine.buffer (P : Parser) (rawData : List Nat) : List Nat :=
  (Engine.scrub P Engine.record rawData []).inputData

/-- The log of the iterations of the scan loop from state `e`: for each iteration the value
of `inputIndex` at its head, the number of bytes by which it advances the cursor, and the
capture mode at its end. -/
def Engine.scanLog {σ : Type} (P : Parser) (update : σ → List Nat → Nat → Nat → σ) :
    Nat → ScrubState σ → List (Nat × Nat × CaptureMode)
  | 0, _ => []
  | fuel + 1, e =>
    if e.inputIndex < e.inputData.length then
      (e.inputIndex, (Engine.scrubStep P update e).inputIndex - e.inputIndex,
          (Engine.scrubStep P update e).captureMode)
        :: Engine.scanLog P update fuel (Engine.scrubStep P update e)
    else []

/-- The iterations that `Engine::scrub` makes on the raw data. -/
def Engine.iterations (P : Parser) (rawData : List Nat) : List (Nat × Nat × CaptureMode) :=
  Engine.scanLog P Engine.record (rawData ++ [0, 0, 0, 0]).length
    (Engine.start P rawData [])

/-- Position `i` was scanned with a capture mode other than `IGNORE`: it belongs to the bytes
handled by an iteration at whose end (for an ASCII byte: after `parse` and its callback) the
capture mode is not `IGNORE`. -/
def Engine.visibleAt (P : Parser) (rawData : List Nat) (i : Nat) : Prop :=
  ∃ t ∈ Engine.iterations P rawData,
    t.1 ≤ i ∧ i < t.1 + t.2.1 ∧ t.2.2 ≠ CaptureMode.IGNORE

/-- The log of the first `k` iterations that `Engine::scrub` makes on the raw data. -/
def Engine.logUpTo (P : Parser) (rawData : List Nat) (k : Nat) :
    List (Nat × Nat × CaptureMode) :=
  Engine.scanLog P Engine.record k (Engine.start P rawData [])

/-- The per-byte view of the scan of the padded raw data. -/
def Engine.views (P : Parser) (rawData : List Nat) : List (Nat × Bool) :=
  Engine.scanFrom P (Engine.startConfig P) (rawData ++ [0, 0, 0, 0])

/-- The maximal contiguous stretches of visible bytes of a per-byte view, each as the triple
of its first position, its length and its bytes; `acc` holds the bytes of the stretch that
is open in front of position `k`. -/
def Engine.stretchesFrom : List Nat → Nat → List (Nat × Bool) → List (Nat × Nat × List Nat)
  | acc, k, [] => if acc = [] then [] else [(k - acc.length, acc.length, acc)]
  | acc, k, (b, true) :: rest => Engine.stretchesFrom (acc ++ [b]) (k + 1) rest
  | acc, k, (_, false) :: rest =>
    (if acc = [] then [] else [(k - acc.length, acc.length, acc)])
      ++ Engine.stretchesFrom [] (k + 1) rest

/-- The maximal contiguous stretches of visible bytes in the scan of the raw data. -/
def Engine.stretches (P : Parser) (rawData : List Nat) : List (Nat × Nat × List Nat) :=
  Engine.stretchesFrom [] 0 (Engine.views P rawData)

/-- The last four bytes of the buffer have the top bit clear. -/
def Engine.PadInv {σ : Type} (e : ScrubState σ) : Prop :=
  ∀ j, e.inputData.length ≤ j + 4 → e.inputData.getD j 0 &&& 0x80 = 0x00

/-- The invariant of the scan loop on the calls made so far: every recorded run has as many
bytes as its length says, runs come in increasing order without overlap, every run ends at or
before the cursor, and outside `IGNORE` every run ends at or before `inputBase`. -/
def Engine.RunsInv (e : ScrubState (List (Nat × Nat × List Nat))) : Prop :=
  (∀ r ∈ e.sink, r.2.2.length = r.2.1 ∧ r.1 + r.2.1 ≤ e.inputIndex ∧
    (e.captureMode ≠ CaptureMode.IGNORE → r.1 + r.2.1 ≤ e.inputBase)) ∧
  e.sink.Pairwise (fun r t => r.1 + r.2.1 ≤ t.1)

/-- Position `i` is covered by an entry of an iteration log whose capture mode is not
`IGNORE`. -/
def Engine.loggedVisible (log : List (Nat × Nat × CaptureMode)) (i : Nat) : Prop :=
  ∃ t ∈ log, t.1 ≤ i ∧ i < t.1 + t.2.1 ∧ t.2.2 ≠ CaptureMode.IGNORE

/-- The invariant that ties a scrub state to the log of the iterations made so far: the last
iteration ended at the cursor in the current capture mode; outside `IGNORE` every position of
the pending run was scanned visibly and the iteration that ended right before `inputBase`
ended in `IGNORE`; every position of every recorded run was scanned visibly. -/
def Engine.LogInv (log : List (Nat × Nat × CaptureMode))
    (e : ScrubState (List (Nat × Nat × List Nat))) : Prop :=
  (0 < e.inputIndex → ∃ t ∈ log, t.1 + t.2.1 = e.inputIndex ∧ t.2.2 = e.captureMode) ∧
  (e.captureMode ≠ CaptureMode.IGNORE → ∀ i, e.inputBase ≤ i → i < e.inputIndex →
    Engine.loggedVisible log i) ∧
  (∀ r ∈ e.sink, ∀ i, r.1 ≤ i → i < r.1 + r.2.1 → Engine.loggedVisible log i) ∧
  (e.captureMode ≠ CaptureMode.IGNORE → 0 < e.inputBase →
    ∃ t ∈ log, t.1 + t.2.1 = e.inputBase ∧ t.2.2 = CaptureMode.IGNORE)

/-- The bytes of the pending run of a scrub state: empty in mode `IGNORE`. -/
def Engine.pendingBytes {σ : Type} (e : ScrubState σ) : List Nat :=
  if e.captureMode ≠ CaptureMode.IGNORE then
    (e.inputData.drop e.inputBase).take e.outputLength
  else []

/-! ## The per-byte filter -/

/-- Whether position `i` was scanned with a capture mode other than `IGNORE`, computed from
the iterations of the scan loop (the decision procedure of `Engine.visibleAt`). -/
def Engine.scannedVisible (P : Parser) (rawData : List Nat) (i : Nat) : Bool :=
  (Engine.iterations P rawData).any
    (fun t => decide (t.1 ≤ i ∧ i < t.1 + t.2.1 ∧ t.2.2 ≠ CaptureMode.IGNORE))

/-- The per-byte filter, in the words of the specification: the subsequence of the final
(rewritten, padded) buffer made of the positions whose capture mode was not `IGNORE` right
after they were scanned. -/
def Engine.perByteFilter (P : Parser) (rawData : List Nat) : List Nat :=
  ((Engine.buffer P rawData).enum.filter
    (fun p => Engine.scannedVisible P rawData p.1)).map Prod.snd

/-- The concatenation of the runs that `Engine::scrub` passes to `update`, in order. -/
def Engine.runBytes (P : Parser) (rawData : List Nat) : List Nat :=
  (Engine.runs P rawData).flatMap (fun r => r.2.2)

/-! ## The edges that the sources leave open -/

/-- The pairs of a state and a byte for which neither the edge lists of
`html_scrubber_engine.h` nor the specification settle the next state: a byte other than `s`
in `IN_TAG_START`, and a byte other than `>`, `s`, `h`, `c` in `IN_TAG_SPACE`.  No callback
is documented on these edges. -/
def isOpenEdge (s : States) (c : Nat) : Bool :=
  (decide (s = States.IN_TAG_START) && decide (c ≠ 115)) ||
  (decide (s = States.IN_TAG_SPACE) &&
    !(decide (c = 62) || decide (c = 115) || decide (c = 104) || decide (c = 99)))

/-- The next state that `parseTable` takes on an open edge: `IN_TAG_SPACE` on whitespace and
`IN_TAG_SEARCH` on any other byte. -/
def fallbackState (c : Nat) : States :=
  if isspace c then States.IN_TAG_SPACE else States.IN_TAG_SEARCH

/-- Another choice for the open edges out of `IN_TAG_START`: a `/` keeps the tokenizer in
`IN_TAG_START`, so that the name of a closing tag is walked like the name of an opening tag;
any other byte as in `fallbackState`. -/
def slashState (c : Nat) : States :=
  if c = 47 then States.IN_TAG_START else fallbackState c

/-- Modelled from the spec: the tokenizers that agree with `parseTable` on every edge outside
`isOpenEdge`.  What the sources leave open is a parameter: the state installed by `reset()`,
and the next state on an open edge out of `IN_TAG_START` (`fromStart`) and out of
`IN_TAG_SPACE` (`fromSpace`); an open edge calls no callback.  `htmlParser` is the member
with `reset = IN_TEXT` and `fromStart = fromSpace = fallbackState`. -/
def tokenizerWith (reset : States) (fromStart fromSpace : Nat → States) : Parser :=
  { reset := reset,
    parse := fun s c =>
      if isOpenEdge s c then
        (if s = States.IN_TAG_START then fromStart c else fromSpace c, Callback.noCallback)
      else parseTable s c }

/-- The states inside a tag and outside a quoted attribute value: every state but the three
text states, the two states of a style body and the four states of a quoted value. -/
def States.inTag : States → Bool
  | .IN_TEXT => false
  | .IN_TEXT_SPACE => false
  | .IN_TEXT_MULTIPLE_SPACE => false
  | .IN_STYLE_START => false
  | .IN_STYLE => false
  | .IN_TAG_SPACE_SRC_EQUALS_QUOTE => false
  | .IN_TAG_SPACE_HREF_EQUALS_QUOTE => false
  | .IN_TAG_SPACE_CITE_EQUALS_QUOTE => false
  | .IN_TAG_SCRIPT_SPACE_SRC_EQUALS_QUOTE => false
  | _ => true

/-- Whether the bytes `xs`, scanned by `htmlParser` from configuration `q`, never take an
open edge. -/
def Engine.avoidsOpenEdges : Engine.Config → List Nat → Bool
  | _, [] => true
  | q, c :: rest =>
    !(isOpenEdge q.state c) && Engine.avoidsOpenEdges (Engine.nextConfig htmlParser q c) rest

/-- The three generic in-tag states of the specification: `IN_TAG_START`, `IN_TAG_SEARCH`
and `IN_TAG_SPACE`. -/
def States.isGeneric : States → Bool
  | .IN_TAG_START => true
  | .IN_TAG_SEARCH => true
  | .IN_TAG_SPACE => true
  | _ => false

/-- A toy streaming hash, used to instantiate statements about hash algorithms: the context
is the sum of the bytes seen so far, and the digest is that sum modulo 256. -/
def sumHash : HashAlgorithm :=
  { Context := Nat, Digest := Nat, reset := 0,
    addData := fun h data => h + data.sum, result := fun h => h % 256 }

end HtmlScrubber

/-! # Theorems -/

namespace HtmlScrubber

/-! ## The sink is a parameter of the scan -/

theorem Engine.scrubStep_sim {σ τ : Type} (P : Parser) (u : σ → List Nat → Nat → Nat → σ)
    (w : τ → List Nat → Nat → Nat → τ) (R : σ → τ → Prop)
    (hR : ∀ s t buffer base n, R s t → R (u s buffer base n) (w t buffer base n))
    (e : ScrubState σ) (f : ScrubState τ) (h : Engine.Sim R e f) :
    Engine.Sim R (Engine.scrubStep P u e) (Engine.scrubStep P w f) := by
  obtain ⟨h1, h2, h3, h4, h5, h6, h7⟩ := h
  unfold Engine.scrubStep
  simp only [h1, h2, h3, h4, h5, h6]
  split_ifs <;> simp_all [Engine.Sim]

theorem Engine.scrubLoop_sim {σ τ : Type} (P : Parser) (u : σ → List Nat → Nat → Nat → σ)
    (w : τ → List Nat → Nat → Nat → τ) (R : σ → τ → Prop)
    (hR : ∀ s t buffer base n, R s t → R (u s buffer base n) (w t buffer base n))
    (fuel : Nat) (e : ScrubState σ) (f : ScrubState τ) (h : Engine.Sim R e f) :
    Engine.Sim R (Engine.scrubLoop P u fuel e) (Engine.scrubLoop P w fuel f) := by
  induction fuel generalizing e f with
  | zero => simpa [Engine.scrubLoop] using h
  | succ n ih =>
    have h1 := h.1
    have h3 := h.2.2.1
    simp only [Engine.scrubLoop, h1, h3]
    split_ifs
    · exact ih _ _ (Engine.scrubStep_sim P u w R hR e f h)
    · exact h

theorem Engine.scrub_sim {σ τ : Type} (P : Parser) (u : σ → List Nat → Nat → Nat → σ)
    (w : τ → List Nat → Nat → Nat → τ) (R : σ → τ → Prop)
    (hR : ∀ s t buffer base n, R s t → R (u s buffer base n) (w t buffer base n))
    (rawData : List Nat) (s : σ) (t : τ) (h : R s t) :
    Engine.Sim R (Engine.scrub P u rawData s) (Engine.scrub P w rawData t) := by
  have h0 : Engine.Sim R (Engine.start P rawData s) (Engine.start P rawData t) := by
    simp [Engine.Sim, Engine.start, h]
  have hl := Engine.scrubLoop_sim P u w R hR (Engine.start P rawData s).inputData.length _ _ h0
  have hlen : (Engine.start P rawData s).inputData.length
      = (Engine.start P rawData t).inputData.length := by simp [Engine.start]
  unfold Engine.scrub
  simp only
  rw [← hlen]
  obtain ⟨h1, h2, h3, h4, h5, h6, h7⟩ := hl
  unfold Engine.finalFlush
  simp only [h1, h2, h3, h4, h5, h6]
  split_ifs <;> simp_all [Engine.Sim]

/-! ## The scan loop computes the per-byte view -/


theorem Engine.scanFrom_length (P : Parser) (q : Engine.Config) (xs : List Nat) :
    (Engine.scanFrom P q xs).length = xs.length := by
  induction xs generalizing q with
  | nil => rfl
  | cons c rest ih => simp [Engine.scanFrom, ih]

theorem Engine.scanFrom_append (P : Parser) (q : Engine.Config) (xs ys : List Nat) :
    Engine.scanFrom P q (xs ++ ys)
      = Engine.scanFrom P q xs ++ Engine.scanFrom P (Engine.configAfter P q xs) ys := by
  induction xs generalizing q with
  | nil => rfl
  | cons c rest ih => simp [Engine.scanFrom, Engine.configAfter, ih]

theorem Engine.configAfter_append (P : Parser) (q : Engine.Config) (xs ys : List Nat) :
    Engine.configAfter P q (xs ++ ys)
      = Engine.configAfter P (Engine.configAfter P q xs) ys := by
  induction xs generalizing q with
  | nil => rfl
  | cons c rest ih => simp [Engine.configAfter, ih]

theorem Engine.scanFrom_skip (P : Parser) (s : States) (m : CaptureMode) (k : Nat)
    (xs : List Nat) :
    Engine.scanFrom P ⟨s, m, k⟩ xs
      = (xs.take k).map (fun c => (c, decide (m ≠ CaptureMode.IGNORE)))
        ++ Engine.scanFrom P ⟨s, m, 0⟩ (xs.drop k) := by
  induction k generalizing xs with
  | zero => simp
  | succ k ih =>
    cases xs with
    | nil => simp [Engine.scanFrom]
    | cons c rest =>
      simp [Engine.scanFrom, Engine.byteView, Engine.nextConfig, ih]

theorem Engine.visibleFrom_append (k : Nat) (a b : List (Nat × Bool)) :
    Engine.visibleFrom k (a ++ b)
      = Engine.visibleFrom k a ++ Engine.visibleFrom (k + a.length) b := by
  simp [Engine.visibleFrom, List.enumFrom_append, List.filterMap_append]

theorem Engine.visibleFrom_map_true (k : Nat) (l : List Nat) :
    Engine.visibleFrom k (l.map (fun c => (c, true))) = l.enumFrom k := by
  induction l generalizing k with
  | nil => rfl
  | cons c rest ih =>
    have := ih (k + 1)
    simp only [Engine.visibleFrom] at this
    simp [Engine.visibleFrom, List.enumFrom_cons, this]

theorem Engine.visibleFrom_map_false (k : Nat) (l : List Nat) :
    Engine.visibleFrom k (l.map (fun c => (c, false))) = [] := by
  induction l generalizing k with
  | nil => rfl
  | cons c rest ih =>
    have := ih (k + 1)
    simp only [Engine.visibleFrom] at this
    simp [Engine.visibleFrom, List.enumFrom_cons, this]

theorem take_drop_set_of_le {α : Type} (l : List α) (i : Nat) (v : α) (b n : Nat)
    (h : b + n ≤ i) : ((l.set i v).drop b).take n = (l.drop b).take n := by
  apply List.ext_getElem?
  intro j
  simp only [List.getElem?_take, List.getElem?_drop]
  split_ifs with hj
  · rw [List.getElem?_set_ne]
    omega
  · rfl

theorem drop_eq_getD_cons (l : List Nat) (i : Nat) (h : i < l.length) :
    l.drop i = l.getD i 0 :: l.drop (i + 1) := by
  rw [List.getD_eq_getElem l 0 h]
  exact List.drop_eq_getElem_cons h

theorem drop_set_self (l : List Nat) (i : Nat) (v : Nat) (h : i < l.length) :
    (l.set i v).drop i = v :: l.drop (i + 1) := by
  rw [List.drop_eq_getElem_cons (by simpa using h)]
  simp [List.drop_set_of_lt]


theorem Engine.width_pos (c : Nat) : 1 ≤ Engine.width c := by
  unfold Engine.width
  split_ifs <;> omega

theorem Engine.scrubStep_highbit {σ : Type} (P : Parser) (u : σ → List Nat → Nat → Nat → σ)
    (e : ScrubState σ) (h : ¬ (e.inputData.getD e.inputIndex 0 &&& 0x80 = 0x00)) :
    Engine.scrubStep P u e =
      { e with
        outputLength := if e.captureMode ≠ CaptureMode.IGNORE then
            e.outputLength + Engine.width (e.inputData.getD e.inputIndex 0)
          else e.outputLength,
        inputIndex := e.inputIndex + Engine.width (e.inputData.getD e.inputIndex 0) } := by
  unfold Engine.scrubStep Engine.width
  simp only [h, if_false]
  split_ifs <;> rfl

theorem Engine.scanFrom_highbit (P : Parser) (s : States) (m : CaptureMode) (c : Nat)
    (rest : List Nat) (h : ¬ (c &&& 0x80 = 0x00)) :
    Engine.scanFrom P ⟨s, m, 0⟩ (c :: rest)
      = ((c :: rest).take (Engine.width c)).map (fun c => (c, decide (m ≠ CaptureMode.IGNORE)))
        ++ Engine.scanFrom P ⟨s, m, 0⟩ ((c :: rest).drop (Engine.width c)) := by
  obtain ⟨k, hk⟩ : ∃ k, Engine.width c = k + 1 := ⟨Engine.width c - 1, by
    have := Engine.width_pos c; omega⟩
  rw [hk]
  simp [Engine.scanFrom, Engine.byteView, Engine.nextConfig, h, hk, Engine.scanFrom_skip P s m k]

theorem Engine.scrubStep_inputData_length {σ : Type} (P : Parser)
    (u : σ → List Nat → Nat → Nat → σ) (e : ScrubState σ) :
    (Engine.scrubStep P u e).inputData.length = e.inputData.length := by
  unfold Engine.scrubStep
  simp only
  split_ifs <;> simp

theorem Engine.scrubStep_inputIndex_lt {σ : Type} (P : Parser)
    (u : σ → List Nat → Nat → Nat → σ) (e : ScrubState σ) :
    e.inputIndex < (Engine.scrubStep P u e).inputIndex := by
  unfold Engine.scrubStep
  simp only
  split_ifs <;> simp

theorem Engine.scrubStep_windowInv {σ : Type} (P : Parser)
    (u : σ → List Nat → Nat → Nat → σ) (e : ScrubState σ) (h : Engine.WindowInv e) :
    Engine.WindowInv (Engine.scrubStep P u e) := by
  obtain ⟨h1, h2⟩ := h
  unfold Engine.scrubStep
  simp only
  split_ifs <;> simp_all [Engine.WindowInv] <;> omega

theorem Engine.visibleFrom_cons (k : Nat) (v : Nat × Bool) (l : List (Nat × Bool)) :
    Engine.visibleFrom k (v :: l)
      = (if v.2 then [(k, v.1)] else []) ++ Engine.visibleFrom (k + 1) l := by
  unfold Engine.visibleFrom
  rw [List.enumFrom_cons, List.filterMap_cons]
  cases v.2 <;> simp

theorem Engine.positioned_record (calls : List (Nat × Nat × List Nat)) (buffer : List Nat)
    (base n : Nat) :
    Engine.positioned (Engine.record calls buffer base n)
      = Engine.positioned calls ++ ((buffer.drop base).take n).enumFrom base := by
  simp [Engine.positioned, Engine.record, List.flatMap_append]

theorem Engine.visibleFrom_scan_drop (P : Parser) (q : Engine.Config) (buffer : List Nat)
    (i w : Nat) :
    Engine.visibleFrom (i + min w (buffer.length - i)) (Engine.scanFrom P q (buffer.drop (i + w)))
      = Engine.visibleFrom (i + w) (Engine.scanFrom P q (buffer.drop (i + w))) := by
  by_cases h : w ≤ buffer.length - i
  · rw [Nat.min_eq_left h]
  · have : buffer.drop (i + w) = [] := List.drop_eq_nil_of_le (by omega)
    rw [this]
    rfl

theorem Engine.visibleFrom_group (P : Parser) (q : Engine.Config) (buffer : List Nat)
    (i w : Nat) (b : Bool) :
    Engine.visibleFrom i
        (((buffer.drop i).take w).map (fun c => (c, b))
          ++ Engine.scanFrom P q ((buffer.drop i).drop w))
      = (if b then ((buffer.drop i).take w).enumFrom i else [])
        ++ Engine.visibleFrom (i + w) (Engine.scanFrom P q (buffer.drop (i + w))) := by
  rw [Engine.visibleFrom_append, List.length_map, List.length_take, List.length_drop,
    List.drop_drop, Engine.visibleFrom_scan_drop]
  cases b
  · rw [Engine.visibleFrom_map_false]; rfl
  · rw [Engine.visibleFrom_map_true]; rfl

theorem Engine.scrubStep_view (P : Parser) (e : ScrubState (List (Nat × Nat × List Nat)))
    (hlt : e.inputIndex < e.inputData.length) (hinv : Engine.WindowInv e) :
    Engine.positioned (Engine.scrubStep P Engine.record e).sink
        ++ Engine.pending (Engine.scrubStep P Engine.record e)
        ++ Engine.visibleFrom (Engine.scrubStep P Engine.record e).inputIndex
            (Engine.scanFrom P
              ⟨(Engine.scrubStep P Engine.record e).currentState,
                (Engine.scrubStep P Engine.record e).captureMode, 0⟩
              ((Engine.scrubStep P Engine.record e).inputData.drop
                (Engine.scrubStep P Engine.record e).inputIndex))
      = Engine.positioned e.sink ++ Engine.pending e
        ++ Engine.visibleFrom e.inputIndex
            (Engine.scanFrom P ⟨e.currentState, e.captureMode, 0⟩
              (e.inputData.drop e.inputIndex)) := by
  obtain ⟨h1, h2⟩ := hinv
  rw [drop_eq_getD_cons e.inputData e.inputIndex hlt]
  by_cases hc : e.inputData.getD e.inputIndex 0 &&& 0x80 = 0x00
  · -- an ASCII byte
    have hstep : Engine.scanFrom P ⟨e.currentState, e.captureMode, 0⟩
        (e.inputData.getD e.inputIndex 0 :: e.inputData.drop (e.inputIndex + 1))
        = Engine.byteView P ⟨e.currentState, e.captureMode, 0⟩ (e.inputData.getD e.inputIndex 0)
          :: Engine.scanFrom P
              (Engine.nextConfig P ⟨e.currentState, e.captureMode, 0⟩
                (e.inputData.getD e.inputIndex 0))
              (e.inputData.drop (e.inputIndex + 1)) := rfl
    rw [hstep, Engine.visibleFrom_cons]
    unfold Engine.scrubStep
    simp only [hc, if_true, Engine.byteView, Engine.nextConfig]
    generalize P.parse e.currentState (e.inputData.getD e.inputIndex 0) = t
    generalize Engine.dispatch t.2 (e.captureMode, e.inputData.getD e.inputIndex 0) = r
    by_cases hr : r.1 = CaptureMode.IGNORE
    · by_cases hm : e.captureMode = CaptureMode.IGNORE
      · simp [hr, hm, Engine.pending, List.drop_set_of_lt]
      · have hb := h1 hm
        simp [hr, hm, Engine.pending, List.drop_set_of_lt, Engine.positioned_record]
        rw [take_drop_set_of_le _ _ _ _ _ (le_of_eq hb)]
    · by_cases hm : e.captureMode = CaptureMode.IGNORE
      · have hz := h2 hm
        simp [hr, hm, hz, Engine.pending, List.drop_set_of_lt]
        rw [drop_set_self _ _ _ hlt]
        rfl
      · have hb := h1 hm
        simp [hr, hm, Engine.pending, List.drop_set_of_lt]
        rw [List.take_add, List.drop_drop, hb, drop_set_self _ _ _ hlt,
          take_drop_set_of_le _ _ _ _ _ (le_of_eq hb), List.enumFrom_append, List.length_take,
          List.length_drop, Nat.min_eq_left (by omega), hb]
        simp
  · -- a high-bit byte
    rw [Engine.scrubStep_highbit P Engine.record e hc, Engine.scanFrom_highbit P _ _ _ _ hc,
      ← drop_eq_getD_cons e.inputData e.inputIndex hlt, Engine.visibleFrom_group]
    simp only [Engine.pending]
    by_cases hm : e.captureMode = CaptureMode.IGNORE
    · simp [hm]
    · have hb := h1 hm
      simp only [hm, ne_eq, not_false_eq_true, if_true, decide_True, List.append_assoc]
      rw [List.take_add, List.enumFrom_append, List.length_take, List.length_drop,
        List.drop_drop, hb, Nat.min_eq_left (by omega)]
      simp [hb]

theorem Engine.scrubLoop_view (P : Parser) (fuel : Nat)
    (e : ScrubState (List (Nat × Nat × List Nat))) (hinv : Engine.WindowInv e)
    (hfuel : e.inputData.length ≤ e.inputIndex + fuel) :
    Engine.positioned (Engine.finalFlush Engine.record (Engine.scrubLoop P Engine.record fuel e)).sink
      = Engine.positioned e.sink ++ Engine.pending e
        ++ Engine.visibleFrom e.inputIndex
            (Engine.scanFrom P ⟨e.currentState, e.captureMode, 0⟩
              (e.inputData.drop e.inputIndex)) := by
  induction fuel generalizing e with
  | zero =>
    have hd : e.inputData.drop e.inputIndex = [] := List.drop_eq_nil_of_le (by omega)
    rw [hd]
    simp only [Engine.scrubLoop, Engine.finalFlush, Engine.pending]
    split_ifs
    · simp [Engine.positioned_record, Engine.scanFrom, Engine.visibleFrom]
    · simp [Engine.scanFrom, Engine.visibleFrom]
  | succ n ih =>
    by_cases hlt : e.inputIndex < e.inputData.length
    · have hi := Engine.scrubStep_inputIndex_lt P Engine.record e
      have hl := Engine.scrubStep_inputData_length P Engine.record e
      simp only [Engine.scrubLoop, hlt, if_true]
      rw [ih _ (Engine.scrubStep_windowInv P Engine.record e hinv) (by omega)]
      exact Engine.scrubStep_view P e hlt hinv
    · have hd : e.inputData.drop e.inputIndex = [] := List.drop_eq_nil_of_le (by omega)
      rw [hd]
      simp only [Engine.scrubLoop, hlt, if_false, Engine.finalFlush, Engine.pending]
      split_ifs
      · simp [Engine.positioned_record, Engine.scanFrom, Engine.visibleFrom]
      · simp [Engine.scanFrom, Engine.visibleFrom]

/-- The bytes delivered to the sink, with their positions, are the visible entries of the
per-byte view of the padded input. -/
theorem Engine.deliveries_eq_visible (P : Parser) (rawData : List Nat) :
    Engine.deliveries P rawData
      = Engine.visibleFrom 0
          (Engine.scanFrom P (Engine.startConfig P) (rawData ++ [0, 0, 0, 0])) := by
  have h := Engine.scrubLoop_view P
    (Engine.start P rawData ([] : List (Nat × Nat × List Nat))).inputData.length
    (Engine.start P rawData []) (by simp [Engine.WindowInv, Engine.start])
    (by simp [Engine.start])
  unfold Engine.deliveries Engine.runs Engine.scrub
  simp only
  rw [h]
  simp [Engine.start, Engine.pending, Engine.startConfig, Engine.positioned]

/-- The output of the materialising sink is the byte column of the deliveries. -/
theorem Scrubber.scrubWith_eq_deliveries (P : Parser) (rawData : List Nat) :
    Scrubber.scrubWith P rawData = (Engine.deliveries P rawData).map Prod.snd := by
  have h := Engine.scrub_sim P Scrubber.update Engine.record
    (fun out calls => out = (Engine.positioned calls).map Prod.snd)
    (by
      intro s t buffer base n hst
      simp [Scrubber.update, Engine.positioned_record, hst])
    rawData [] [] (by simp [Engine.positioned])
  exact h.2.2.2.2.2.2

/-! ## Positions of the delivered bytes -/


theorem Engine.mem_visibleFrom (k i b : Nat) (views : List (Nat × Bool)) :
    (i, b) ∈ Engine.visibleFrom k views ↔ k ≤ i ∧ views[i - k]? = some (b, true) := by
  induction views generalizing k with
  | nil => simp [Engine.visibleFrom]
  | cons v rest ih =>
    rw [Engine.visibleFrom_cons, List.mem_append, ih]
    obtain ⟨c, f⟩ := v
    by_cases hik : i = k
    · subst hik
      cases f <;> simp [eq_comm]
    · by_cases hlt : k < i
      · obtain ⟨d, rfl⟩ : ∃ d, i = k + 1 + d := ⟨i - (k + 1), by omega⟩
        have e1 : k + 1 + d - k = d + 1 := by omega
        have e2 : k + 1 + d - (k + 1) = d := by omega
        have e3 : k + 1 ≤ k + 1 + d := by omega
        have e4 : k ≤ k + 1 + d := by omega
        rw [e1, e2]
        cases f <;> simp [e3, e4]
        intro h
        omega
      · have h1 : ¬ k ≤ i := by omega
        have h2 : ¬ k + 1 ≤ i := by omega
        cases f <;> simp [h1, h2, hik]

theorem Engine.mem_deliveries (P : Parser) (rawData : List Nat) (i b : Nat) :
    (i, b) ∈ Engine.deliveries P rawData
      ↔ (Engine.scanFrom P (Engine.startConfig P) (rawData ++ [0, 0, 0, 0]))[i]?
          = some (b, true) := by
  rw [Engine.deliveries_eq_visible, Engine.mem_visibleFrom]
  simp

theorem Engine.scanFrom_getElem?_mid (P : Parser) (q : Engine.Config) (X T R : List Nat)
    (j : Nat) (hj : j < T.length) :
    (Engine.scanFrom P q (X ++ T ++ R))[X.length + j]?
      = (Engine.scanFrom P (Engine.configAfter P q X) T)[j]? := by
  rw [List.append_assoc, Engine.scanFrom_append, Engine.scanFrom_append,
    List.getElem?_append_right (by simp [Engine.scanFrom_length]),
    List.getElem?_append_left (by simp [Engine.scanFrom_length, hj])]
  simp [Engine.scanFrom_length]

theorem and_128_of_lt (c : Nat) (h : c < 128) : c &&& 0x80 = 0x00 := by
  interval_cases c <;> rfl

theorem Engine.textConfig_next (q : Engine.Config) (c : Nat) (hq : Engine.TextConfig q)
    (hc : c < 128) (hne : c ≠ 60) : Engine.TextConfig (Engine.nextConfig htmlParser q c) := by
  obtain ⟨s, m, k⟩ := q
  obtain ⟨hk, h⟩ := hq
  simp only at hk h
  subst hk
  have h0 := and_128_of_lt c hc
  rcases h with ⟨rfl, rfl⟩ | rfl | rfl <;>
    by_cases hs : isspace c = true <;>
    simp [Engine.TextConfig, Engine.nextConfig, h0, htmlParser, parseTable, hne, hs,
      Engine.dispatch, Engine.whitespace, Engine.resumeText, Engine.multipleWhiteSpace]

theorem Engine.textConfig_after (q : Engine.Config) (xs : List Nat) (hq : Engine.TextConfig q)
    (hxs : ∀ b ∈ xs, b < 128 ∧ b ≠ 60) :
    Engine.TextConfig (Engine.configAfter htmlParser q xs) := by
  induction xs generalizing q with
  | nil => exact hq
  | cons c rest ih =>
    have hc := hxs c (List.mem_cons_self _ _)
    exact ih _ (Engine.textConfig_next q c hq hc.1 hc.2)
      (fun b hb => hxs b (List.mem_cons_of_mem _ hb))

theorem Engine.textConfig_view (q : Engine.Config) (c : Nat) (hq : Engine.TextConfig q)
    (hc : c < 128) (hne : c ≠ 60) (hs : isspace c = false) :
    Engine.byteView htmlParser q c = (c, true) := by
  obtain ⟨s, m, k⟩ := q
  obtain ⟨hk, h⟩ := hq
  simp only at hk h
  subst hk
  have h0 := and_128_of_lt c hc
  rcases h with ⟨rfl, rfl⟩ | rfl | rfl <;>
    simp [Engine.byteView, h0, htmlParser, parseTable, hne, hs,
      Engine.dispatch, Engine.resumeText]

theorem Engine.textConfig_scan (q : Engine.Config) (xs : List Nat) (hq : Engine.TextConfig q)
    (hxs : ∀ b ∈ xs, b < 128 ∧ b ≠ 60) (j : Nat) (hj : j < xs.length)
    (hs : isspace xs[j] = false) :
    (Engine.scanFrom htmlParser q xs)[j]? = some (xs[j], true) := by
  induction xs generalizing q j with
  | nil => simp at hj
  | cons c rest ih =>
    have hc := hxs c (List.mem_cons_self _ _)
    cases j with
    | zero =>
      simp only [List.getElem_cons_zero] at hs
      simp [Engine.scanFrom, Engine.textConfig_view q c hq hc.1 hc.2 hs]
    | succ j =>
      simp only [List.getElem_cons_succ] at hs
      simp only [Engine.scanFrom, List.getElem?_cons_succ, List.getElem_cons_succ]
      exact ih _ (Engine.textConfig_next q c hq hc.1 hc.2)
        (fun b hb => hxs b (List.mem_cons_of_mem _ hb)) j (by simpa using hj) hs

theorem Engine.scan_script_open (q : Engine.Config) (hq : Engine.TextConfig q) :
    Engine.scanFrom htmlParser q (ascii "<script>")
      = [(60, false), (115, false), (99, false), (114, false), (105, false), (112, false),
          (116, false), (62, true)] ∧
    Engine.configAfter htmlParser q (ascii "<script>")
      = ⟨States.IN_TEXT_SPACE, CaptureMode.IN_TEXT, 0⟩ := by
  obtain ⟨s, m, k⟩ := q
  obtain ⟨hk, h⟩ := hq
  simp only at hk h
  subst hk
  rcases h with ⟨rfl, rfl⟩ | rfl | rfl
  · decide
  · cases m <;> decide
  · cases m <;> decide

theorem Engine.scan_script_close (q : Engine.Config) (hq : Engine.TextConfig q) :
    Engine.scanFrom htmlParser q (ascii "</script>")
      = [(60, false), (47, false), (115, false), (99, false), (114, false), (105, false),
          (112, false), (116, false), (62, false)] ∧
    Engine.configAfter htmlParser q (ascii "</script>")
      = ⟨States.IN_TEXT_SPACE, CaptureMode.IGNORE, 0⟩ := by
  obtain ⟨s, m, k⟩ := q
  obtain ⟨hk, h⟩ := hq
  simp only at hk h
  subst hk
  rcases h with ⟨rfl, rfl⟩ | rfl | rfl
  · decide
  · cases m <;> decide
  · cases m <;> decide

theorem Engine.textConfig_start : Engine.TextConfig (Engine.startConfig htmlParser) := by
  simp [Engine.TextConfig, Engine.startConfig, htmlParser]


/-! ## The style ladder -/

theorem Engine.scan_style_open (q : Engine.Config) (hq : Engine.TextConfig q) :
    Engine.scanFrom htmlParser q (ascii "<style>")
      = [(60, false), (115, false), (116, false), (121, false), (108, false), (101, false),
          (62, true)] ∧
    Engine.configAfter htmlParser q (ascii "<style>")
      = ⟨States.IN_STYLE_START, CaptureMode.IN_STYLE, 0⟩ := by
  obtain ⟨s, m, k⟩ := q
  obtain ⟨hk, h⟩ := hq
  simp only at hk h
  subst hk
  rcases h with ⟨rfl, rfl⟩ | rfl | rfl
  · decide
  · cases m <;> decide
  · cases m <;> decide

theorem Engine.style_next (s : States) (c : Nat)
    (hs : s = States.IN_STYLE_START ∨ s = States.IN_STYLE) (hc : c < 128) (hne : c ≠ 60) :
    Engine.byteView htmlParser ⟨s, CaptureMode.IN_STYLE, 0⟩ c = (c, true) ∧
    Engine.nextConfig htmlParser ⟨s, CaptureMode.IN_STYLE, 0⟩ c
      = ⟨States.IN_STYLE, CaptureMode.IN_STYLE, 0⟩ := by
  have h0 := and_128_of_lt c hc
  rcases hs with rfl | rfl <;>
    simp [Engine.byteView, Engine.nextConfig, h0, htmlParser, parseTable, hne, Engine.dispatch,
      Engine.startStyle]

theorem Engine.style_scan (s : States) (xs : List Nat)
    (hs : s = States.IN_STYLE_START ∨ s = States.IN_STYLE)
    (hxs : ∀ b ∈ xs, b < 128 ∧ b ≠ 60) :
    Engine.scanFrom htmlParser ⟨s, CaptureMode.IN_STYLE, 0⟩ xs = xs.map (fun c => (c, true)) ∧
    (xs ≠ [] → Engine.configAfter htmlParser ⟨s, CaptureMode.IN_STYLE, 0⟩ xs
      = ⟨States.IN_STYLE, CaptureMode.IN_STYLE, 0⟩) := by
  induction xs generalizing s with
  | nil => simp [Engine.scanFrom]
  | cons c rest ih =>
    have hc := hxs c (List.mem_cons_self _ _)
    have hn := Engine.style_next s c hs hc.1 hc.2
    have hr := ih States.IN_STYLE (Or.inr rfl) (fun b hb => hxs b (List.mem_cons_of_mem _ hb))
    refine ⟨?_, fun _ => ?_⟩
    · simp [Engine.scanFrom, hn.1, hn.2, hr.1]
    · simp only [Engine.configAfter, hn.2]
      cases rest with
      | nil => rfl
      | cons d rest2 => exact hr.2 (by simp)

theorem Engine.scan_style_close :
    Engine.scanFrom htmlParser ⟨States.IN_STYLE, CaptureMode.IN_STYLE, 0⟩ (ascii "</style>")
      = [(60, false), (47, false), (115, false), (116, false), (121, false), (108, false),
          (101, false), (62, false)] := by decide


/-! ## Plain text, whitespace runs and marker bytes -/


theorem singleSpaced_tail (c : Nat) (rest : List Nat) (h : singleSpaced (c :: rest) = true) :
    singleSpaced rest = true := by
  cases rest with
  | nil => rfl
  | cons d rest2 =>
    simp only [singleSpaced, Bool.and_eq_true] at h
    exact h.2

theorem singleSpaced_head (rest : List Nat) (h : singleSpaced (32 :: rest) = true) :
    rest.head? ≠ some 32 := by
  cases rest with
  | nil => simp
  | cons d rest2 =>
    simp only [singleSpaced, Bool.and_eq_true] at h
    intro hd
    simp only [List.head?_cons, Option.some.injEq] at hd
    subst hd
    simp at h

theorem Engine.plain_scan (q : Engine.Config) (xs : List Nat)
    (hq : q.skip = 0 ∧ q.mode = CaptureMode.IN_TEXT ∧
      (q.state = States.IN_TEXT ∨ (q.state = States.IN_TEXT_SPACE ∧ xs.head? ≠ some 32)))
    (h : ∀ b ∈ xs, b < 128 ∧ b ≠ 60 ∧ (isspace b = true → b = 32))
    (hs : singleSpaced xs = true) :
    Engine.scanFrom htmlParser q (xs ++ [0, 0, 0, 0])
      = (xs ++ [0, 0, 0, 0]).map (fun c => (c, true)) := by
  induction xs generalizing q with
  | nil =>
    obtain ⟨s, m, k⟩ := q
    obtain ⟨hk, hm, hst⟩ := hq
    simp only at hk hm hst
    subst hk hm
    rcases hst with rfl | ⟨rfl, _⟩ <;> decide
  | cons c rest ih =>
    obtain ⟨s, m, k⟩ := q
    obtain ⟨hk, hm, hst⟩ := hq
    simp only at hk hm hst
    subst hk hm
    obtain ⟨hc, hne, hsp⟩ := h c (List.mem_cons_self _ _)
    have h0 := and_128_of_lt c hc
    have hrest : ∀ b ∈ rest, b < 128 ∧ b ≠ 60 ∧ (isspace b = true → b = 32) :=
      fun b hb => h b (List.mem_cons_of_mem _ hb)
    have hs2 := singleSpaced_tail c rest hs
    by_cases hw : isspace c = true
    · have hc32 := hsp hw
      subst hc32
      rcases hst with rfl | ⟨rfl, hh⟩
      · have := ih ⟨States.IN_TEXT_SPACE, CaptureMode.IN_TEXT, 0⟩
          ⟨rfl, rfl, Or.inr ⟨rfl, singleSpaced_head rest hs⟩⟩ hrest hs2
        simp only [List.cons_append, List.map_cons, Engine.scanFrom]
        rw [← this]
        simp [Engine.byteView, Engine.nextConfig, htmlParser, parseTable, isspace, h0,
          Engine.dispatch, Engine.whitespace]
      · simp at hh
    · have := ih ⟨States.IN_TEXT, CaptureMode.IN_TEXT, 0⟩ ⟨rfl, rfl, Or.inl rfl⟩ hrest hs2
      simp only [List.cons_append, List.map_cons, Engine.scanFrom]
      rw [← this]
      rcases hst with rfl | ⟨rfl, _⟩ <;>
        simp [Engine.byteView, Engine.nextConfig, htmlParser, parseTable, hw, hne, h0,
          Engine.dispatch, Engine.resumeText]


theorem isspace_lt (c : Nat) (h : isspace c = true) : c < 128 ∧ c ≠ 60 := by
  simp only [isspace, Bool.or_eq_true, beq_iff_eq, Bool.and_eq_true, decide_eq_true_eq] at h
  omega

theorem Engine.space_scan (s : States) (m : CaptureMode) (W : List Nat)
    (hq : s = States.IN_TEXT_SPACE ∨
      (s = States.IN_TEXT_MULTIPLE_SPACE ∧ m = CaptureMode.IGNORE))
    (hW : ∀ b ∈ W, isspace b = true) (j : Nat) (hj : j < W.length) :
    (Engine.scanFrom htmlParser ⟨s, m, 0⟩ W)[j]? = some (W[j], false) := by
  induction W generalizing s m j with
  | nil => simp at hj
  | cons c rest ih =>
    have hw := hW c (List.mem_cons_self _ _)
    have hc := isspace_lt c hw
    have h0 := and_128_of_lt c hc.1
    have hview : Engine.byteView htmlParser ⟨s, m, 0⟩ c = (c, false) ∧
        Engine.nextConfig htmlParser ⟨s, m, 0⟩ c
          = ⟨States.IN_TEXT_MULTIPLE_SPACE, CaptureMode.IGNORE, 0⟩ := by
      rcases hq with rfl | ⟨rfl, rfl⟩ <;>
        simp [Engine.byteView, Engine.nextConfig, htmlParser, parseTable, hw, hc.2, h0,
          Engine.dispatch, Engine.multipleWhiteSpace]
    cases j with
    | zero => simp [Engine.scanFrom, hview.1]
    | succ j =>
      simp only [Engine.scanFrom, List.getElem?_cons_succ, List.getElem_cons_succ, hview.2]
      exact ih _ _ (Or.inr ⟨rfl, rfl⟩) (fun b hb => hW b (List.mem_cons_of_mem _ hb)) j
        (by simpa using hj)

theorem parseTable_attribute (s : States) (c : Nat)
    (h : (parseTable s c).2 ≠ Callback.noCallback ∧ (parseTable s c).2 ≠ Callback.startTag ∧
      (parseTable s c).2 ≠ Callback.multipleWhiteSpace ∧
      (parseTable s c).2 ≠ Callback.whitespace ∧ (parseTable s c).2 ≠ Callback.resumeText ∧
      (parseTable s c).2 ≠ Callback.endTag ∧ (parseTable s c).2 ≠ Callback.startStyle ∧
      (parseTable s c).2 ≠ Callback.endStyle) : c = 34 := by
  by_contra hc
  cases s <;> simp [parseTable, hc] at h <;> split_ifs at h <;> simp_all

theorem Engine.dispatch_marker (s : States) (m : CaptureMode) (c : Nat)
    (h : isMarker (Engine.dispatch (parseTable s c).2 (m, c)).2 = true) :
    isMarker c = true ∨ c = 34 := by
  by_cases hc : c = 34
  · exact Or.inr hc
  · left
    have hp := mt (parseTable_attribute s c) hc
    generalize (parseTable s c).2 = cb at h hp
    cases cb <;> simp_all [Engine.dispatch, Engine.startTag, Engine.multipleWhiteSpace,
      Engine.whitespace, Engine.resumeText, Engine.endTag, Engine.startStyle, Engine.endStyle,
      isMarker]

theorem Engine.byteView_marker (q : Engine.Config) (c : Nat)
    (h : isMarker (Engine.byteView htmlParser q c).1 = true) : isMarker c = true ∨ c = 34 := by
  obtain ⟨s, m, k⟩ := q
  cases k with
  | succ k => exact Or.inl (by simpa [Engine.byteView] using h)
  | zero =>
    by_cases h0 : c &&& 0x80 = 0x00
    · simp only [Engine.byteView, h0, if_true, htmlParser] at h
      exact Engine.dispatch_marker s m c h
    · exact Or.inl (by simpa [Engine.byteView, h0] using h)

theorem Engine.scanFrom_marker (q : Engine.Config) (xs : List Nat) (i b : Nat) (f : Bool)
    (h : (Engine.scanFrom htmlParser q xs)[i]? = some (b, f)) (hb : isMarker b = true) :
    ∃ c, xs[i]? = some c ∧ (isMarker c = true ∨ c = 34) := by
  induction xs generalizing q i with
  | nil => simp [Engine.scanFrom] at h
  | cons c rest ih =>
    cases i with
    | zero =>
      simp only [Engine.scanFrom, List.getElem?_cons_zero, Option.some.injEq] at h
      refine ⟨c, by simp, Engine.byteView_marker q c ?_⟩
      rw [h]
      exact hb
    | succ i =>
      simp only [Engine.scanFrom, List.getElem?_cons_succ] at h
      obtain ⟨d, hd, hd2⟩ := ih _ i h
      exact ⟨d, by simpa using hd, hd2⟩

theorem Engine.scrubLoop_exit {σ : Type} (P : Parser) (u : σ → List Nat → Nat → Nat → σ)
    (fuel : Nat) (e : ScrubState σ) (hfuel : e.inputData.length ≤ e.inputIndex + fuel) :
    ¬ ((Engine.scrubLoop P u fuel e).inputIndex
        < (Engine.scrubLoop P u fuel e).inputData.length) := by
  induction fuel generalizing e with
  | zero => simp only [Engine.scrubLoop]; omega
  | succ n ih =>
    by_cases hlt : e.inputIndex < e.inputData.length
    · have hi := Engine.scrubStep_inputIndex_lt P u e
      have hl := Engine.scrubStep_inputData_length P u e
      simp only [Engine.scrubLoop, hlt, if_true]
      exact ih _ (by omega)
    · simp [Engine.scrubLoop, hlt]

/-! ## Invariants of the scan loop -/


theorem Engine.scrubLoop_induction {σ : Type} (P : Parser) (u : σ → List Nat → Nat → Nat → σ)
    (I : ScrubState σ → Prop)
    (hstep : ∀ e, I e → e.inputIndex < e.inputData.length → I (Engine.scrubStep P u e))
    (fuel : Nat) (e : ScrubState σ) (h : I e) : I (Engine.scrubLoop P u fuel e) := by
  induction fuel generalizing e with
  | zero => exact h
  | succ n ih =>
    simp only [Engine.scrubLoop]
    split_ifs with hlt
    · exact ih _ (hstep e h hlt)
    · exact h

theorem Engine.dispatch_ascii (cb : Callback) (m : CaptureMode) (c : Nat)
    (h : c &&& 0x80 = 0x00) : (Engine.dispatch cb (m, c)).2 &&& 0x80 = 0x00 := by
  cases cb <;>
    simp [Engine.dispatch, Engine.startTag, Engine.multipleWhiteSpace, Engine.whitespace,
      Engine.resumeText, Engine.endTag, Engine.startSrcAttribute, Engine.endSrcAttribute,
      Engine.startHrefAttribute, Engine.endHrefAttribute, Engine.startCiteAttribute,
      Engine.endCiteAttribute, Engine.startScriptSrcAttribute, Engine.endScriptSrcAttribute,
      Engine.startStyle, Engine.endStyle, Engine.beginSrcAttribute, Engine.finishSrcAttribute,
      Engine.beginHrefAttribute, Engine.finishHrefAttribute, Engine.beginCiteAttribute,
      Engine.finishCiteAttribute, h] <;> decide

theorem Engine.width_le (c : Nat) : Engine.width c ≤ 4 := by
  unfold Engine.width
  split_ifs <;> omega

theorem Engine.scrubStep_ascii_inputData {σ : Type} (P : Parser)
    (u : σ → List Nat → Nat → Nat → σ) (e : ScrubState σ)
    (h : e.inputData.getD e.inputIndex 0 &&& 0x80 = 0x00) :
    (Engine.scrubStep P u e).inputData
      = e.inputData.set e.inputIndex
          (Engine.dispatch (P.parse e.currentState (e.inputData.getD e.inputIndex 0)).2
            (e.captureMode, e.inputData.getD e.inputIndex 0)).2 ∧
    (Engine.scrubStep P u e).inputIndex = e.inputIndex + 1 ∧
    (Engine.scrubStep P u e).captureMode
      = (Engine.dispatch (P.parse e.currentState (e.inputData.getD e.inputIndex 0)).2
            (e.captureMode, e.inputData.getD e.inputIndex 0)).1 ∧
    (Engine.scrubStep P u e).currentState
      = (P.parse e.currentState (e.inputData.getD e.inputIndex 0)).1 := by
  unfold Engine.scrubStep
  simp only [h, if_true]
  split_ifs <;> simp

theorem Engine.scrubStep_padInv {σ : Type} (P : Parser) (u : σ → List Nat → Nat → Nat → σ)
    (e : ScrubState σ) (h : Engine.PadInv e) : Engine.PadInv (Engine.scrubStep P u e) := by
  by_cases hc : e.inputData.getD e.inputIndex 0 &&& 0x80 = 0x00
  · intro j hj
    rw [(Engine.scrubStep_ascii_inputData P u e hc).1] at hj ⊢
    rw [List.length_set] at hj
    by_cases hji : e.inputIndex = j
    · subst hji
      by_cases hlt : e.inputIndex < e.inputData.length
      · rw [List.getD_eq_getElem _ _ (by simpa using hlt), List.getElem_set_self]
        exact Engine.dispatch_ascii _ _ _ hc
      · rw [List.getD_eq_default _ _ (by simp; omega)]
        rfl
    · have := h j hj
      rw [List.getD_eq_getElem?_getD, List.getElem?_set_ne hji, ← List.getD_eq_getElem?_getD]
      exact this
  · rw [Engine.scrubStep_highbit P u e hc]
    exact h

theorem Engine.scrubStep_inputIndex_le {σ : Type} (P : Parser)
    (u : σ → List Nat → Nat → Nat → σ) (e : ScrubState σ) (h : Engine.PadInv e)
    (hlt : e.inputIndex < e.inputData.length) :
    (Engine.scrubStep P u e).inputIndex ≤ e.inputData.length := by
  by_cases hc : e.inputData.getD e.inputIndex 0 &&& 0x80 = 0x00
  · rw [(Engine.scrubStep_ascii_inputData P u e hc).2.1]
    omega
  · rw [Engine.scrubStep_highbit P u e hc]
    have h4 : ¬ e.inputData.length ≤ e.inputIndex + 4 := fun hj => hc (h _ hj)
    have := Engine.width_le (e.inputData.getD e.inputIndex 0)
    simp only
    omega

theorem Engine.scrubStep_runsInv (P : Parser) (e : ScrubState (List (Nat × Nat × List Nat)))
    (hw : Engine.WindowInv e) (hlt : e.inputIndex < e.inputData.length)
    (h : Engine.RunsInv e) : Engine.RunsInv (Engine.scrubStep P Engine.record e) := by
  obtain ⟨h1, h2⟩ := h
  obtain ⟨w1, w2⟩ := hw
  by_cases hc : e.inputData.getD e.inputIndex 0 &&& 0x80 = 0x00
  · unfold Engine.scrubStep
    simp only [hc, if_true]
    generalize P.parse e.currentState (e.inputData.getD e.inputIndex 0) = t
    generalize Engine.dispatch t.2 (e.captureMode, e.inputData.getD e.inputIndex 0) = r
    by_cases hr : r.1 = CaptureMode.IGNORE
    · by_cases hm : e.captureMode = CaptureMode.IGNORE
      · simp only [hr, hm, if_true, ne_eq, not_true_eq_false, if_false]
        refine ⟨fun q hq => ⟨(h1 q hq).1, by have := (h1 q hq).2.1; show _ ≤ e.inputIndex + 1; omega, fun hx => absurd rfl hx⟩,
          h2⟩
      · have hb := w1 hm
        simp only [hr, hm, if_true, ne_eq, not_false_eq_true, Engine.record]
        constructor
        · intro q hq
          rw [List.mem_append] at hq
          rcases hq with hq | hq
          · exact ⟨(h1 q hq).1, by have := (h1 q hq).2.1; show _ ≤ e.inputIndex + 1; omega, fun hx => absurd rfl hx⟩
          · simp only [List.mem_singleton] at hq
            subst hq
            refine ⟨?_, by show e.inputBase + e.outputLength ≤ e.inputIndex + 1; omega,
              fun hx => absurd rfl hx⟩
            show (List.take e.outputLength
              (List.drop e.inputBase (e.inputData.set e.inputIndex r.2))).length = e.outputLength
            simp only [List.length_take, List.length_drop, List.length_set]
            omega
        · rw [List.pairwise_append]
          refine ⟨h2, List.pairwise_singleton _ _, ?_⟩
          intro q hq t2 ht2
          simp only [List.mem_singleton] at ht2
          subst ht2
          exact (h1 q hq).2.2 hm
    · by_cases hm : e.captureMode = CaptureMode.IGNORE
      · simp only [hr, hm, if_false, if_true]
        refine ⟨fun q hq => ⟨(h1 q hq).1, by have := (h1 q hq).2.1; show _ ≤ e.inputIndex + 1; omega,
          fun _ => (h1 q hq).2.1⟩, h2⟩
      · simp only [hr, hm, if_false]
        refine ⟨fun q hq => ⟨(h1 q hq).1, by have := (h1 q hq).2.1; show _ ≤ e.inputIndex + 1; omega,
          fun _ => (h1 q hq).2.2 hm⟩, h2⟩
  · rw [Engine.scrubStep_highbit P Engine.record e hc]
    refine ⟨fun q hq => ⟨(h1 q hq).1, ?_, (h1 q hq).2.2⟩, h2⟩
    have := (h1 q hq).2.1
    simp only
    omega

/-- The invariants of the scan loop that hold for every tokenizer table. -/
theorem Engine.loopState_inv (P : Parser) (rawData : List Nat) (k : Nat) :
    Engine.WindowInv (Engine.loopState P rawData k) ∧
    Engine.PadInv (Engine.loopState P rawData k) ∧
    (Engine.loopState P rawData k).inputData.length = rawData.length + 4 ∧
    (Engine.loopState P rawData k).inputIndex ≤ rawData.length + 4 ∧
    Engine.RunsInv (Engine.loopState P rawData k) := by
  unfold Engine.loopState
  apply Engine.scrubLoop_induction P Engine.record
    (fun e => Engine.WindowInv e ∧ Engine.PadInv e ∧ e.inputData.length = rawData.length + 4 ∧
      e.inputIndex ≤ rawData.length + 4 ∧ Engine.RunsInv e)
  · rintro e ⟨hw, hp, hl, hi, hr⟩ hlt
    refine ⟨Engine.scrubStep_windowInv P _ e hw, Engine.scrubStep_padInv P _ e hp, ?_, ?_,
      Engine.scrubStep_runsInv P e hw hlt hr⟩
    · rw [Engine.scrubStep_inputData_length, hl]
    · rw [← hl]
      exact Engine.scrubStep_inputIndex_le P _ e hp hlt
  · refine ⟨by simp [Engine.WindowInv, Engine.start], ?_, by simp [Engine.start],
      by simp [Engine.start], by simp [Engine.RunsInv, Engine.start]⟩
    intro j hj
    simp only [Engine.start, List.length_append, List.length_cons, List.length_nil] at hj ⊢
    by_cases hjl : j < rawData.length + 4
    · rw [List.getD_eq_getElem _ _ (by simpa using hjl),
        List.getElem_append_right (by omega)]
      obtain ⟨d, hd⟩ : ∃ d, j - rawData.length = d := ⟨_, rfl⟩
      have hd4 : d < 4 := by omega
      simp only [hd]
      interval_cases d <;> simp
    · rw [List.getD_eq_default _ _ (by simp; omega)]
      rfl

theorem Engine.runs_eq (P : Parser) (rawData : List Nat) :
    Engine.runs P rawData
      = (Engine.finalFlush Engine.record
          (Engine.loopState P rawData (rawData.length + 4))).sink := by
  unfold Engine.runs Engine.scrub Engine.loopState
  simp [Engine.start]

theorem Engine.runs_inv (P : Parser) (rawData : List Nat) :
    (∀ r ∈ Engine.runs P rawData, r.2.2.length = r.2.1 ∧ r.1 + r.2.1 ≤ rawData.length + 4) ∧
    (Engine.runs P rawData).Pairwise (fun r t => r.1 + r.2.1 ≤ t.1) := by
  obtain ⟨⟨w1, w2⟩, hp, hl, hi, h1, h2⟩ :=
    Engine.loopState_inv P rawData (rawData.length + 4)
  rw [Engine.runs_eq]
  generalize Engine.loopState P rawData (rawData.length + 4) = e at *
  unfold Engine.finalFlush
  by_cases hm : e.captureMode = CaptureMode.IGNORE
  · simp only [hm, ne_eq, not_true_eq_false, if_false]
    exact ⟨fun r hr => ⟨(h1 r hr).1, le_trans (h1 r hr).2.1 hi⟩, h2⟩
  · have hb := w1 hm
    simp only [hm, ne_eq, not_false_eq_true, if_true, Engine.record]
    constructor
    · intro r hr
      rw [List.mem_append] at hr
      rcases hr with hr | hr
      · exact ⟨(h1 r hr).1, le_trans (h1 r hr).2.1 hi⟩
      · simp only [List.mem_singleton] at hr
        subst hr
        refine ⟨?_, by show e.inputBase + e.outputLength ≤ rawData.length + 4; omega⟩
        show (List.take e.outputLength (List.drop e.inputBase e.inputData)).length
          = e.outputLength
        simp only [List.length_take, List.length_drop]
        omega
    · rw [List.pairwise_append]
      refine ⟨h2, List.pairwise_singleton _ _, ?_⟩
      intro q hq t2 ht2
      simp only [List.mem_singleton] at ht2
      subst ht2
      exact (h1 q hq).2.2 hm

theorem Engine.visibleFrom_sorted (k : Nat) (views : List (Nat × Bool)) :
    ((Engine.visibleFrom k views).map Prod.fst).Pairwise (fun a b => a < b) ∧
    ∀ a ∈ (Engine.visibleFrom k views).map Prod.fst, k ≤ a := by
  induction views generalizing k with
  | nil => simp [Engine.visibleFrom]
  | cons v rest ih =>
    obtain ⟨h1, h2⟩ := ih (k + 1)
    rw [Engine.visibleFrom_cons]
    cases hv : v.2
    · simp only [Bool.false_eq_true, if_false, List.nil_append]
      exact ⟨h1, fun a ha => by have := h2 a ha; omega⟩
    · simp only [if_true, List.singleton_append, List.map_cons, List.pairwise_cons,
        List.mem_cons]
      refine ⟨⟨fun a ha => by have := h2 a ha; omega, h1⟩, ?_⟩
      rintro a (rfl | ha)
      · exact le_refl _
      · have := h2 a ha; omega

theorem parseTable_zero (s : States) (m : CaptureMode) :
    (Engine.dispatch (parseTable s 0).2 (m, 0)).2 = 0 := by
  cases s <;> rfl

theorem Engine.loopState_zero_padding (rawData : List Nat) (k : Nat) :
    ∀ j, rawData.length ≤ j → (Engine.loopState htmlParser rawData k).inputData.getD j 0 = 0 := by
  unfold Engine.loopState
  apply Engine.scrubLoop_induction htmlParser Engine.record
    (fun e => ∀ j, rawData.length ≤ j → e.inputData.getD j 0 = 0)
  · intro e he hlt j hj
    by_cases hc : e.inputData.getD e.inputIndex 0 &&& 0x80 = 0x00
    · rw [(Engine.scrubStep_ascii_inputData htmlParser _ e hc).1]
      by_cases hji : e.inputIndex = j
      · subst hji
        rw [List.getD_eq_getElem _ _ (by simpa using hlt), List.getElem_set_self, he _ hj]
        exact parseTable_zero _ _
      · rw [List.getD_eq_getElem?_getD, List.getElem?_set_ne hji, ← List.getD_eq_getElem?_getD]
        exact he j hj
    · rw [Engine.scrubStep_highbit htmlParser _ e hc]
      exact he j hj
  · intro j hj
    simp only [Engine.start]
    by_cases hjl : j < rawData.length + 4
    · rw [List.getD_eq_getElem _ _ (by simpa using hjl),
        List.getElem_append_right (by omega)]
      obtain ⟨d, hd⟩ : ∃ d, j - rawData.length = d := ⟨_, rfl⟩
      have hd4 : d < 4 := by omega
      simp only [hd]
      interval_cases d <;> simp
    · rw [List.getD_eq_default _ _ (by simp; omega)]

theorem Engine.scrubLoop_of_exit {σ : Type} (P : Parser) (u : σ → List Nat → Nat → Nat → σ)
    (fuel : Nat) (e : ScrubState σ) (h : ¬ (e.inputIndex < e.inputData.length)) :
    Engine.scrubLoop P u fuel e = e := by
  cases fuel with
  | zero => rfl
  | succ n => simp [Engine.scrubLoop, h]

theorem Engine.scrubLoop_add {σ : Type} (P : Parser) (u : σ → List Nat → Nat → Nat → σ)
    (a b : Nat) (e : ScrubState σ) :
    Engine.scrubLoop P u (a + b) e = Engine.scrubLoop P u b (Engine.scrubLoop P u a e) := by
  induction a generalizing e with
  | zero => simp [Engine.scrubLoop]
  | succ n ih =>
    rw [Nat.succ_add]
    by_cases hlt : e.inputIndex < e.inputData.length
    · simp only [Engine.scrubLoop, hlt, if_true]
      exact ih _
    · simp only [Engine.scrubLoop, hlt, if_false]
      exact (Engine.scrubLoop_of_exit P u b e hlt).symm

theorem Engine.scanLog_length {σ : Type} (P : Parser) (u : σ → List Nat → Nat → Nat → σ)
    (fuel : Nat) (e : ScrubState σ) :
    (Engine.scanLog P u fuel e).length ≤ e.inputData.length - e.inputIndex := by
  induction fuel generalizing e with
  | zero => simp [Engine.scanLog]
  | succ n ih =>
    simp only [Engine.scanLog]
    split_ifs with hlt
    · have h1 := ih (Engine.scrubStep P u e)
      have h2 := Engine.scrubStep_inputIndex_lt P u e
      rw [Engine.scrubStep_inputData_length] at h1
      simp only [List.length_cons]
      omega
    · simp

theorem Engine.scrubStep_inputIndex_le_add {σ : Type} (P : Parser)
    (u : σ → List Nat → Nat → Nat → σ) (e : ScrubState σ) :
    (Engine.scrubStep P u e).inputIndex ≤ e.inputIndex + 4 := by
  by_cases hc : e.inputData.getD e.inputIndex 0 &&& 0x80 = 0x00
  · rw [(Engine.scrubStep_ascii_inputData P u e hc).2.1]
    omega
  · rw [Engine.scrubStep_highbit P u e hc]
    have := Engine.width_le (e.inputData.getD e.inputIndex 0)
    simp only
    omega

/-! ## The log of the iterations -/


theorem Engine.scanLog_succ {σ : Type} (P : Parser) (u : σ → List Nat → Nat → Nat → σ)
    (a : Nat) (e : ScrubState σ) :
    Engine.scanLog P u (a + 1) e
      = Engine.scanLog P u a e ++
        (if (Engine.scrubLoop P u a e).inputIndex < (Engine.scrubLoop P u a e).inputData.length
          then [((Engine.scrubLoop P u a e).inputIndex,
            (Engine.scrubStep P u (Engine.scrubLoop P u a e)).inputIndex
              - (Engine.scrubLoop P u a e).inputIndex,
            (Engine.scrubStep P u (Engine.scrubLoop P u a e)).captureMode)]
          else []) := by
  induction a generalizing e with
  | zero =>
    simp only [Engine.scanLog, Engine.scrubLoop, List.nil_append]
  | succ n ih =>
    by_cases hlt : e.inputIndex < e.inputData.length
    · have h1 : Engine.scanLog P u (n + 1 + 1) e
          = (e.inputIndex, (Engine.scrubStep P u e).inputIndex - e.inputIndex,
              (Engine.scrubStep P u e).captureMode)
            :: Engine.scanLog P u (n + 1) (Engine.scrubStep P u e) := by
        rw [Engine.scanLog]; simp [hlt]
      have h2 : Engine.scanLog P u (n + 1) e
          = (e.inputIndex, (Engine.scrubStep P u e).inputIndex - e.inputIndex,
              (Engine.scrubStep P u e).captureMode)
            :: Engine.scanLog P u n (Engine.scrubStep P u e) := by
        rw [Engine.scanLog]; simp [hlt]
      have h3 : Engine.scrubLoop P u (n + 1) e
          = Engine.scrubLoop P u n (Engine.scrubStep P u e) := by
        rw [Engine.scrubLoop]; simp [hlt]
      rw [h1, h2, h3, ih]
      rfl
    · have h1 : Engine.scanLog P u (n + 1 + 1) e = [] := by
        rw [Engine.scanLog]; simp [hlt]
      have h2 : Engine.scanLog P u (n + 1) e = [] := by
        rw [Engine.scanLog]; simp [hlt]
      rw [h1, h2, Engine.scrubLoop_of_exit P u _ e hlt]
      simp [hlt]

theorem Engine.loopState_succ (P : Parser) (rawData : List Nat) (k : Nat) :
    Engine.loopState P rawData (k + 1)
      = if (Engine.loopState P rawData k).inputIndex
            < (Engine.loopState P rawData k).inputData.length
        then Engine.scrubStep P Engine.record (Engine.loopState P rawData k)
        else Engine.loopState P rawData k := by
  unfold Engine.loopState
  rw [Engine.scrubLoop_add]
  simp only [Engine.scrubLoop]

theorem Engine.loggedVisible_append (log : List (Nat × Nat × CaptureMode))
    (t : Nat × Nat × CaptureMode) (i : Nat) (h : Engine.loggedVisible log i) :
    Engine.loggedVisible (log ++ [t]) i := by
  obtain ⟨s, hs, h1⟩ := h
  exact ⟨s, List.mem_append_left _ hs, h1⟩

theorem Engine.scrubStep_logInv (P : Parser) (log : List (Nat × Nat × CaptureMode))
    (e : ScrubState (List (Nat × Nat × List Nat))) (hw : Engine.WindowInv e)
    (h : Engine.LogInv log e) :
    Engine.LogInv
      (log ++ [(e.inputIndex, (Engine.scrubStep P Engine.record e).inputIndex - e.inputIndex,
        (Engine.scrubStep P Engine.record e).captureMode)])
      (Engine.scrubStep P Engine.record e) := by
  obtain ⟨hA, hB, hC, hD⟩ := h
  obtain ⟨w1, w2⟩ := hw
  have hlast : ∀ (t : Nat × Nat × CaptureMode), t ∈ log ++ [t] :=
    fun t => List.mem_append_right _ (List.mem_singleton_self t)
  by_cases hc : e.inputData.getD e.inputIndex 0 &&& 0x80 = 0x00
  · unfold Engine.scrubStep
    simp only [hc, if_true]
    generalize P.parse e.currentState (e.inputData.getD e.inputIndex 0) = t
    generalize Engine.dispatch t.2 (e.captureMode, e.inputData.getD e.inputIndex 0) = r
    by_cases hr : r.1 = CaptureMode.IGNORE
    · by_cases hm : e.captureMode = CaptureMode.IGNORE
      · simp only [hr, hm, if_true, ne_eq, not_true_eq_false, if_false]
        refine ⟨fun _ => ⟨_, hlast _, by simp, rfl⟩, fun hx => absurd rfl hx, ?_,
          fun hx => absurd rfl hx⟩
        intro q hq i h1 h2
        exact Engine.loggedVisible_append _ _ _ (hC q hq i h1 h2)
      · have hb := w1 hm
        simp only [hr, hm, if_true, ne_eq, not_false_eq_true, Engine.record]
        refine ⟨fun _ => ⟨_, hlast _, by simp, rfl⟩, fun hx => absurd rfl hx, ?_,
          fun hx => absurd rfl hx⟩
        intro q hq i h1 h2
        rw [List.mem_append] at hq
        rcases hq with hq | hq
        · exact Engine.loggedVisible_append _ _ _ (hC q hq i h1 h2)
        · simp only [List.mem_singleton] at hq
          subst hq
          exact Engine.loggedVisible_append _ _ _
            (hB hm i h1 (by
              have : i < e.inputBase + e.outputLength := h2
              omega))
    · by_cases hm : e.captureMode = CaptureMode.IGNORE
      · simp only [hr, hm, if_false, if_true]
        refine ⟨fun _ => ⟨_, hlast _, by simp, rfl⟩, ?_, ?_, ?_⟩
        · intro _ i h1 h2
          have h1 : e.inputIndex ≤ i := h1
          have h2 : i < e.inputIndex + 1 := h2
          exact ⟨_, hlast _, h1, by simpa using h2, hr⟩
        · intro q hq i h1 h2
          exact Engine.loggedVisible_append _ _ _ (hC q hq i h1 h2)
        · intro _ hpos
          obtain ⟨s, hs, hs1, hs2⟩ := hA hpos
          exact ⟨s, List.mem_append_left _ hs, hs1, by rw [hs2, hm]⟩
      · have hb := w1 hm
        simp only [hr, hm, if_false]
        refine ⟨fun _ => ⟨_, hlast _, by simp, rfl⟩, ?_, ?_, ?_⟩
        · intro _ i h1 h2
          have h1 : e.inputBase ≤ i := h1
          have h2 : i < e.inputIndex + 1 := h2
          by_cases hi : i < e.inputIndex
          · exact Engine.loggedVisible_append _ _ _ (hB hm i h1 hi)
          · exact ⟨_, hlast _, by show e.inputIndex ≤ i; omega, by simpa using h2, hr⟩
        · intro q hq i h1 h2
          exact Engine.loggedVisible_append _ _ _ (hC q hq i h1 h2)
        · intro _ hpos
          obtain ⟨s, hs, hs1⟩ := hD hm hpos
          exact ⟨s, List.mem_append_left _ hs, hs1⟩
  · rw [Engine.scrubStep_highbit P Engine.record e hc]
    have hwp := Engine.width_pos (e.inputData.getD e.inputIndex 0)
    refine ⟨fun _ => ⟨_, hlast _, by simp, rfl⟩, ?_, ?_, ?_⟩
    · intro hm i h1 h2
      have hm : e.captureMode ≠ CaptureMode.IGNORE := hm
      have h1 : e.inputBase ≤ i := h1
      have h2 : i < e.inputIndex + Engine.width (e.inputData.getD e.inputIndex 0) := h2
      by_cases hi : i < e.inputIndex
      · exact Engine.loggedVisible_append _ _ _ (hB hm i h1 hi)
      · exact ⟨_, hlast _, by show e.inputIndex ≤ i; omega, by simpa using h2, hm⟩
    · intro q hq i h1 h2
      exact Engine.loggedVisible_append _ _ _ (hC q hq i h1 h2)
    · intro hm hpos
      obtain ⟨s, hs, hs1⟩ := hD hm hpos
      exact ⟨s, List.mem_append_left _ hs, hs1⟩

theorem Engine.loopState_logInv (P : Parser) (rawData : List Nat) (k : Nat) :
    Engine.LogInv (Engine.logUpTo P rawData k) (Engine.loopState P rawData k) := by
  induction k with
  | zero =>
    simp [Engine.LogInv, Engine.logUpTo, Engine.loopState, Engine.scanLog, Engine.scrubLoop,
      Engine.start]
  | succ n ih =>
    have hw := (Engine.loopState_inv P rawData n).1
    rw [Engine.loopState_succ]
    unfold Engine.logUpTo
    rw [Engine.scanLog_succ]
    by_cases hlt : (Engine.loopState P rawData n).inputIndex
        < (Engine.loopState P rawData n).inputData.length
    · have hlt2 := hlt
      unfold Engine.loopState at hlt2
      simp only [hlt, hlt2, if_true]
      exact Engine.scrubStep_logInv P _ _ hw ih
    · have hlt2 := hlt
      unfold Engine.loopState at hlt2
      simp only [hlt, hlt2, if_false, List.append_nil]
      exact ih

theorem Engine.iterations_eq (P : Parser) (rawData : List Nat) :
    Engine.iterations P rawData = Engine.logUpTo P rawData (rawData.length + 4) := by
  unfold Engine.iterations Engine.logUpTo
  simp

/-! ## The log agrees with the per-byte view -/


theorem Engine.loggedVisible_cons (t : Nat × Nat × CaptureMode)
    (log : List (Nat × Nat × CaptureMode)) (i : Nat) :
    Engine.loggedVisible (t :: log) i
      ↔ (t.1 ≤ i ∧ i < t.1 + t.2.1 ∧ t.2.2 ≠ CaptureMode.IGNORE) ∨ Engine.loggedVisible log i := by
  simp [Engine.loggedVisible]

theorem Engine.scanLog_visible {σ : Type} (P : Parser) (u : σ → List Nat → Nat → Nat → σ)
    (fuel : Nat) (e : ScrubState σ) (hp : Engine.PadInv e)
    (hf : e.inputData.length ≤ e.inputIndex + fuel) (i : Nat) :
    Engine.loggedVisible (Engine.scanLog P u fuel e) i
      ↔ e.inputIndex ≤ i ∧
        ∃ b, (Engine.scanFrom P ⟨e.currentState, e.captureMode, 0⟩
          (e.inputData.drop e.inputIndex))[i - e.inputIndex]? = some (b, true) := by
  induction fuel generalizing e with
  | zero =>
    have hd : e.inputData.drop e.inputIndex = [] := List.drop_eq_nil_of_le (by omega)
    simp [Engine.scanLog, Engine.loggedVisible, hd, Engine.scanFrom]
  | succ n ih =>
    by_cases hlt : e.inputIndex < e.inputData.length
    · have hi := Engine.scrubStep_inputIndex_lt P u e
      have hl := Engine.scrubStep_inputData_length P u e
      have ih2 := ih (Engine.scrubStep P u e) (Engine.scrubStep_padInv P u e hp) (by omega)
      have hlog : Engine.scanLog P u (n + 1) e
          = (e.inputIndex, (Engine.scrubStep P u e).inputIndex - e.inputIndex,
              (Engine.scrubStep P u e).captureMode)
            :: Engine.scanLog P u n (Engine.scrubStep P u e) := by
        rw [Engine.scanLog]; simp [hlt]
      rw [hlog, Engine.loggedVisible_cons, ih2]
      by_cases hc : e.inputData.getD e.inputIndex 0 &&& 0x80 = 0x00
      · obtain ⟨s1, s2, s3, s4⟩ := Engine.scrubStep_ascii_inputData P u e hc
        rw [s1, s2, s3, s4, List.drop_set_of_lt _ _ (by omega),
          drop_eq_getD_cons e.inputData e.inputIndex hlt]
        simp only [Engine.scanFrom, Engine.byteView, Engine.nextConfig, hc, if_true,
          Nat.add_sub_cancel_left]
        by_cases h0 : i = e.inputIndex
        · subst h0
          simp
        · by_cases h1 : e.inputIndex < i
          · obtain ⟨d, rfl⟩ : ∃ d, i = e.inputIndex + 1 + d := ⟨i - (e.inputIndex + 1), by omega⟩
            have e1 : e.inputIndex + 1 + d - e.inputIndex = d + 1 := by omega
            have e2 : e.inputIndex + 1 + d - (e.inputIndex + 1) = d := by omega
            rw [e1, e2]
            simp
            omega
          · have h2 : ¬ e.inputIndex ≤ i := by omega
            have h3 : ¬ e.inputIndex + 1 ≤ i := by omega
            simp [h2, h3]
      · have hw4 := Engine.width_le (e.inputData.getD e.inputIndex 0)
        have hwp := Engine.width_pos (e.inputData.getD e.inputIndex 0)
        have h4 : ¬ e.inputData.length ≤ e.inputIndex + 4 := fun hj => hc (hp _ hj)
        rw [drop_eq_getD_cons e.inputData e.inputIndex hlt, Engine.scanFrom_highbit P _ _ _ _ hc,
          ← drop_eq_getD_cons e.inputData e.inputIndex hlt, Engine.scrubStep_highbit P u e hc]
        simp only [Nat.add_sub_cancel_left, List.drop_drop]
        generalize Engine.width (e.inputData.getD e.inputIndex 0) = w at *
        have hlen : ((List.take w (List.drop e.inputIndex e.inputData)).map
            (fun c => (c, decide (e.captureMode ≠ CaptureMode.IGNORE)))).length = w := by
          simp only [List.length_map, List.length_take, List.length_drop]
          omega
        by_cases h1 : i < e.inputIndex
        · have h2 : ¬ e.inputIndex ≤ i := by omega
          have h3 : ¬ e.inputIndex + w ≤ i := by omega
          simp [h2, h3]
        · by_cases h2 : i < e.inputIndex + w
          · have h3 : ¬ e.inputIndex + w ≤ i := by omega
            have h5 : e.inputIndex ≤ i := by omega
            rw [List.getElem?_append_left (by rw [hlen]; omega)]
            have h6 : i - e.inputIndex < (List.take w (List.drop e.inputIndex e.inputData)).length := by
              simp only [List.length_take, List.length_drop]
              omega
            simp only [h3, h5, h2, false_and, or_false, true_and, List.getElem?_map,
              List.getElem?_eq_getElem h6, Option.map_some', Option.some.injEq, Prod.mk.injEq]
            constructor
            · intro hm
              exact ⟨_, rfl, by simpa using hm⟩
            · rintro ⟨b, _, hb⟩
              simpa using hb
          · have h3 : e.inputIndex + w ≤ i := by omega
            have h5 : e.inputIndex ≤ i := by omega
            rw [List.getElem?_append_right (by rw [hlen]; omega), hlen]
            have e1 : i - e.inputIndex - w = i - (e.inputIndex + w) := by omega
            rw [e1]
            simp [h2, h3, h5]
    · have hd : e.inputData.drop e.inputIndex = [] := List.drop_eq_nil_of_le (by omega)
      have hlog : Engine.scanLog P u (n + 1) e = [] := by
        rw [Engine.scanLog]; simp [hlt]
      simp [hlog, Engine.loggedVisible, hd, Engine.scanFrom]

theorem Engine.start_padInv {σ : Type} (P : Parser) (rawData : List Nat) (s : σ) :
    Engine.PadInv (Engine.start P rawData s) := by
  intro j hj
  simp only [Engine.start, List.length_append, List.length_cons, List.length_nil] at hj ⊢
  by_cases hjl : j < rawData.length + 4
  · rw [List.getD_eq_getElem _ _ (by simpa using hjl),
      List.getElem_append_right (by omega)]
    obtain ⟨d, hd⟩ : ∃ d, j - rawData.length = d := ⟨_, rfl⟩
    have hd4 : d < 4 := by omega
    simp only [hd]
    interval_cases d <;> simp
  · rw [List.getD_eq_default _ _ (by simp; omega)]
    rfl

theorem Engine.visibleAt_iff (P : Parser) (rawData : List Nat) (i : Nat) :
    Engine.visibleAt P rawData i ↔ ∃ b, (Engine.views P rawData)[i]? = some (b, true) := by
  have h := Engine.scanLog_visible P Engine.record (rawData ++ [0, 0, 0, 0]).length
    (Engine.start P rawData []) (Engine.start_padInv P rawData [])
    (by simp [Engine.start]) i
  simpa [Engine.visibleAt, Engine.iterations, Engine.loggedVisible, Engine.views,
    Engine.start, Engine.startConfig] using h

theorem Engine.scrubLoop_buffer {σ : Type} (P : Parser) (u : σ → List Nat → Nat → Nat → σ)
    (fuel : Nat) (e : ScrubState σ) (hf : e.inputData.length ≤ e.inputIndex + fuel) :
    (Engine.scrubLoop P u fuel e).inputData
      = e.inputData.take e.inputIndex
        ++ (Engine.scanFrom P ⟨e.currentState, e.captureMode, 0⟩
            (e.inputData.drop e.inputIndex)).map Prod.fst := by
  induction fuel generalizing e with
  | zero =>
    have hd : e.inputData.drop e.inputIndex = [] := List.drop_eq_nil_of_le (by omega)
    simp [Engine.scrubLoop, hd, Engine.scanFrom, List.take_of_length_le (by omega : e.inputData.length ≤ e.inputIndex)]
  | succ n ih =>
    by_cases hlt : e.inputIndex < e.inputData.length
    · have hi := Engine.scrubStep_inputIndex_lt P u e
      have hl := Engine.scrubStep_inputData_length P u e
      simp only [Engine.scrubLoop, hlt, if_true]
      rw [ih _ (by omega)]
      by_cases hc : e.inputData.getD e.inputIndex 0 &&& 0x80 = 0x00
      · obtain ⟨s1, s2, s3, s4⟩ := Engine.scrubStep_ascii_inputData P u e hc
        rw [s1, s2, s3, s4, List.drop_set_of_lt _ _ (by omega)]
        conv_rhs => rw [drop_eq_getD_cons e.inputData e.inputIndex hlt]
        simp only [Engine.scanFrom, Engine.byteView, Engine.nextConfig, hc, if_true,
          List.map_cons]
        rw [List.take_add, drop_set_self _ _ _ hlt]
        have ht := take_drop_set_of_le e.inputData e.inputIndex
          (Engine.dispatch (P.parse e.currentState (e.inputData.getD e.inputIndex 0)).2
            (e.captureMode, e.inputData.getD e.inputIndex 0)).2 0 e.inputIndex (by omega)
        simp only [List.drop_zero] at ht
        rw [ht]
        simp
      · conv_rhs => rw [drop_eq_getD_cons e.inputData e.inputIndex hlt,
          Engine.scanFrom_highbit P _ _ _ _ hc, ← drop_eq_getD_cons e.inputData e.inputIndex hlt]
        rw [Engine.scrubStep_highbit P u e hc]
        simp only [List.map_append, List.map_map, List.drop_drop]
        rw [List.take_add]
        simp [Function.comp_def]
    · have hd : e.inputData.drop e.inputIndex = [] := List.drop_eq_nil_of_le (by omega)
      simp [Engine.scrubLoop, hlt, hd, Engine.scanFrom,
        List.take_of_length_le (by omega : e.inputData.length ≤ e.inputIndex)]

theorem Engine.buffer_eq_views (P : Parser) (rawData : List Nat) :
    Engine.buffer P rawData = (Engine.views P rawData).map Prod.fst := by
  unfold Engine.buffer Engine.scrub Engine.views
  have h := Engine.scrubLoop_buffer P Engine.record (rawData ++ [0, 0, 0, 0]).length
    (Engine.start P rawData ([] : List (Nat × Nat × List Nat))) (by simp [Engine.start])
  have hfl : ∀ e : ScrubState (List (Nat × Nat × List Nat)),
      (Engine.finalFlush Engine.record e).inputData = e.inputData := by
    intro e
    unfold Engine.finalFlush
    split_ifs <;> rfl
  simp only [hfl]
  simpa [Engine.start, Engine.startConfig] using h

/-! ## The calls of non-zero length are the visible stretches -/


theorem Engine.stretchesFrom_visible (acc : List Nat) (k : Nat) (g : List Nat)
    (L : List (Nat × Bool)) :
    Engine.stretchesFrom acc k (g.map (fun c => (c, true)) ++ L)
      = Engine.stretchesFrom (acc ++ g) (k + g.length) L := by
  induction g generalizing acc k with
  | nil => simp
  | cons c rest ih =>
    simp only [List.map_cons, List.cons_append, Engine.stretchesFrom, List.length_cons,
      List.append_eq]
    rw [ih]
    simp [Nat.add_comm, Nat.add_left_comm]

theorem Engine.stretchesFrom_hidden (k : Nat) (g : List Nat) (L : List (Nat × Bool)) :
    Engine.stretchesFrom [] k (g.map (fun c => (c, false)) ++ L)
      = Engine.stretchesFrom [] (k + g.length) L := by
  induction g generalizing k with
  | nil => simp
  | cons c rest ih =>
    simp only [List.map_cons, List.cons_append, Engine.stretchesFrom, List.length_cons,
      List.append_eq]
    rw [ih]
    simp [Nat.add_comm, Nat.add_left_comm]

theorem Engine.pendingBytes_length {σ : Type} (e : ScrubState σ) (hw : Engine.WindowInv e)
    (hi : e.inputIndex ≤ e.inputData.length) :
    (Engine.pendingBytes e).length = e.outputLength := by
  obtain ⟨w1, w2⟩ := hw
  unfold Engine.pendingBytes
  by_cases hm : e.captureMode = CaptureMode.IGNORE
  · simp [hm, w2 hm]
  · have := w1 hm
    simp only [hm, ne_eq, not_false_eq_true, if_true, List.length_take, List.length_drop]
    omega

theorem Engine.finalFlush_stretches (e : ScrubState (List (Nat × Nat × List Nat)))
    (hw : Engine.WindowInv e) (hi : e.inputIndex ≤ e.inputData.length) :
    (Engine.finalFlush Engine.record e).sink.filter (fun r => decide (r.2.1 ≠ 0))
      = e.sink.filter (fun r => decide (r.2.1 ≠ 0))
        ++ Engine.stretchesFrom (Engine.pendingBytes e) e.inputIndex [] := by
  have hlen := Engine.pendingBytes_length e hw hi
  obtain ⟨w1, w2⟩ := hw
  unfold Engine.finalFlush
  by_cases hm : e.captureMode = CaptureMode.IGNORE
  · simp [hm, Engine.pendingBytes, Engine.stretchesFrom]
  · have hb := w1 hm
    simp only [hm, ne_eq, not_false_eq_true, if_true, Engine.record, List.filter_append,
      Engine.stretchesFrom]
    congr 1
    rw [hlen]
    have hpb : Engine.pendingBytes e
        = List.take e.outputLength (List.drop e.inputBase e.inputData) := by
      simp [Engine.pendingBytes, hm]
    by_cases hz : e.outputLength = 0
    · have : Engine.pendingBytes e = [] := List.eq_nil_of_length_eq_zero (by rw [hlen, hz])
      rw [if_pos this]
      simp [hz]
    · have : Engine.pendingBytes e ≠ [] := by
        intro h0
        rw [h0] at hlen
        exact hz hlen.symm
      have hbase : e.inputIndex - e.outputLength = e.inputBase := by omega
      rw [if_neg this, hbase, hpb]
      simp [hz]

theorem Engine.stretchesFrom_cons_false (acc : List Nat) (k b : Nat) (L : List (Nat × Bool)) :
    Engine.stretchesFrom acc k ((b, false) :: L)
      = Engine.stretchesFrom acc k [] ++ Engine.stretchesFrom [] (k + 1) L := by
  simp [Engine.stretchesFrom]

theorem Engine.stretchesFrom_cons_true (acc : List Nat) (k b : Nat) (L : List (Nat × Bool)) :
    Engine.stretchesFrom acc k ((b, true) :: L)
      = Engine.stretchesFrom (acc ++ [b]) (k + 1) L := by
  simp [Engine.stretchesFrom]

theorem Engine.scrubStep_stretches (P : Parser) (e : ScrubState (List (Nat × Nat × List Nat)))
    (hw : Engine.WindowInv e) (hp : Engine.PadInv e)
    (hlt : e.inputIndex < e.inputData.length) :
    (Engine.scrubStep P Engine.record e).sink.filter (fun r => decide (r.2.1 ≠ 0))
        ++ Engine.stretchesFrom (Engine.pendingBytes (Engine.scrubStep P Engine.record e))
            (Engine.scrubStep P Engine.record e).inputIndex
            (Engine.scanFrom P
              ⟨(Engine.scrubStep P Engine.record e).currentState,
                (Engine.scrubStep P Engine.record e).captureMode, 0⟩
              ((Engine.scrubStep P Engine.record e).inputData.drop
                (Engine.scrubStep P Engine.record e).inputIndex))
      = e.sink.filter (fun r => decide (r.2.1 ≠ 0))
        ++ Engine.stretchesFrom (Engine.pendingBytes e) e.inputIndex
            (Engine.scanFrom P ⟨e.currentState, e.captureMode, 0⟩
              (e.inputData.drop e.inputIndex)) := by
  have hff := Engine.finalFlush_stretches e hw (le_of_lt hlt)
  have hlen := Engine.pendingBytes_length e hw (le_of_lt hlt)
  obtain ⟨w1, w2⟩ := hw
  by_cases hc : e.inputData.getD e.inputIndex 0 &&& 0x80 = 0x00
  · conv_rhs => rw [drop_eq_getD_cons e.inputData e.inputIndex hlt]
    have hstep : Engine.scanFrom P ⟨e.currentState, e.captureMode, 0⟩
        (e.inputData.getD e.inputIndex 0 :: e.inputData.drop (e.inputIndex + 1))
        = Engine.byteView P ⟨e.currentState, e.captureMode, 0⟩ (e.inputData.getD e.inputIndex 0)
          :: Engine.scanFrom P
              (Engine.nextConfig P ⟨e.currentState, e.captureMode, 0⟩
                (e.inputData.getD e.inputIndex 0))
              (e.inputData.drop (e.inputIndex + 1)) := rfl
    rw [hstep]
    unfold Engine.finalFlush at hff
    unfold Engine.scrubStep
    simp only [hc, if_true, Engine.byteView, Engine.nextConfig]
    generalize P.parse e.currentState (e.inputData.getD e.inputIndex 0) = t
    generalize Engine.dispatch t.2 (e.captureMode, e.inputData.getD e.inputIndex 0) = r
    by_cases hr : r.1 = CaptureMode.IGNORE
    · by_cases hm : e.captureMode = CaptureMode.IGNORE
      · simp [hr, hm, Engine.pendingBytes, List.drop_set_of_lt, Engine.stretchesFrom]
      · have hb := w1 hm
        simp only [hm, ne_eq, not_false_eq_true, if_true] at hff
        simp only [hr, hm, ne_eq, not_true_eq_false, not_false_eq_true, if_true, if_false,
          decide_False, Engine.stretchesFrom_cons_false, Engine.pendingBytes,
          List.drop_set_of_lt _ _ (Nat.lt_succ_self _), decide_True]
        simp only [Engine.pendingBytes, hm, ne_eq, not_false_eq_true, if_true] at hff
        rw [← List.append_assoc, ← hff]
        simp only [Engine.record, take_drop_set_of_le _ _ _ _ _ (le_of_eq hb)]
    · by_cases hm : e.captureMode = CaptureMode.IGNORE
      · have hz := w2 hm
        simp only [hr, hm, hz, ne_eq, not_true_eq_false, not_false_eq_true, if_true, if_false,
          decide_True, Engine.stretchesFrom_cons_true, Engine.pendingBytes,
          List.drop_set_of_lt _ _ (Nat.lt_succ_self _), List.nil_append, Nat.zero_add]
        rw [drop_set_self _ _ _ hlt]
        rfl
      · have hb := w1 hm
        simp only [hr, hm, ne_eq, not_false_eq_true, if_true, if_false,
          decide_True, Engine.stretchesFrom_cons_true, Engine.pendingBytes,
          List.drop_set_of_lt _ _ (Nat.lt_succ_self _)]
        rw [List.take_add, List.drop_drop, hb, drop_set_self _ _ _ hlt,
          take_drop_set_of_le _ _ _ _ _ (le_of_eq hb)]
        rfl
  · have hw4 := Engine.width_le (e.inputData.getD e.inputIndex 0)
    have hwp := Engine.width_pos (e.inputData.getD e.inputIndex 0)
    have h4 : ¬ e.inputData.length ≤ e.inputIndex + 4 := fun hj => hc (hp _ hj)
    conv_rhs => rw [drop_eq_getD_cons e.inputData e.inputIndex hlt,
      Engine.scanFrom_highbit P _ _ _ _ hc, ← drop_eq_getD_cons e.inputData e.inputIndex hlt]
    rw [Engine.scrubStep_highbit P Engine.record e hc]
    generalize Engine.width (e.inputData.getD e.inputIndex 0) = w at *
    have hg : (List.take w (List.drop e.inputIndex e.inputData)).length = w := by
      simp only [List.length_take, List.length_drop]
      omega
    by_cases hm : e.captureMode = CaptureMode.IGNORE
    · simp only [hm, ne_eq, not_true_eq_false, if_false, decide_False, Engine.pendingBytes,
        Engine.stretchesFrom_hidden, hg, List.drop_drop]
    · have hb := w1 hm
      simp only [hm, ne_eq, not_false_eq_true, if_true, decide_True, Engine.pendingBytes,
        Engine.stretchesFrom_visible, hg, List.drop_drop]
      rw [List.take_add, List.drop_drop, hb]

theorem Engine.scrubLoop_stretches (P : Parser) (fuel : Nat)
    (e : ScrubState (List (Nat × Nat × List Nat))) (hw : Engine.WindowInv e)
    (hp : Engine.PadInv e) (hi : e.inputIndex ≤ e.inputData.length)
    (hf : e.inputData.length ≤ e.inputIndex + fuel) :
    (Engine.finalFlush Engine.record (Engine.scrubLoop P Engine.record fuel e)).sink.filter
        (fun r => decide (r.2.1 ≠ 0))
      = e.sink.filter (fun r => decide (r.2.1 ≠ 0))
        ++ Engine.stretchesFrom (Engine.pendingBytes e) e.inputIndex
            (Engine.scanFrom P ⟨e.currentState, e.captureMode, 0⟩
              (e.inputData.drop e.inputIndex)) := by
  induction fuel generalizing e with
  | zero =>
    have hd : e.inputData.drop e.inputIndex = [] := List.drop_eq_nil_of_le (by omega)
    rw [hd]
    exact Engine.finalFlush_stretches e hw hi
  | succ n ih =>
    by_cases hlt : e.inputIndex < e.inputData.length
    · have hi2 := Engine.scrubStep_inputIndex_lt P Engine.record e
      have hl := Engine.scrubStep_inputData_length P Engine.record e
      have hle := Engine.scrubStep_inputIndex_le P Engine.record e hp hlt
      simp only [Engine.scrubLoop, hlt, if_true]
      rw [ih _ (Engine.scrubStep_windowInv P Engine.record e hw)
        (Engine.scrubStep_padInv P Engine.record e hp) (by omega) (by omega)]
      exact Engine.scrubStep_stretches P e hw hp hlt
    · have hd : e.inputData.drop e.inputIndex = [] := List.drop_eq_nil_of_le (by omega)
      rw [hd]
      simp only [Engine.scrubLoop, hlt, if_false]
      exact Engine.finalFlush_stretches e hw hi

theorem Engine.runs_filter_eq_stretches (P : Parser) (rawData : List Nat) :
    (Engine.runs P rawData).filter (fun r => decide (r.2.1 ≠ 0)) = Engine.stretches P rawData := by
  have h := Engine.scrubLoop_stretches P
    (Engine.start P rawData ([] : List (Nat × Nat × List Nat))).inputData.length
    (Engine.start P rawData []) (by simp [Engine.WindowInv, Engine.start])
    (Engine.start_padInv P rawData []) (by simp [Engine.start]) (by simp [Engine.start])
  unfold Engine.runs Engine.scrub Engine.stretches Engine.views
  simp only
  rw [h]
  simp [Engine.start, Engine.pendingBytes, Engine.startConfig]

theorem Engine.scrubStep_tailInv (P : Parser) (e : ScrubState (List (Nat × Nat × List Nat)))
    (h : (∀ r ∈ e.sink.tail, r.2.1 ≠ 0) ∧
      (e.captureMode ≠ CaptureMode.IGNORE → e.outputLength = 0 → e.sink = [])) :
    (∀ r ∈ (Engine.scrubStep P Engine.record e).sink.tail, r.2.1 ≠ 0) ∧
    ((Engine.scrubStep P Engine.record e).captureMode ≠ CaptureMode.IGNORE →
      (Engine.scrubStep P Engine.record e).outputLength = 0 →
      (Engine.scrubStep P Engine.record e).sink = []) := by
  obtain ⟨h1, h2⟩ := h
  by_cases hc : e.inputData.getD e.inputIndex 0 &&& 0x80 = 0x00
  · unfold Engine.scrubStep
    simp only [hc, if_true]
    generalize P.parse e.currentState (e.inputData.getD e.inputIndex 0) = t
    generalize Engine.dispatch t.2 (e.captureMode, e.inputData.getD e.inputIndex 0) = r
    by_cases hr : r.1 = CaptureMode.IGNORE
    · by_cases hm : e.captureMode = CaptureMode.IGNORE
      · simp only [hr, hm, if_true, ne_eq, not_true_eq_false, if_false]
        exact ⟨h1, fun hx => absurd hx (by simp)⟩
      · simp only [hr, hm, if_true, ne_eq, not_false_eq_true, Engine.record]
        refine ⟨?_, fun hx => absurd hx (by simp)⟩
        intro q hq
        by_cases hs : e.sink = []
        · rw [hs] at hq
          simp at hq
        · rw [List.tail_append_of_ne_nil hs, List.mem_append] at hq
          rcases hq with hq | hq
          · exact h1 q hq
          · simp only [List.mem_singleton] at hq
            subst hq
            intro hz
            exact hs (h2 hm hz)
    · by_cases hm : e.captureMode = CaptureMode.IGNORE
      · simp only [hr, hm, if_false, if_true]
        exact ⟨h1, fun _ hz => absurd hz (Nat.succ_ne_zero _)⟩
      · simp only [hr, hm, if_false]
        exact ⟨h1, fun _ hz => absurd hz (Nat.succ_ne_zero _)⟩
  · rw [Engine.scrubStep_highbit P Engine.record e hc]
    have hwp := Engine.width_pos (e.inputData.getD e.inputIndex 0)
    refine ⟨h1, ?_⟩
    intro hm hz
    have hm : e.captureMode ≠ CaptureMode.IGNORE := hm
    simp only [hm, ne_eq, not_false_eq_true, if_true] at hz
    omega

theorem Engine.runs_tail_nonzero (P : Parser) (rawData : List Nat) :
    ∀ r ∈ (Engine.runs P rawData).tail, r.2.1 ≠ 0 := by
  have h : (∀ r ∈ (Engine.loopState P rawData (rawData.length + 4)).sink.tail, r.2.1 ≠ 0) ∧
      ((Engine.loopState P rawData (rawData.length + 4)).captureMode ≠ CaptureMode.IGNORE →
        (Engine.loopState P rawData (rawData.length + 4)).outputLength = 0 →
        (Engine.loopState P rawData (rawData.length + 4)).sink = []) := by
    unfold Engine.loopState
    apply Engine.scrubLoop_induction P Engine.record
      (fun e => (∀ r ∈ e.sink.tail, r.2.1 ≠ 0) ∧
        (e.captureMode ≠ CaptureMode.IGNORE → e.outputLength = 0 → e.sink = []))
    · intro e he _
      exact Engine.scrubStep_tailInv P e he
    · simp [Engine.start]
  obtain ⟨h1, h2⟩ := h
  rw [Engine.runs_eq]
  generalize Engine.loopState P rawData (rawData.length + 4) = e at *
  unfold Engine.finalFlush
  by_cases hm : e.captureMode = CaptureMode.IGNORE
  · simp only [hm, ne_eq, not_true_eq_false, if_false]
    exact h1
  · simp only [hm, ne_eq, not_false_eq_true, if_true, Engine.record]
    intro q hq
    by_cases hs : e.sink = []
    · rw [hs] at hq
      simp at hq
    · rw [List.tail_append_of_ne_nil hs, List.mem_append] at hq
      rcases hq with hq | hq
      · exact h1 q hq
      · simp only [List.mem_singleton] at hq
        subst hq
        intro hz
        exact hs (h2 hm hz)

theorem Engine.views_length (P : Parser) (rawData : List Nat) :
    (Engine.views P rawData).length = rawData.length + 4 := by
  simp [Engine.views, Engine.scanFrom_length]

/-! ## The buffer after the scan -/
theorem parseTable_whitespace (s : States) (c : Nat)
    (h : (parseTable s c).2 = Callback.whitespace) : isspace c = true := by
  by_contra hc
  cases s <;> simp [parseTable, hc] at h <;> split_ifs at h

theorem Engine.byteView_rewrite (q : Engine.Config) (c : Nat) :
    (Engine.byteView htmlParser q c).1 = c ∨
    (isspace c = true ∧ (Engine.byteView htmlParser q c).1 = 32) ∨
    (c = 34 ∧ isMarker (Engine.byteView htmlParser q c).1 = true) := by
  obtain ⟨s, m, k⟩ := q
  cases k with
  | succ k => exact Or.inl (by simp [Engine.byteView])
  | zero =>
    by_cases h0 : c &&& 0x80 = 0x00
    · simp only [Engine.byteView, h0, if_true, htmlParser]
      have hw := parseTable_whitespace s c
      have ha := parseTable_attribute s c
      generalize (parseTable s c).2 = cb at hw ha
      cases cb <;> simp_all [Engine.dispatch, Engine.startTag, Engine.multipleWhiteSpace,
        Engine.whitespace, Engine.resumeText, Engine.endTag, Engine.startStyle, Engine.endStyle,
        Engine.startSrcAttribute, Engine.endSrcAttribute, Engine.startHrefAttribute,
        Engine.endHrefAttribute, Engine.startCiteAttribute, Engine.endCiteAttribute,
        Engine.startScriptSrcAttribute, Engine.endScriptSrcAttribute, isMarker,
        Engine.beginSrcAttribute, Engine.finishSrcAttribute, Engine.beginHrefAttribute,
        Engine.finishHrefAttribute, Engine.beginCiteAttribute, Engine.finishCiteAttribute]
    · exact Or.inl (by simp [Engine.byteView, h0])

theorem Engine.scanFrom_getElem? (P : Parser) (q : Engine.Config) (xs : List Nat) (i : Nat)
    (v : Nat × Bool) (h : (Engine.scanFrom P q xs)[i]? = some v) :
    ∃ q2 c, xs[i]? = some c ∧ v = Engine.byteView P q2 c := by
  induction xs generalizing q i with
  | nil => simp [Engine.scanFrom] at h
  | cons c rest ih =>
    cases i with
    | zero =>
      simp only [Engine.scanFrom, List.getElem?_cons_zero, Option.some.injEq] at h
      exact ⟨q, c, by simp, h.symm⟩
    | succ i =>
      simp only [Engine.scanFrom, List.getElem?_cons_succ] at h
      obtain ⟨q2, d, hd, hv⟩ := ih _ i h
      exact ⟨q2, d, by simpa using hd, hv⟩

theorem Engine.byteView_highbit (P : Parser) (q : Engine.Config) (c : Nat)
    (h : ¬ (c &&& 0x80 = 0x00)) : (Engine.byteView P q c).1 = c := by
  obtain ⟨s, m, k⟩ := q
  cases k <;> simp [Engine.byteView, h]

theorem highbit_of_ge (c : Nat) (h1 : 128 ≤ c) (h2 : c < 256) : ¬ (c &&& 0x80 = 0x00) := by
  interval_cases c <;> decide

theorem Engine.scanLog_mem {σ : Type} (P : Parser) (u : σ → List Nat → Nat → Nat → σ)
    (I : ScrubState σ → Prop)
    (hstep : ∀ e, I e → e.inputIndex < e.inputData.length → I (Engine.scrubStep P u e))
    (fuel : Nat) (e : ScrubState σ) (h : I e) :
    ∀ t ∈ Engine.scanLog P u fuel e, ∃ f, I f ∧ f.inputIndex < f.inputData.length ∧
      t = (f.inputIndex, (Engine.scrubStep P u f).inputIndex - f.inputIndex,
        (Engine.scrubStep P u f).captureMode) := by
  induction fuel generalizing e with
  | zero => simp [Engine.scanLog]
  | succ n ih =>
    intro t ht
    by_cases hlt : e.inputIndex < e.inputData.length
    · rw [Engine.scanLog] at ht
      simp only [hlt, if_true, List.mem_cons] at ht
      rcases ht with rfl | ht
      · exact ⟨e, h, hlt, rfl⟩
      · exact ih _ (hstep e h hlt) t ht
    · rw [Engine.scanLog] at ht
      simp [hlt] at ht

/-! ## Byte classes and attribute values -/
theorem Engine.class_ranges (c : Nat) (h : c < 256) :
    (c &&& 0x80 = 0x00 ↔ c < 128) ∧ (c &&& 0xE0 = 0xC0 ↔ 192 ≤ c ∧ c < 224) ∧
    (c &&& 0xF0 = 0xE0 ↔ 224 ≤ c ∧ c < 240) ∧ (c &&& 0xF8 = 0xF0 ↔ 240 ≤ c ∧ c < 248) ∧
    (c &&& 0xC0 = 0x80 ↔ 128 ≤ c ∧ c < 192) ∧ (c &&& 0xF8 = 0xF8 ↔ 248 ≤ c) := by
  interval_cases c <;> decide

theorem Engine.visibleFrom_map_snd (k : Nat) (views : List (Nat × Bool)) :
    (Engine.visibleFrom k views).map Prod.snd
      = (views.filter (fun v => v.2)).map Prod.fst := by
  induction views generalizing k with
  | nil => simp [Engine.visibleFrom]
  | cons v rest ih =>
    rw [Engine.visibleFrom_cons, List.map_append, ih]
    cases hv : v.2 <;> simp [hv]

theorem Scrubber.scrubWith_eq_filter (P : Parser) (rawData : List Nat) :
    Scrubber.scrubWith P rawData
      = ((Engine.views P rawData).filter (fun v => v.2)).map Prod.fst := by
  rw [Scrubber.scrubWith_eq_deliveries, Engine.deliveries_eq_visible,
    Engine.visibleFrom_map_snd]
  rfl

theorem Engine.quote_scan (s : States) (U : List Nat)
    (hs : s = States.IN_TAG_SPACE_SRC_EQUALS_QUOTE ∨ s = States.IN_TAG_SPACE_HREF_EQUALS_QUOTE ∨
      s = States.IN_TAG_SPACE_CITE_EQUALS_QUOTE)
    (hU : ∀ b ∈ U, b < 128 ∧ b ≠ 34) :
    Engine.scanFrom htmlParser ⟨s, CaptureMode.IN_URL, 0⟩ U = U.map (fun c => (c, true)) ∧
    Engine.configAfter htmlParser ⟨s, CaptureMode.IN_URL, 0⟩ U
      = ⟨s, CaptureMode.IN_URL, 0⟩ := by
  induction U with
  | nil => exact ⟨rfl, rfl⟩
  | cons c rest ih =>
    obtain ⟨hc, hne⟩ := hU c (List.mem_cons_self _ _)
    have h0 := and_128_of_lt c hc
    obtain ⟨i1, i2⟩ := ih (fun b hb => hU b (List.mem_cons_of_mem _ hb))
    have hn : Engine.nextConfig htmlParser ⟨s, CaptureMode.IN_URL, 0⟩ c
        = ⟨s, CaptureMode.IN_URL, 0⟩ ∧
        Engine.byteView htmlParser ⟨s, CaptureMode.IN_URL, 0⟩ c = (c, true) := by
      rcases hs with rfl | rfl | rfl <;>
        simp [Engine.nextConfig, Engine.byteView, h0, htmlParser, parseTable, hne,
          Engine.dispatch]
    exact ⟨by simp [Engine.scanFrom, hn.1, hn.2, i1], by simp [Engine.configAfter, hn.1, i2]⟩

theorem Engine.attribute_views (pre : List Nat) (s : States) (fin : Nat)
    (V : List (Nat × Bool))
    (hs : s = States.IN_TAG_SPACE_SRC_EQUALS_QUOTE ∨ s = States.IN_TAG_SPACE_HREF_EQUALS_QUOTE ∨
      s = States.IN_TAG_SPACE_CITE_EQUALS_QUOTE)
    (h1 : Engine.scanFrom htmlParser (Engine.startConfig htmlParser) pre = V)
    (h2 : Engine.configAfter htmlParser (Engine.startConfig htmlParser) pre
      = ⟨s, CaptureMode.IN_URL, 0⟩)
    (h3 : Engine.scanFrom htmlParser ⟨s, CaptureMode.IN_URL, 0⟩ (ascii "\">" ++ [0, 0, 0, 0])
      = [(fin, false), (62, false), (0, true), (0, true), (0, true), (0, true)])
    (U : List Nat) (hU : ∀ b ∈ U, b < 128 ∧ b ≠ 34) :
    Engine.views htmlParser (pre ++ U ++ ascii "\">")
      = V ++ U.map (fun c => (c, true))
        ++ [(fin, false), (62, false), (0, true), (0, true), (0, true), (0, true)] := by
  obtain ⟨q1, q2⟩ := Engine.quote_scan s U hs hU
  unfold Engine.views
  rw [List.append_assoc, List.append_assoc, Engine.scanFrom_append, h1, h2,
    Engine.scanFrom_append, q1, q2, h3, List.append_assoc]

theorem Engine.attribute_result (pre : List Nat) (fin : Nat) (V : List (Nat × Bool))
    (U : List Nat) (hV : V.length = pre.length)
    (h : Engine.views htmlParser (pre ++ U ++ ascii "\">")
      = V ++ U.map (fun c => (c, true))
        ++ [(fin, false), (62, false), (0, true), (0, true), (0, true), (0, true)]) :
    Scrubber.scrub (pre ++ U ++ ascii "\">")
        = (V.filter (fun v => v.2)).map Prod.fst ++ U ++ [0, 0, 0, 0] ∧
    ¬ Engine.delivered htmlParser (pre ++ U ++ ascii "\">") (pre.length + U.length) ∧
    (Engine.buffer htmlParser (pre ++ U ++ ascii "\">"))[pre.length + U.length]? = some fin := by
  have hidx : (V ++ U.map (fun c => (c, true))
        ++ [(fin, false), (62, false), (0, true), (0, true), (0, true), (0, true)])[
          pre.length + U.length]? = some (fin, false) := by
    rw [List.getElem?_append_right (by simp [hV])]
    simp [hV]
  refine ⟨?_, ?_, ?_⟩
  · unfold Scrubber.scrub
    rw [Scrubber.scrubWith_eq_filter, h]
    simp [List.filter_append, List.filter_map, Function.comp_def]
  · rintro ⟨b, hb⟩
    rw [Engine.mem_deliveries] at hb
    have hv : Engine.scanFrom htmlParser (Engine.startConfig htmlParser)
        (pre ++ U ++ ascii "\">" ++ [0, 0, 0, 0]) = Engine.views htmlParser (pre ++ U ++ ascii "\">") :=
      rfl
    rw [hv, h, hidx] at hb
    simp at hb
  · rw [Engine.buffer_eq_views, List.getElem?_map, h, hidx]
    rfl

/-! ## The script src attribute, the per-byte filter and the capture modes -/

theorem Engine.script_quote_scan (U : List Nat) (hU : ∀ b ∈ U, b < 128 ∧ b ≠ 34) :
    Engine.scanFrom htmlParser
        ⟨States.IN_TAG_SCRIPT_SPACE_SRC_EQUALS_QUOTE, CaptureMode.IN_URL, 0⟩ U
      = U.map (fun c => (c, true)) ∧
    Engine.configAfter htmlParser
        ⟨States.IN_TAG_SCRIPT_SPACE_SRC_EQUALS_QUOTE, CaptureMode.IN_URL, 0⟩ U
      = ⟨States.IN_TAG_SCRIPT_SPACE_SRC_EQUALS_QUOTE, CaptureMode.IN_URL, 0⟩ := by
  induction U with
  | nil => exact ⟨rfl, rfl⟩
  | cons c rest ih =>
    obtain ⟨hc, hne⟩ := hU c (List.mem_cons_self _ _)
    have h0 := and_128_of_lt c hc
    obtain ⟨i1, i2⟩ := ih (fun b hb => hU b (List.mem_cons_of_mem _ hb))
    have hn : Engine.nextConfig htmlParser
          ⟨States.IN_TAG_SCRIPT_SPACE_SRC_EQUALS_QUOTE, CaptureMode.IN_URL, 0⟩ c
        = ⟨States.IN_TAG_SCRIPT_SPACE_SRC_EQUALS_QUOTE, CaptureMode.IN_URL, 0⟩ ∧
        Engine.byteView htmlParser
          ⟨States.IN_TAG_SCRIPT_SPACE_SRC_EQUALS_QUOTE, CaptureMode.IN_URL, 0⟩ c
        = (c, true) := by
      simp [Engine.nextConfig, Engine.byteView, h0, htmlParser, parseTable, hne,
        Engine.dispatch]
    exact ⟨by simp [Engine.scanFrom, hn.1, hn.2, i1], by simp [Engine.configAfter, hn.1, i2]⟩

theorem Engine.script_src_views (U : List Nat) (hU : ∀ b ∈ U, b < 128 ∧ b ≠ 34) :
    Engine.views htmlParser (ascii "<script src=\"" ++ U ++ ascii "\"></script>x")
      = [(60, false), (115, false), (99, false), (114, false), (105, false), (112, false),
          (116, false), (32, false), (115, false), (114, false), (99, false), (61, false),
          (0x18, true)]
        ++ U.map (fun c => (c, true))
        ++ [(0x19, false), (62, true), (60, false), (47, false), (115, false), (99, false),
          (114, false), (105, false), (112, false), (116, false), (62, false), (120, true),
          (0, true), (0, true), (0, true), (0, true)] := by
  obtain ⟨q1, q2⟩ := Engine.script_quote_scan U hU
  have h1 : Engine.scanFrom htmlParser (Engine.startConfig htmlParser) (ascii "<script src=\"")
      = [(60, false), (115, false), (99, false), (114, false), (105, false), (112, false),
          (116, false), (32, false), (115, false), (114, false), (99, false), (61, false),
          (0x18, true)] := by decide
  have h2 : Engine.configAfter htmlParser (Engine.startConfig htmlParser)
      (ascii "<script src=\"")
      = ⟨States.IN_TAG_SCRIPT_SPACE_SRC_EQUALS_QUOTE, CaptureMode.IN_URL, 0⟩ := by decide
  have h3 : Engine.scanFrom htmlParser
      ⟨States.IN_TAG_SCRIPT_SPACE_SRC_EQUALS_QUOTE, CaptureMode.IN_URL, 0⟩
      (ascii "\"></script>x" ++ [0, 0, 0, 0])
      = [(0x19, false), (62, true), (60, false), (47, false), (115, false), (99, false),
          (114, false), (105, false), (112, false), (116, false), (62, false), (120, true),
          (0, true), (0, true), (0, true), (0, true)] := by decide
  unfold Engine.views
  rw [List.append_assoc, List.append_assoc, Engine.scanFrom_append, h1, h2,
    Engine.scanFrom_append, q1, q2, h3, List.append_assoc]

theorem Engine.script_src_result (U : List Nat)
    (h : Engine.views htmlParser (ascii "<script src=\"" ++ U ++ ascii "\"></script>x")
      = [(60, false), (115, false), (99, false), (114, false), (105, false), (112, false),
          (116, false), (32, false), (115, false), (114, false), (99, false), (61, false),
          (0x18, true)]
        ++ U.map (fun c => (c, true))
        ++ [(0x19, false), (62, true), (60, false), (47, false), (115, false), (99, false),
          (114, false), (105, false), (112, false), (116, false), (62, false), (120, true),
          (0, true), (0, true), (0, true), (0, true)]) :
    (Engine.views htmlParser (ascii "<script src=\"" ++ U ++ ascii "\"></script>x"))[
        13 + U.length]? = some (0x19, false) ∧
    (Engine.views htmlParser (ascii "<script src=\"" ++ U ++ ascii "\"></script>x"))[
        14 + U.length]? = some (62, true) := by
  have hl : ([(60, false), (115, false), (99, false), (114, false), (105, false), (112, false),
      (116, false), (32, false), (115, false), (114, false), (99, false), (61, false),
      (0x18, true)] ++ U.map (fun c => ((c, true) : Nat × Bool))).length = 13 + U.length := by
    simp only [List.length_append, List.length_map, List.length_cons, List.length_nil]
  rw [h]
  constructor
  · rw [List.getElem?_append_right (by rw [hl]), hl, Nat.sub_self]
    rfl
  · rw [List.getElem?_append_right (by rw [hl]; omega), hl,
      show 14 + U.length - (13 + U.length) = 1 by omega]
    rfl

theorem Engine.dispatch_mode (cb : Callback) (v : CaptureMode × Nat) :
    (Engine.dispatch cb v).1 = v.1 ∨ (Engine.dispatch cb v).1 = CaptureMode.IGNORE ∨
    (Engine.dispatch cb v).1 = CaptureMode.IN_TEXT ∨
    (Engine.dispatch cb v).1 = CaptureMode.IN_STYLE ∨
    (Engine.dispatch cb v).1 = CaptureMode.IN_URL := by
  cases cb <;>
    simp [Engine.dispatch, Engine.startTag, Engine.multipleWhiteSpace, Engine.whitespace,
      Engine.resumeText, Engine.endTag, Engine.startSrcAttribute, Engine.endSrcAttribute,
      Engine.startHrefAttribute, Engine.endHrefAttribute, Engine.startCiteAttribute,
      Engine.endCiteAttribute, Engine.startScriptSrcAttribute, Engine.endScriptSrcAttribute,
      Engine.startStyle, Engine.endStyle]

theorem Engine.scrubStep_mode {σ : Type} (P : Parser) (u : σ → List Nat → Nat → Nat → σ)
    (e : ScrubState σ) (h : e.captureMode ≠ CaptureMode.IN_SCRIPT) :
    (Engine.scrubStep P u e).captureMode ≠ CaptureMode.IN_SCRIPT := by
  have hd := Engine.dispatch_mode (P.parse e.currentState (e.inputData.getD e.inputIndex 0)).2
    (e.captureMode, e.inputData.getD e.inputIndex 0)
  unfold Engine.scrubStep
  simp only
  split_ifs <;> first
    | exact h
    | (rcases hd with hd | hd | hd | hd | hd <;> simp_all)


theorem Engine.scannedVisible_iff (P : Parser) (rawData : List Nat) (i : Nat) :
    Engine.scannedVisible P rawData i = true ↔ Engine.visibleAt P rawData i := by
  simp [Engine.scannedVisible, Engine.visibleAt, List.any_eq_true]

theorem Engine.scanLog_lower {σ : Type} (P : Parser) (u : σ → List Nat → Nat → Nat → σ)
    (fuel : Nat) (e : ScrubState σ) :
    ∀ t ∈ Engine.scanLog P u fuel e, e.inputIndex ≤ t.1 := by
  induction fuel generalizing e with
  | zero => simp [Engine.scanLog]
  | succ n ih =>
    intro t ht
    rw [Engine.scanLog] at ht
    split_ifs at ht with hlt
    · rcases List.mem_cons.1 ht with rfl | ht
      · exact le_refl _
      · exact le_trans (le_of_lt (Engine.scrubStep_inputIndex_lt P u e)) (ih _ t ht)
    · simp at ht

theorem Engine.scanLog_disjoint {σ : Type} (P : Parser) (u : σ → List Nat → Nat → Nat → σ)
    (fuel : Nat) (e : ScrubState σ) (t t2 : Nat × Nat × CaptureMode)
    (ht : t ∈ Engine.scanLog P u fuel e) (ht2 : t2 ∈ Engine.scanLog P u fuel e) (i : Nat)
    (h1 : t.1 ≤ i) (h2 : i < t.1 + t.2.1) (h3 : t2.1 ≤ i) (h4 : i < t2.1 + t2.2.1) :
    t = t2 := by
  induction fuel generalizing e with
  | zero => simp [Engine.scanLog] at ht
  | succ n ih =>
    rw [Engine.scanLog] at ht ht2
    split_ifs at ht ht2 with hlt
    · have hs := Engine.scrubStep_inputIndex_lt P u e
      rcases List.mem_cons.1 ht with rfl | ht
      · rcases List.mem_cons.1 ht2 with rfl | ht2
        · rfl
        · have := Engine.scanLog_lower P u n _ t2 ht2
          simp only at h1 h2
          omega
      · rcases List.mem_cons.1 ht2 with rfl | ht2
        · have := Engine.scanLog_lower P u n _ t ht
          simp only at h3 h4
          omega
        · exact ih _ ht ht2
    · simp at ht

theorem Engine.scanLog_getElem? {σ : Type} (P : Parser) (u : σ → List Nat → Nat → Nat → σ)
    (fuel : Nat) (e : ScrubState σ) (k : Nat) (t : Nat × Nat × CaptureMode)
    (h : (Engine.scanLog P u fuel e)[k]? = some t) :
    (Engine.scrubLoop P u k e).inputIndex < (Engine.scrubLoop P u k e).inputData.length ∧
    t = ((Engine.scrubLoop P u k e).inputIndex,
      (Engine.scrubStep P u (Engine.scrubLoop P u k e)).inputIndex
        - (Engine.scrubLoop P u k e).inputIndex,
      (Engine.scrubStep P u (Engine.scrubLoop P u k e)).captureMode) := by
  induction fuel generalizing e k with
  | zero => simp [Engine.scanLog] at h
  | succ n ih =>
    rw [Engine.scanLog] at h
    split_ifs at h with hlt
    · cases k with
      | zero =>
        simp only [List.getElem?_cons_zero, Option.some.injEq] at h
        exact ⟨hlt, h.symm⟩
      | succ j =>
        simp only [List.getElem?_cons_succ] at h
        have := ih _ j h
        simpa [Engine.scrubLoop, hlt] using this
    · simp at h

theorem Engine.iterations_covering (P : Parser) (rawData : List Nat)
    (t : Nat × Nat × CaptureMode) (ht : t ∈ Engine.iterations P rawData) (i : Nat)
    (h1 : t.1 ≤ i) (h2 : i < t.1 + t.2.1) :
    Engine.visibleAt P rawData i ↔ t.2.2 ≠ CaptureMode.IGNORE := by
  constructor
  · rintro ⟨t2, ht2, h3, h4, h5⟩
    have := Engine.scanLog_disjoint P Engine.record _ _ t t2 ht ht2 i h1 h2 h3 h4
    rw [this]
    exact h5
  · intro h
    exact ⟨t, ht, h1, h2, h⟩

theorem Engine.delivered_iff_visibleAt (P : Parser) (rawData : List Nat) (i : Nat) :
    Engine.delivered P rawData i ↔ Engine.visibleAt P rawData i := by
  rw [Engine.visibleAt_iff]
  unfold Engine.delivered
  constructor
  · rintro ⟨b, hb⟩
    exact ⟨b, (Engine.mem_deliveries P rawData i b).1 hb⟩
  · rintro ⟨b, hb⟩
    exact ⟨b, (Engine.mem_deliveries P rawData i b).2 hb⟩

theorem Engine.iterations_chain (P : Parser) (rawData : List Nat) (k : Nat)
    (t t2 : Nat × Nat × CaptureMode)
    (h : (Engine.iterations P rawData)[k]? = some t)
    (h2 : (Engine.iterations P rawData)[k + 1]? = some t2) :
    t.1 + t.2.1 = t2.1 ∧ 0 < t.2.1 := by
  obtain ⟨hlt, rfl⟩ := Engine.scanLog_getElem? P Engine.record _ _ k t h
  obtain ⟨-, rfl⟩ := Engine.scanLog_getElem? P Engine.record _ _ (k + 1) t2 h2
  have hs := Engine.scrubStep_inputIndex_lt P Engine.record
    (Engine.scrubLoop P Engine.record k (Engine.start P rawData []))
  have hk : Engine.scrubLoop P Engine.record (k + 1) (Engine.start P rawData [])
      = Engine.scrubStep P Engine.record
          (Engine.scrubLoop P Engine.record k (Engine.start P rawData [])) := by
    rw [Engine.scrubLoop_add]
    simp [Engine.scrubLoop, hlt]
  simp only [hk]
  omega

theorem Engine.stretchesFrom_head (acc : List Nat) (k : Nat) (L : List (Nat × Bool))
    (hacc : acc ≠ []) :
    ∃ r ∈ Engine.stretchesFrom acc k L,
      r.1 = k - acc.length ∧ r.2.1 ≠ 0 ∧ r.2.2.head? = acc.head? := by
  induction L generalizing acc k with
  | nil =>
    refine ⟨(k - acc.length, acc.length, acc), by simp [Engine.stretchesFrom, hacc], rfl, ?_, rfl⟩
    simpa using hacc
  | cons x rest ih =>
    obtain ⟨b, v⟩ := x
    cases v with
    | true =>
      obtain ⟨r, hr, h1, h2, h3⟩ := ih (acc ++ [b]) (k + 1) (by simp)
      refine ⟨r, by rw [Engine.stretchesFrom_cons_true]; exact hr, ?_, h2, ?_⟩
      · rw [h1]
        simp
      · rw [h3]
        cases acc with
        | nil => exact absurd rfl hacc
        | cons a as => rfl
    | false =>
      refine ⟨(k - acc.length, acc.length, acc), ?_, rfl, ?_, rfl⟩
      · rw [Engine.stretchesFrom_cons_false]
        simp [Engine.stretchesFrom, hacc]
      · simpa using hacc

theorem Engine.stretchesFrom_start (acc : List Nat) (k : Nat) (L : List (Nat × Bool))
    (j b : Nat) (h : L[j]? = some (b, true))
    (hprev : (j = 0 ∧ acc = []) ∨ ∃ c, 1 ≤ j ∧ L[j - 1]? = some (c, false)) :
    ∃ r ∈ Engine.stretchesFrom acc k L, r.1 = k + j ∧ r.2.1 ≠ 0 ∧ r.2.2.head? = some b := by
  induction L generalizing acc k j with
  | nil => simp at h
  | cons x rest ih =>
    cases j with
    | zero =>
      rcases hprev with ⟨-, rfl⟩ | ⟨c, hc, -⟩
      · simp only [List.getElem?_cons_zero, Option.some.injEq] at h
        subst h
        obtain ⟨r, hr, h1, h2, h3⟩ := Engine.stretchesFrom_head [b] (k + 1) rest (by simp)
        refine ⟨r, by rw [Engine.stretchesFrom_cons_true]; exact hr, ?_, h2, ?_⟩
        · rw [h1]
          simp
        · rw [h3]
          rfl
      · omega
    | succ i =>
      simp only [List.getElem?_cons_succ] at h
      have hp : (i = 0 ∧ x.2 = false) ∨ ∃ c, 1 ≤ i ∧ rest[i - 1]? = some (c, false) := by
        rcases hprev with ⟨h0, -⟩ | ⟨c, -, hc⟩
        · omega
        · cases i with
          | zero =>
            left
            simp only [Nat.zero_add, Nat.sub_self, List.getElem?_cons_zero,
              Option.some.injEq] at hc
            exact ⟨rfl, by rw [hc]⟩
          | succ i2 =>
            right
            refine ⟨c, by omega, ?_⟩
            simpa using hc
      obtain ⟨x1, x2⟩ := x
      cases x2 with
      | true =>
        rcases hp with ⟨-, hx⟩ | hp
        · simp at hx
        · obtain ⟨r, hr, h1, h2, h3⟩ := ih (acc ++ [x1]) (k + 1) i h (Or.inr hp)
          refine ⟨r, by rw [Engine.stretchesFrom_cons_true]; exact hr, by omega, h2, h3⟩
      | false =>
        have hq : (i = 0 ∧ ([] : List Nat) = []) ∨ ∃ c, 1 ≤ i ∧ rest[i - 1]? = some (c, false) := by
          rcases hp with ⟨h0, -⟩ | hp
          · exact Or.inl ⟨h0, rfl⟩
          · exact Or.inr hp
        obtain ⟨r, hr, h1, h2, h3⟩ := ih [] (k + 1) i h hq
        refine ⟨r, ?_, by omega, h2, h3⟩
        rw [Engine.stretchesFrom_cons_false]
        exact List.mem_append_right _ hr

theorem Engine.filter_enum_views (vis : Nat → Bool) (A B : List (Nat × Bool))
    (hvis : ∀ i v, (A ++ B)[i]? = some v → vis i = v.2) :
    (((B.map Prod.fst).enumFrom A.length).filter (fun p => vis p.1)).map Prod.snd
      = (B.filter (fun v => v.2)).map Prod.fst := by
  induction B generalizing A with
  | nil => rfl
  | cons v rest ih =>
    have hv : vis A.length = v.2 :=
      hvis A.length v (by rw [List.getElem?_append_right (le_refl _)]; simp)
    have := ih (A ++ [v]) (by simpa using hvis)
    simp only [List.length_append, List.length_singleton] at this
    simp only [List.map_cons, List.enumFrom_cons, List.filter_cons, hv]
    cases h : v.2 <;> simp [this]

theorem Engine.runBytes_eq (P : Parser) (rawData : List Nat) :
    Engine.runBytes P rawData = (Engine.deliveries P rawData).map Prod.snd := by
  unfold Engine.runBytes Engine.deliveries Engine.positioned
  induction Engine.runs P rawData with
  | nil => rfl
  | cons r rest ih =>
    simp only [List.flatMap_cons, List.map_append, ih]
    congr 1
    simp [List.enumFrom_map_snd]

theorem Engine.perByteFilter_eq (P : Parser) (rawData : List Nat) :
    Engine.perByteFilter P rawData
      = ((Engine.views P rawData).filter (fun v => v.2)).map Prod.fst := by
  unfold Engine.perByteFilter
  rw [Engine.buffer_eq_views, List.enum]
  refine Engine.filter_enum_views (Engine.scannedVisible P rawData) [] (Engine.views P rawData) ?_
  intro i v hv
  rw [List.nil_append] at hv
  cases h : v.2 with
  | true =>
    rw [Engine.scannedVisible_iff, Engine.visibleAt_iff]
    exact ⟨v.1, by rw [hv, ← h]⟩
  | false =>
    rw [Bool.eq_false_iff]
    intro hs
    rw [Engine.scannedVisible_iff, Engine.visibleAt_iff] at hs
    obtain ⟨b, hb⟩ := hs
    rw [hv] at hb
    have : v.2 = true := by rw [Option.some.inj hb]
    rw [h] at this
    exact Bool.noConfusion this

theorem Engine.iterations_advance (P : Parser) (rawData : List Nat)
    (t : Nat × Nat × CaptureMode) (ht : t ∈ Engine.iterations P rawData) : 0 < t.2.1 := by
  obtain ⟨k, hk⟩ := List.getElem?_of_mem ht
  obtain ⟨-, rfl⟩ := Engine.scanLog_getElem? P Engine.record _ _ k t hk
  have hs := Engine.scrubStep_inputIndex_lt P Engine.record
    (Engine.scrubLoop P Engine.record k (Engine.start P rawData []))
  simp only
  omega

theorem Engine.run_starts_after_ignore (P : Parser) (rawData : List Nat) (k : Nat)
    (t t2 : Nat × Nat × CaptureMode)
    (h : (Engine.iterations P rawData)[k]? = some t)
    (h2 : (Engine.iterations P rawData)[k + 1]? = some t2)
    (hi : t.2.2 = CaptureMode.IGNORE) (hv : t2.2.2 ≠ CaptureMode.IGNORE) :
    ∃ r ∈ Engine.runs P rawData, r.1 = t2.1 ∧ r.2.1 ≠ 0 ∧
      r.2.2.head? = (Engine.buffer P rawData)[t2.1]? := by
  obtain ⟨hc, hpos⟩ := Engine.iterations_chain P rawData k t t2 h h2
  have ht := List.getElem?_mem h
  have ht2 := List.getElem?_mem h2
  have hpos2 := Engine.iterations_advance P rawData t2 ht2
  have hvis : Engine.visibleAt P rawData t2.1 := ⟨t2, ht2, le_refl _, by omega, hv⟩
  have hhid : ¬ Engine.visibleAt P rawData (t2.1 - 1) := by
    rw [Engine.iterations_covering P rawData t ht (t2.1 - 1) (by omega) (by omega)]
    exact fun hne => hne hi
  rw [Engine.visibleAt_iff] at hvis hhid
  obtain ⟨b, hb⟩ := hvis
  have hlen : t2.1 < (Engine.views P rawData).length := by
    by_contra hge
    rw [List.getElem?_eq_none (by omega)] at hb
    exact Option.noConfusion hb
  have hprev : ∃ c, (Engine.views P rawData)[t2.1 - 1]? = some (c, false) := by
    have hlt : t2.1 - 1 < (Engine.views P rawData).length := by omega
    rw [List.getElem?_eq_getElem hlt] at hhid ⊢
    cases hx : (Engine.views P rawData)[t2.1 - 1] with
    | mk c v =>
      cases v with
      | true => exact absurd ⟨c, by rw [hx]⟩ hhid
      | false => exact ⟨c, rfl⟩
  obtain ⟨c, hc2⟩ := hprev
  obtain ⟨r, hr, h1, h3, h4⟩ := Engine.stretchesFrom_start [] 0 (Engine.views P rawData) t2.1 b hb
    (Or.inr ⟨c, by omega, hc2⟩)
  have hmem : r ∈ Engine.stretches P rawData := hr
  rw [← Engine.runs_filter_eq_stretches] at hmem
  refine ⟨r, List.mem_of_mem_filter hmem, by omega, h3, ?_⟩
  rw [h4, Engine.buffer_eq_views, List.getElem?_map, hb]
  rfl

/-! ## Tokenizers that differ on the open edges -/

theorem tokenizerWith_htmlParser :
    tokenizerWith States.IN_TEXT fallbackState fallbackState = htmlParser := by
  unfold tokenizerWith htmlParser
  congr 1
  funext s c
  by_cases h : isOpenEdge s c = true
  · simp only [h, if_true]
    simp only [isOpenEdge, Bool.or_eq_true, Bool.and_eq_true, decide_eq_true_eq,
      Bool.not_eq_true', Bool.or_eq_false_iff, decide_eq_false_iff_not] at h
    rcases h with ⟨rfl, h⟩ | ⟨rfl, ⟨⟨h1, h2⟩, h3⟩, h4⟩
    · simp only [parseTable, fallbackState, h, if_true, if_false]
      split_ifs <;> rfl
    · simp only [parseTable, fallbackState, h1, h2, h3, h4, if_false]
      split_ifs <;> simp_all
  · simp only [h, if_false]
    rfl

theorem Engine.tokenizerWith_step (r : States) (fs fp : Nat → States) (q : Engine.Config)
    (c : Nat) (h : isOpenEdge q.state c = false) :
    Engine.nextConfig (tokenizerWith r fs fp) q c = Engine.nextConfig htmlParser q c ∧
    Engine.byteView (tokenizerWith r fs fp) q c = Engine.byteView htmlParser q c := by
  simp [Engine.nextConfig, Engine.byteView, tokenizerWith, htmlParser, h]

theorem Engine.scan_avoiding (r : States) (fs fp : Nat → States) (q : Engine.Config)
    (xs : List Nat) (h : Engine.avoidsOpenEdges q xs = true) :
    Engine.scanFrom (tokenizerWith r fs fp) q xs = Engine.scanFrom htmlParser q xs ∧
    Engine.configAfter (tokenizerWith r fs fp) q xs = Engine.configAfter htmlParser q xs := by
  induction xs generalizing q with
  | nil => exact ⟨rfl, rfl⟩
  | cons c rest ih =>
    simp only [Engine.avoidsOpenEdges, Bool.and_eq_true, Bool.not_eq_true'] at h
    obtain ⟨h1, h2⟩ := Engine.tokenizerWith_step r fs fp q c h.1
    obtain ⟨i1, i2⟩ := ih _ h.2
    exact ⟨by simp only [Engine.scanFrom, h1, h2, i1], by simp only [Engine.configAfter, h1, i2]⟩

theorem Engine.textConfig_closed (q : Engine.Config) (c : Nat) (hq : Engine.TextConfig q) :
    isOpenEdge q.state c = false := by
  obtain ⟨s, m, k⟩ := q
  obtain ⟨-, h⟩ := hq
  simp only at h
  rcases h with ⟨rfl, -⟩ | rfl | rfl <;> simp [isOpenEdge]

theorem Engine.avoids_text (q : Engine.Config) (xs : List Nat) (hq : Engine.TextConfig q)
    (hxs : ∀ b ∈ xs, b < 128 ∧ b ≠ 60) : Engine.avoidsOpenEdges q xs = true := by
  induction xs generalizing q with
  | nil => rfl
  | cons c rest ih =>
    have hc := hxs c (List.mem_cons_self _ _)
    simp only [Engine.avoidsOpenEdges, Bool.and_eq_true, Bool.not_eq_true']
    exact ⟨Engine.textConfig_closed q c hq,
      ih _ (Engine.textConfig_next q c hq hc.1 hc.2)
        (fun b hb => hxs b (List.mem_cons_of_mem _ hb))⟩

theorem Engine.avoids_script_open (q : Engine.Config) (hq : Engine.TextConfig q) :
    Engine.avoidsOpenEdges q (ascii "<script>") = true := by
  obtain ⟨s, m, k⟩ := q
  obtain ⟨hk, h⟩ := hq
  simp only at hk h
  subst hk
  rcases h with ⟨rfl, rfl⟩ | rfl | rfl
  · decide
  · cases m <;> decide
  · cases m <;> decide

theorem Engine.avoids_style_open (q : Engine.Config) (hq : Engine.TextConfig q) :
    Engine.avoidsOpenEdges q (ascii "<style>") = true := by
  obtain ⟨s, m, k⟩ := q
  obtain ⟨hk, h⟩ := hq
  simp only at hk h
  subst hk
  rcases h with ⟨rfl, rfl⟩ | rfl | rfl
  · decide
  · cases m <;> decide
  · cases m <;> decide

theorem Engine.avoids_style (s : States) (xs : List Nat)
    (hs : s = States.IN_STYLE_START ∨ s = States.IN_STYLE)
    (hxs : ∀ b ∈ xs, b < 128 ∧ b ≠ 60) :
    Engine.avoidsOpenEdges ⟨s, CaptureMode.IN_STYLE, 0⟩ xs = true := by
  induction xs generalizing s with
  | nil => rfl
  | cons c rest ih =>
    have hc := hxs c (List.mem_cons_self _ _)
    have hn := Engine.style_next s c hs hc.1 hc.2
    simp only [Engine.avoidsOpenEdges, Bool.and_eq_true, Bool.not_eq_true', hn.2]
    exact ⟨by rcases hs with rfl | rfl <;> simp [isOpenEdge],
      ih States.IN_STYLE (Or.inr rfl) (fun b hb => hxs b (List.mem_cons_of_mem _ hb))⟩

theorem parseTable_inTag (s : States) (c : Nat) (hs : s.inTag = true) (h62 : c ≠ 62)
    (h34 : c ≠ 34) :
    (parseTable s c).2 = Callback.noCallback ∧ (parseTable s c).1.inTag = true := by
  cases s <;> simp [States.inTag] at hs <;>
    simp only [parseTable, h62, h34, if_false] <;> (try split_ifs) <;> simp [States.inTag]

theorem tokenizerWith_inTag (r : States) (fs fp : Nat → States)
    (h1 : ∀ c, (fs c).inTag = true) (h2 : ∀ c, (fp c).inTag = true) (s : States) (c : Nat)
    (hs : s.inTag = true) (h62 : c ≠ 62) (h34 : c ≠ 34) :
    ((tokenizerWith r fs fp).parse s c).2 = Callback.noCallback ∧
    ((tokenizerWith r fs fp).parse s c).1.inTag = true := by
  simp only [tokenizerWith]
  split_ifs with ho hst
  · exact ⟨rfl, h1 c⟩
  · exact ⟨rfl, h2 c⟩
  · exact parseTable_inTag s c hs h62 h34

theorem Engine.tag_scan (r : States) (fs fp : Nat → States)
    (h1 : ∀ c, (fs c).inTag = true) (h2 : ∀ c, (fp c).inTag = true) (s : States)
    (hs : s.inTag = true) (xs : List Nat) (hxs : ∀ b ∈ xs, b < 128 ∧ b ≠ 62 ∧ b ≠ 34) :
    Engine.scanFrom (tokenizerWith r fs fp) ⟨s, CaptureMode.IGNORE, 0⟩ xs
      = xs.map (fun c => (c, false)) := by
  induction xs generalizing s with
  | nil => rfl
  | cons c rest ih =>
    obtain ⟨hc, h62, h34⟩ := hxs c (List.mem_cons_self _ _)
    have h0 := and_128_of_lt c hc
    obtain ⟨t1, t2⟩ := tokenizerWith_inTag r fs fp h1 h2 s c hs h62 h34
    have hv : Engine.byteView (tokenizerWith r fs fp) ⟨s, CaptureMode.IGNORE, 0⟩ c
        = (c, false) := by
      simp [Engine.byteView, h0, t1, Engine.dispatch]
    have hn : Engine.nextConfig (tokenizerWith r fs fp) ⟨s, CaptureMode.IGNORE, 0⟩ c
        = ⟨((tokenizerWith r fs fp).parse s c).1, CaptureMode.IGNORE, 0⟩ := by
      simp [Engine.nextConfig, h0, t1, Engine.dispatch]
    simp only [Engine.scanFrom, List.map_cons, hv, hn]
    rw [ih _ t2 (fun b hb => hxs b (List.mem_cons_of_mem _ hb))]

theorem Engine.textConfig_open_start (r : States) (fs fp : Nat → States)
    (hr : r = States.IN_TEXT ∨ r = States.IN_TEXT_SPACE ∨ r = States.IN_TEXT_MULTIPLE_SPACE) :
    Engine.TextConfig (Engine.startConfig (tokenizerWith r fs fp)) := by
  rcases hr with rfl | rfl | rfl <;> simp [Engine.TextConfig, Engine.startConfig, tokenizerWith]

theorem Engine.text_agree (r : States) (fs fp : Nat → States) (q : Engine.Config)
    (xs : List Nat) (hq : Engine.TextConfig q) (hxs : ∀ b ∈ xs, b < 128 ∧ b ≠ 60) :
    Engine.scanFrom (tokenizerWith r fs fp) q xs = Engine.scanFrom htmlParser q xs ∧
    Engine.configAfter (tokenizerWith r fs fp) q xs = Engine.configAfter htmlParser q xs :=
  Engine.scan_avoiding r fs fp q xs (Engine.avoids_text q xs hq hxs)

theorem Engine.textConfig_lt (q : Engine.Config) (hq : Engine.TextConfig q) :
    Engine.byteView htmlParser q 60 = (60, false) ∧
    Engine.nextConfig htmlParser q 60 = ⟨States.IN_TAG_START, CaptureMode.IGNORE, 0⟩ := by
  obtain ⟨s, m, k⟩ := q
  obtain ⟨hk, h⟩ := hq
  simp only at hk h
  subst hk
  have h0 : 60 &&& 0x80 = 0x00 := by decide
  rcases h with ⟨rfl, rfl⟩ | rfl | rfl <;>
    simp [Engine.byteView, Engine.nextConfig, htmlParser, parseTable, Engine.dispatch,
      Engine.startTag, h0]

theorem Engine.close_scan (r : States) (fs fp : Nat → States)
    (h1 : ∀ c, (fs c).inTag = true) (h2 : ∀ c, (fp c).inTag = true) (q : Engine.Config)
    (hq : isOpenEdge q.state 60 = false)
    (h60 : Engine.byteView htmlParser q 60 = (60, false) ∧
      Engine.nextConfig htmlParser q 60 = ⟨States.IN_TAG_START, CaptureMode.IGNORE, 0⟩)
    (xs : List Nat) (hxs : ∀ b ∈ xs, b < 128 ∧ b ≠ 62 ∧ b ≠ 34) :
    Engine.scanFrom (tokenizerWith r fs fp) q (60 :: xs) = (60 :: xs).map (fun c => (c, false)) := by
  obtain ⟨s1, s2⟩ := Engine.tokenizerWith_step r fs fp q 60 hq
  simp only [Engine.scanFrom, List.map_cons, s1, s2, h60.1, h60.2]
  rw [Engine.tag_scan r fs fp h1 h2 States.IN_TAG_START rfl xs hxs]

theorem Engine.space_first (W : List Nat) (hne : W ≠ []) (hW : ∀ b ∈ W, isspace b = true) :
    (Engine.scanFrom htmlParser ⟨States.IN_TEXT, CaptureMode.IN_TEXT, 0⟩ W)[0]?
      = some (32, true) ∧
    ∀ j, 1 ≤ j → j < W.length →
      ∃ b, (Engine.scanFrom htmlParser ⟨States.IN_TEXT, CaptureMode.IN_TEXT, 0⟩ W)[j]?
        = some (b, false) := by
  obtain ⟨c, rest, rfl⟩ := List.exists_cons_of_ne_nil hne
  have hw := hW c (List.mem_cons_self _ _)
  have hc := isspace_lt c hw
  have h0 := and_128_of_lt c hc.1
  have hview : Engine.byteView htmlParser ⟨States.IN_TEXT, CaptureMode.IN_TEXT, 0⟩ c
        = (32, true) ∧
      Engine.nextConfig htmlParser ⟨States.IN_TEXT, CaptureMode.IN_TEXT, 0⟩ c
        = ⟨States.IN_TEXT_SPACE, CaptureMode.IN_TEXT, 0⟩ := by
    simp [Engine.byteView, Engine.nextConfig, htmlParser, parseTable, hw, hc.2, h0,
      Engine.dispatch, Engine.whitespace]
  constructor
  · simp [Engine.scanFrom, hview.1]
  · intro j h1 h2
    obtain ⟨k, rfl⟩ : ∃ k, j = k + 1 := ⟨j - 1, by omega⟩
    simp only [Engine.scanFrom, List.getElem?_cons_succ, hview.2]
    exact ⟨_, Engine.space_scan _ _ rest (Or.inl rfl)
      (fun b hb => hW b (List.mem_cons_of_mem _ hb)) k (by simpa using h2)⟩

theorem States.inTag_of_isGeneric (s : States) (h : s.isGeneric = true) : s.inTag = true := by
  cases s <;> simp [States.isGeneric] at h <;> rfl

theorem fallbackState_isGeneric (c : Nat) : (fallbackState c).isGeneric = true := by
  unfold fallbackState
  split_ifs <;> rfl

theorem slashState_isGeneric (c : Nat) : (slashState c).isGeneric = true := by
  unfold slashState
  split_ifs
  · rfl
  · exact fallbackState_isGeneric c

/-- A two-byte character between the letters of an attribute name is passed without a call
of `parse`: on `<s s` `0xC3 0xA9` `rc="u">t`, an input without a byte in `0x18 .. 0x1D` and
without the letters `src`, the tokenizer walks `s`, `r`, `c`, `=`, `"` across the character
and the output begins with `beginSrcAttribute`, whatever the open edges are. -/
theorem Scrubber.scrub_multibyte_in_attribute_name (fromStart fromSpace : Nat → States) :
    (∀ b ∈ ascii "<s s" ++ [0xC3, 0xA9] ++ ascii "rc=\"u\">t", isMarker b = false) ∧
    ¬ ascii "src" <:+: ascii "<s s" ++ [0xC3, 0xA9] ++ ascii "rc=\"u\">t" ∧
    Scrubber.scrubWith (tokenizerWith States.IN_TEXT fromStart fromSpace)
        (ascii "<s s" ++ [0xC3, 0xA9] ++ ascii "rc=\"u\">t")
      = [0x18, 117, 116, 0, 0, 0, 0] := by
  refine ⟨by decide, by decide, ?_⟩
  rw [Scrubber.scrubWith_eq_filter]
  unfold Engine.views
  have hs : Engine.startConfig (tokenizerWith States.IN_TEXT fromStart fromSpace)
      = Engine.startConfig htmlParser := rfl
  rw [hs, (Engine.scan_avoiding States.IN_TEXT fromStart fromSpace _ _ (by decide)).1]
  decide

/-- A two-byte character after a whitespace byte leaves the tokenizer in `IN_TEXT_SPACE`:
on `a `, `0xC3 0xA9`, ` b` the second whitespace byte is not delivered, whatever the open
edges are. -/
theorem Scrubber.scrub_space_after_multibyte (fromStart fromSpace : Nat → States) :
    Scrubber.scrubWith (tokenizerWith States.IN_TEXT fromStart fromSpace)
        (ascii "a " ++ [0xC3, 0xA9] ++ ascii " b")
      = ascii "a " ++ [0xC3, 0xA9] ++ ascii "b" ++ [0, 0, 0, 0] := by
  rw [Scrubber.scrubWith_eq_filter]
  unfold Engine.views
  have hs : Engine.startConfig (tokenizerWith States.IN_TEXT fromStart fromSpace)
      = Engine.startConfig htmlParser := rfl
  rw [hs, (Engine.scan_avoiding States.IN_TEXT fromStart fromSpace _ _ (by decide)).1]
  decide

/-! ## Claims -/

/-- Claim C1, hash consistency.  For every tokenizer table, every input and every streaming
hash (adding nothing changes nothing, and adding two pieces one after the other is adding
their concatenation), the digest returned by `Hasher::scrubAndHash` is the hash of the bytes
returned by `Scrubber::scrub`, and the sequence of `update` calls (offset, length, bytes)
that the engine makes is the same under both sinks. -/
theorem Hasher.scrubAndHash_eq_hash_scrub (P : Parser) (A : HashAlgorithm)
    (hnil : ∀ h, A.addData h [] = h)
    (happ : ∀ h a b, A.addData (A.addData h a) b = A.addData h (a ++ b))
    (rawData : List Nat) :
    Hasher.scrubAndHashWith P A rawData = A.hash (Scrubber.scrubWith P rawData) ∧
    (Engine.scrub P (Engine.observed (Hasher.update A)) rawData (A.reset, [])).sink.2
      = (Engine.scrub P (Engine.observed Scrubber.update) rawData ([], [])).sink.2 := by
  constructor
  · have h := Engine.scrub_sim P (Hasher.update A) Scrubber.update
      (fun c out => c = A.addData A.reset out)
      (by
        intro s t buffer base n hst
        simp only [Hasher.update, Scrubber.update, hst, happ])
      rawData A.reset [] (hnil A.reset).symm
    unfold Hasher.scrubAndHashWith HashAlgorithm.hash Scrubber.scrubWith
    rw [h.2.2.2.2.2.2]
  · have h := Engine.scrub_sim P (Engine.observed (Hasher.update A))
      (Engine.observed Scrubber.update) (fun s t => s.2 = t.2)
      (by
        intro s t buffer base n hst
        simp only [Engine.observed, hst])
      rawData (A.reset, []) ([], []) rfl
    exact h.2.2.2.2.2.2

/-- Witness of C1: the byte-sum hash on the input `<p>hello</p>`. -/
theorem Hasher.scrubAndHash_eq_hash_scrub_witness :
    (∀ h, sumHash.addData h [] = h) ∧
    (∀ h a b, sumHash.addData (sumHash.addData h a) b = sumHash.addData h (a ++ b)) ∧
    Hasher.scrubAndHashWith htmlParser sumHash (ascii "<p>hello</p>")
      = sumHash.hash (Scrubber.scrubWith htmlParser (ascii "<p>hello</p>")) :=
  ⟨by intro h; simp [sumHash], by intro h a b; simp [sumHash, Nat.add_assoc],
    (Hasher.scrubAndHash_eq_hash_scrub htmlParser sumHash (by intro h; simp [sumHash])
      (by intro h a b; simp [sumHash, Nat.add_assoc]) (ascii "<p>hello</p>")).1⟩

/-- Claim C2, tag removal, evaluated on the code: `Scrubber::scrub` applied to the 12 bytes
`<p>hello</p>` returns 9 bytes, `hello` followed by the four zero bytes of the padding, not
the 5 bytes `hello`. -/
theorem Scrubber.scrub_tag_removal_keeps_padding :
    Scrubber.scrub (ascii "<p>hello</p>") = ascii "hello" ++ [0, 0, 0, 0] ∧
    Scrubber.scrub (ascii "<p>hello</p>") ≠ ascii "hello" := by decide

/-- Counterexample to C3 as stated: on `a<script>var x=1;</script>b` the output begins with
`a>var x=1;`, so it is not `ab`; the body byte `v` at position 9 is delivered to the sink. -/
theorem Scrubber.scrub_script_body_delivered :
    (Scrubber.scrub (ascii "a<script>var x=1;</script>b")).take 10 = ascii "a>var x=1;" ∧
    Scrubber.scrub (ascii "a<script>var x=1;</script>b") ≠ ascii "ab" ∧
    (9, 118) ∈ Engine.deliveries htmlParser (ascii "a<script>var x=1;</script>b") := by
  decide

/-- Claim C3, amended.  For every input `A ++ "<script>" ++ BODY ++ "</script>" ++ B` in
which `A` and `BODY` are ASCII bytes other than `<`: none of the seven bytes `<script` of the
opening tag is delivered to the sink, none of the eight bytes `</script` of the closing tag
is delivered, and the body is scanned as ordinary text, so that each of its bytes that is not
whitespace is delivered, unchanged, at its own position.  This holds for every tokenizer
`tokenizerWith reset fromStart fromSpace` whose `reset` state is a text state and whose open
edges lead to a generic in-tag state, `htmlParser` among them: it does not depend on the edges that the
sources leave open. -/
theorem Engine.script_tags_not_delivered (reset : States) (fromStart fromSpace : Nat → States)
    (A BODY B : List Nat)
    (hreset : reset = States.IN_TEXT ∨ reset = States.IN_TEXT_SPACE ∨
      reset = States.IN_TEXT_MULTIPLE_SPACE)
    (hStart : ∀ c, (fromStart c).isGeneric = true)
    (hSpace : ∀ c, (fromSpace c).isGeneric = true)
    (hA : ∀ b ∈ A, b < 128 ∧ b ≠ 60) (hBODY : ∀ b ∈ BODY, b < 128 ∧ b ≠ 60) :
    (∀ i, A.length ≤ i → i < A.length + 7 →
      ¬ Engine.delivered (tokenizerWith reset fromStart fromSpace)
          (A ++ ascii "<script>" ++ BODY ++ ascii "</script>" ++ B) i) ∧
    (∀ i, A.length + 8 + BODY.length ≤ i → i < A.length + 8 + BODY.length + 8 →
      ¬ Engine.delivered (tokenizerWith reset fromStart fromSpace)
          (A ++ ascii "<script>" ++ BODY ++ ascii "</script>" ++ B) i) ∧
    (∀ j (hj : j < BODY.length), isspace BODY[j] = false →
      (A.length + 8 + j, BODY[j]) ∈ Engine.deliveries (tokenizerWith reset fromStart fromSpace)
          (A ++ ascii "<script>" ++ BODY ++ ascii "</script>" ++ B)) := by
  have hq0 := Engine.textConfig_open_start reset fromStart fromSpace hreset
  have hqA : Engine.TextConfig (Engine.configAfter (tokenizerWith reset fromStart fromSpace)
      (Engine.startConfig (tokenizerWith reset fromStart fromSpace)) A) := by
    rw [(Engine.text_agree reset fromStart fromSpace _ A hq0 hA).2]
    exact Engine.textConfig_after _ A hq0 hA
  have hav := Engine.scan_avoiding reset fromStart fromSpace _ (ascii "<script>")
    (Engine.avoids_script_open _ hqA)
  have hopen := Engine.scan_script_open _ hqA
  have hq2 : Engine.TextConfig (Engine.configAfter (tokenizerWith reset fromStart fromSpace)
      (Engine.startConfig (tokenizerWith reset fromStart fromSpace))
      (A ++ ascii "<script>")) := by
    rw [Engine.configAfter_append, hav.2, hopen.2]
    simp [Engine.TextConfig]
  have hq3 : Engine.TextConfig (Engine.configAfter (tokenizerWith reset fromStart fromSpace)
      (Engine.startConfig (tokenizerWith reset fromStart fromSpace))
      (A ++ ascii "<script>" ++ BODY)) := by
    rw [Engine.configAfter_append, (Engine.text_agree reset fromStart fromSpace _ BODY hq2 hBODY).2]
    exact Engine.textConfig_after _ BODY hq2 hBODY
  have hlen : (ascii "<script>").length = 8 := by decide
  refine ⟨?_, ?_, ?_⟩
  · rintro i h1 h2 ⟨b, hb⟩
    obtain ⟨j, rfl⟩ : ∃ j, i = A.length + j := ⟨i - A.length, by omega⟩
    rw [Engine.mem_deliveries] at hb
    have e : A ++ ascii "<script>" ++ BODY ++ ascii "</script>" ++ B ++ [0, 0, 0, 0]
        = A ++ ascii "<script>" ++ (BODY ++ ascii "</script>" ++ B ++ [0, 0, 0, 0]) := by
      simp [List.append_assoc]
    rw [e, Engine.scanFrom_getElem?_mid _ _ _ _ _ j (by rw [hlen]; omega), hav.1, hopen.1] at hb
    have hj : j < 7 := by omega
    interval_cases j <;> simp at hb
  · rintro i h1 h2 ⟨b, hb⟩
    obtain ⟨j, rfl⟩ : ∃ j, i = (A ++ ascii "<script>" ++ BODY).length + j :=
      ⟨i - (A.length + 8 + BODY.length), by simp [hlen]; omega⟩
    simp only [List.length_append, hlen] at h2
    rw [Engine.mem_deliveries] at hb
    have e : A ++ ascii "<script>" ++ BODY ++ ascii "</script>" ++ B ++ [0, 0, 0, 0]
        = (A ++ ascii "<script>" ++ BODY) ++ (60 :: ascii "/script")
          ++ (ascii ">" ++ (B ++ [0, 0, 0, 0])) := by
      have : ascii "</script>" = (60 :: ascii "/script") ++ ascii ">" := by decide
      rw [this]
      simp [List.append_assoc]
    have hlen2 : (60 :: ascii "/script").length = 8 := by decide
    rw [e, Engine.scanFrom_getElem?_mid _ _ _ _ _ j (by rw [hlen2]; omega),
      Engine.close_scan reset fromStart fromSpace
        (fun c => States.inTag_of_isGeneric _ (hStart c))
        (fun c => States.inTag_of_isGeneric _ (hSpace c)) _
        (Engine.textConfig_closed _ 60 hq3) (Engine.textConfig_lt _ hq3) (ascii "/script")
        (by decide)] at hb
    have hj : j < 8 := by omega
    interval_cases j <;> simp [ascii] at hb
  · intro j hj hs
    rw [Engine.mem_deliveries]
    have e : A ++ ascii "<script>" ++ BODY ++ ascii "</script>" ++ B ++ [0, 0, 0, 0]
        = (A ++ ascii "<script>") ++ BODY ++ (ascii "</script>" ++ B ++ [0, 0, 0, 0]) := by
      simp [List.append_assoc]
    have e2 : A.length + 8 + j = (A ++ ascii "<script>").length + j := by simp [hlen]
    rw [e, e2, Engine.scanFrom_getElem?_mid _ _ _ _ _ j hj,
      (Engine.text_agree reset fromStart fromSpace _ BODY hq2 hBODY).1]
    exact Engine.textConfig_scan _ BODY hq2 hBODY j hj hs

/-- Witness of C3 amended: `A = "a"`, `BODY = "var x=1;"`, `B = "b"`.  With the open edges of
`htmlParser` the `<` at position 1 is not delivered and the `v` at position 9 is; with the open
edges of `slashState` the `t` of the closing tag at position 24 is not
delivered. -/
theorem Engine.script_tags_not_delivered_witness :
    (∀ c, (fallbackState c).isGeneric = true) ∧
    (∀ c, (slashState c).isGeneric = true) ∧
    (∀ b ∈ ascii "a", b < 128 ∧ b ≠ 60) ∧ (∀ b ∈ ascii "var x=1;", b < 128 ∧ b ≠ 60) ∧
    ¬ Engine.delivered (tokenizerWith States.IN_TEXT fallbackState fallbackState)
        (ascii "a" ++ ascii "<script>" ++ ascii "var x=1;" ++ ascii "</script>" ++ ascii "b") 1 ∧
    (9, 118) ∈ Engine.deliveries (tokenizerWith States.IN_TEXT fallbackState fallbackState)
        (ascii "a" ++ ascii "<script>" ++ ascii "var x=1;" ++ ascii "</script>" ++ ascii "b") ∧
    ¬ Engine.delivered
        (tokenizerWith States.IN_TEXT slashState fallbackState)
        (ascii "a" ++ ascii "<script>" ++ ascii "var x=1;" ++ ascii "</script>" ++ ascii "b")
        24 :=
  ⟨fallbackState_isGeneric,
    slashState_isGeneric,
    by decide, by decide,
    (Engine.script_tags_not_delivered States.IN_TEXT fallbackState fallbackState
      (ascii "a") (ascii "var x=1;") (ascii "b") (Or.inl rfl) fallbackState_isGeneric
      fallbackState_isGeneric (by decide) (by decide)).1 1 (by decide) (by decide),
    (Engine.script_tags_not_delivered States.IN_TEXT fallbackState fallbackState
      (ascii "a") (ascii "var x=1;") (ascii "b") (Or.inl rfl) fallbackState_isGeneric
      fallbackState_isGeneric (by decide) (by decide)).2.2 0 (by decide) (by decide),
    (Engine.script_tags_not_delivered States.IN_TEXT
      slashState fallbackState
      (ascii "a") (ascii "var x=1;") (ascii "b") (Or.inl rfl)
      slashState_isGeneric
      fallbackState_isGeneric (by decide) (by decide)).2.1 24 (by decide) (by decide)⟩

/-- Counterexample to C4 as stated: on `a<style>.c{}</style>b` the output begins with
`a>.c{}`, so it is not `ab`; the body byte `.` at position 8 is delivered to the sink. -/
theorem Scrubber.scrub_style_body_delivered :
    (Scrubber.scrub (ascii "a<style>.c\x7b\x7d</style>b")).take 6 = ascii "a>.c\x7b\x7d" ∧
    Scrubber.scrub (ascii "a<style>.c\x7b\x7d</style>b") ≠ ascii "ab" ∧
    (8, 46) ∈ Engine.deliveries htmlParser (ascii "a<style>.c\x7b\x7d</style>b") := by
  decide

/-- Claim C4, amended.  For every input `A ++ "<style>" ++ BODY ++ "</style>" ++ B` in which
`A` and `BODY` are ASCII bytes other than `<` and `BODY` is not empty: none of the six bytes
`<style` of the opening tag is delivered to the sink, none of the seven bytes `</style` of
the closing tag is delivered, and every byte of the style body is delivered, unchanged, at
its own position (the body is captured in mode `IN_STYLE`).  This holds for every tokenizer
`tokenizerWith reset fromStart fromSpace` whose `reset` state is a text state and whose open
edges lead to a generic in-tag state, `htmlParser` among them: it does not depend on the edges that the
sources leave open. -/
theorem Engine.style_tags_not_delivered (reset : States) (fromStart fromSpace : Nat → States)
    (A BODY B : List Nat)
    (hreset : reset = States.IN_TEXT ∨ reset = States.IN_TEXT_SPACE ∨
      reset = States.IN_TEXT_MULTIPLE_SPACE)
    (hStart : ∀ c, (fromStart c).isGeneric = true)
    (hSpace : ∀ c, (fromSpace c).isGeneric = true)
    (hA : ∀ b ∈ A, b < 128 ∧ b ≠ 60) (hBODY : ∀ b ∈ BODY, b < 128 ∧ b ≠ 60)
    (hne : BODY ≠ []) :
    (∀ i, A.length ≤ i → i < A.length + 6 →
      ¬ Engine.delivered (tokenizerWith reset fromStart fromSpace)
          (A ++ ascii "<style>" ++ BODY ++ ascii "</style>" ++ B) i) ∧
    (∀ i, A.length + 7 + BODY.length ≤ i → i < A.length + 7 + BODY.length + 7 →
      ¬ Engine.delivered (tokenizerWith reset fromStart fromSpace)
          (A ++ ascii "<style>" ++ BODY ++ ascii "</style>" ++ B) i) ∧
    (∀ j (hj : j < BODY.length),
      (A.length + 7 + j, BODY[j]) ∈ Engine.deliveries (tokenizerWith reset fromStart fromSpace)
          (A ++ ascii "<style>" ++ BODY ++ ascii "</style>" ++ B)) := by
  have hq0 := Engine.textConfig_open_start reset fromStart fromSpace hreset
  have hqA : Engine.TextConfig (Engine.configAfter (tokenizerWith reset fromStart fromSpace)
      (Engine.startConfig (tokenizerWith reset fromStart fromSpace)) A) := by
    rw [(Engine.text_agree reset fromStart fromSpace _ A hq0 hA).2]
    exact Engine.textConfig_after _ A hq0 hA
  have hav := Engine.scan_avoiding reset fromStart fromSpace _ (ascii "<style>")
    (Engine.avoids_style_open _ hqA)
  have hopen := Engine.scan_style_open _ hqA
  have hq2 : Engine.configAfter (tokenizerWith reset fromStart fromSpace)
      (Engine.startConfig (tokenizerWith reset fromStart fromSpace)) (A ++ ascii "<style>")
      = ⟨States.IN_STYLE_START, CaptureMode.IN_STYLE, 0⟩ := by
    rw [Engine.configAfter_append, hav.2, hopen.2]
  have hbav := Engine.scan_avoiding reset fromStart fromSpace
    ⟨States.IN_STYLE_START, CaptureMode.IN_STYLE, 0⟩ BODY
    (Engine.avoids_style States.IN_STYLE_START BODY (Or.inl rfl) hBODY)
  have hbody := Engine.style_scan States.IN_STYLE_START BODY (Or.inl rfl) hBODY
  have hq3 : Engine.configAfter (tokenizerWith reset fromStart fromSpace)
      (Engine.startConfig (tokenizerWith reset fromStart fromSpace))
      (A ++ ascii "<style>" ++ BODY) = ⟨States.IN_STYLE, CaptureMode.IN_STYLE, 0⟩ := by
    rw [Engine.configAfter_append, hq2, hbav.2, hbody.2 hne]
  have hlen : (ascii "<style>").length = 7 := by decide
  refine ⟨?_, ?_, ?_⟩
  · rintro i h1 h2 ⟨b, hb⟩
    obtain ⟨j, rfl⟩ : ∃ j, i = A.length + j := ⟨i - A.length, by omega⟩
    rw [Engine.mem_deliveries] at hb
    have e : A ++ ascii "<style>" ++ BODY ++ ascii "</style>" ++ B ++ [0, 0, 0, 0]
        = A ++ ascii "<style>" ++ (BODY ++ ascii "</style>" ++ B ++ [0, 0, 0, 0]) := by
      simp [List.append_assoc]
    rw [e, Engine.scanFrom_getElem?_mid _ _ _ _ _ j (by rw [hlen]; omega), hav.1, hopen.1] at hb
    have hj : j < 6 := by omega
    interval_cases j <;> simp at hb
  · rintro i h1 h2 ⟨b, hb⟩
    obtain ⟨j, rfl⟩ : ∃ j, i = (A ++ ascii "<style>" ++ BODY).length + j :=
      ⟨i - (A.length + 7 + BODY.length), by simp [hlen]; omega⟩
    simp only [List.length_append, hlen] at h2
    rw [Engine.mem_deliveries] at hb
    have e : A ++ ascii "<style>" ++ BODY ++ ascii "</style>" ++ B ++ [0, 0, 0, 0]
        = (A ++ ascii "<style>" ++ BODY) ++ (60 :: ascii "/style")
          ++ (ascii ">" ++ (B ++ [0, 0, 0, 0])) := by
      have : ascii "</style>" = (60 :: ascii "/style") ++ ascii ">" := by decide
      rw [this]
      simp [List.append_assoc]
    have hlen2 : (60 :: ascii "/style").length = 7 := by decide
    rw [e, Engine.scanFrom_getElem?_mid _ _ _ _ _ j (by rw [hlen2]; omega), hq3,
      Engine.close_scan reset fromStart fromSpace
        (fun c => States.inTag_of_isGeneric _ (hStart c))
        (fun c => States.inTag_of_isGeneric _ (hSpace c)) _ (by decide) (by decide)
        (ascii "/style") (by decide)] at hb
    have hj : j < 7 := by omega
    interval_cases j <;> simp [ascii] at hb
  · intro j hj
    rw [Engine.mem_deliveries]
    have e : A ++ ascii "<style>" ++ BODY ++ ascii "</style>" ++ B ++ [0, 0, 0, 0]
        = (A ++ ascii "<style>") ++ BODY ++ (ascii "</style>" ++ B ++ [0, 0, 0, 0]) := by
      simp [List.append_assoc]
    have e2 : A.length + 7 + j = (A ++ ascii "<style>").length + j := by simp [hlen]
    rw [e, e2, Engine.scanFrom_getElem?_mid _ _ _ _ _ j hj, hq2, hbav.1, hbody.1]
    simp [hj]

/-- Witness of C4 amended: `A = "a"`, `BODY = ".c{}"`, `B = "b"`.  With the open edges of
`htmlParser` the `<` at position 1 is not delivered and the `.` at position 8 is; with the open
edges of `slashState` the `e` of the closing tag at position 18 is not
delivered. -/
theorem Engine.style_tags_not_delivered_witness :
    (∀ c, (fallbackState c).isGeneric = true) ∧
    (∀ c, (slashState c).isGeneric = true) ∧
    (∀ b ∈ ascii "a", b < 128 ∧ b ≠ 60) ∧ (∀ b ∈ ascii ".c\x7b\x7d", b < 128 ∧ b ≠ 60) ∧
    ascii ".c\x7b\x7d" ≠ [] ∧
    ¬ Engine.delivered (tokenizerWith States.IN_TEXT fallbackState fallbackState)
        (ascii "a" ++ ascii "<style>" ++ ascii ".c\x7b\x7d" ++ ascii "</style>" ++ ascii "b") 1 ∧
    (8, 46) ∈ Engine.deliveries (tokenizerWith States.IN_TEXT fallbackState fallbackState)
        (ascii "a" ++ ascii "<style>" ++ ascii ".c\x7b\x7d" ++ ascii "</style>" ++ ascii "b") ∧
    ¬ Engine.delivered
        (tokenizerWith States.IN_TEXT slashState fallbackState)
        (ascii "a" ++ ascii "<style>" ++ ascii ".c\x7b\x7d" ++ ascii "</style>" ++ ascii "b")
        18 :=
  ⟨fallbackState_isGeneric,
    slashState_isGeneric,
    by decide, by decide, by decide,
    (Engine.style_tags_not_delivered States.IN_TEXT fallbackState fallbackState
      (ascii "a") (ascii ".c\x7b\x7d") (ascii "b") (Or.inl rfl) fallbackState_isGeneric
      fallbackState_isGeneric (by decide) (by decide) (by decide)).1 1 (by decide) (by decide),
    (Engine.style_tags_not_delivered States.IN_TEXT fallbackState fallbackState
      (ascii "a") (ascii ".c\x7b\x7d") (ascii "b") (Or.inl rfl) fallbackState_isGeneric
      fallbackState_isGeneric (by decide) (by decide) (by decide)).2.2 0 (by decide),
    (Engine.style_tags_not_delivered States.IN_TEXT
      slashState fallbackState
      (ascii "a") (ascii ".c\x7b\x7d") (ascii "b") (Or.inl rfl)
      slashState_isGeneric
      fallbackState_isGeneric (by decide) (by decide) (by decide)).2.1 18 (by decide) (by decide)⟩

/-- Claim C5, attribute capture, evaluated on the code: on `<img src="http://x/y.png">see`
the output is `0x18`, the URL, `see` and the four zero bytes of the padding; the byte
`finishSrcAttribute` (`0x19`), which `endSrcAttribute` writes over the closing quote, is not
in the output, so the sequence `0x18 ++ URL ++ 0x19 ++ "see"` does not occur in it. -/
theorem Scrubber.scrub_img_src_drops_finish_marker :
    Scrubber.scrub (ascii "<img src=\"http://x/y.png\">see")
      = [0x18] ++ ascii "http://x/y.png" ++ ascii "see" ++ [0, 0, 0, 0] ∧
    Engine.finishSrcAttribute ∉ Scrubber.scrub (ascii "<img src=\"http://x/y.png\">see") := by
  decide

/-- Claim C6, padding, evaluated on the code: on the 5 bytes `hello` the engine makes one
`update` call, of offset 0 and length 9, which reads `hello` and the four zero bytes that
were appended; the output of `Scrubber::scrub` has length 9, not 5. -/
theorem Engine.scrub_delivers_padding :
    Engine.runs htmlParser (ascii "hello") = [(0, 9, ascii "hello" ++ [0, 0, 0, 0])] ∧
    (Scrubber.scrub (ascii "hello")).length = 9 := by decide

/-- Claim C7, idempotence on scrubbed text, evaluated on the code for every input of the
claim: if the input is made of ASCII bytes, has no `<`, no byte in `0x18 .. 0x1D`, no
whitespace other than `0x20`, and no two adjacent `0x20`, then `Scrubber::scrub` returns the
input followed by the four zero bytes of the padding (so it never returns the input
itself). -/
theorem Scrubber.scrub_plain_text (input : List Nat)
    (h : ∀ b ∈ input, b < 128 ∧ b ≠ 60 ∧ isMarker b = false ∧ (isspace b = true → b = 32))
    (hs : singleSpaced input = true) :
    Scrubber.scrub input = input ++ [0, 0, 0, 0] := by
  unfold Scrubber.scrub
  rw [Scrubber.scrubWith_eq_deliveries, Engine.deliveries_eq_visible,
    Engine.plain_scan _ input ⟨rfl, rfl, Or.inl rfl⟩
      (fun b hb => ⟨(h b hb).1, (h b hb).2.1, (h b hb).2.2.2⟩) hs,
    Engine.visibleFrom_map_true]
  simp [List.enumFrom_map_snd]

/-- Witness of C7: the input `hello world`. -/
theorem Scrubber.scrub_plain_text_witness :
    (∀ b ∈ ascii "hello world",
      b < 128 ∧ b ≠ 60 ∧ isMarker b = false ∧ (isspace b = true → b = 32)) ∧
    singleSpaced (ascii "hello world") = true ∧
    Scrubber.scrub (ascii "hello world") = ascii "hello world" ++ [0, 0, 0, 0] :=
  ⟨by decide, by decide, Scrubber.scrub_plain_text (ascii "hello world") (by decide) (by decide)⟩

/-- Counterexample to C8 as stated: in `a <p>b` the whitespace run at position 1 is
immediately before a `<`, and it contributes the byte `0x20` to the output, which begins
with `a` and `0x20`. -/
theorem Scrubber.scrub_space_before_tag_delivered :
    (Scrubber.scrub (ascii "a <p>b")).take 2 = ascii "a " ∧
    (1, 32) ∈ Engine.deliveries htmlParser (ascii "a <p>b") := by decide

/-- Claim C8, amended.  For every input `X ++ W ++ Y` in which `W` is a non-empty run of
whitespace bytes: if the tokenizer is in state `IN_TEXT` after `X` (the run follows a byte of
visible text), the run contributes exactly one byte to the sink, the first byte of the run
rewritten to `0x20`, whatever follows the run, a `<` included; if `X` ends with a `>` that
the tokenizer reads and that takes it to `IN_TEXT_SPACE` (the run follows the `>` that
closes a tag), no byte of the run is delivered.  This holds for every tokenizer
`tokenizerWith reset fromStart fromSpace`, `htmlParser` among them: it depends neither on the
state that `reset()` installs nor on the edges that the sources leave open. -/
theorem Engine.whitespace_run (reset : States) (fromStart fromSpace : Nat → States)
    (X W Y : List Nat) (hne : W ≠ []) (hW : ∀ b ∈ W, isspace b = true) :
    (Engine.configAfter (tokenizerWith reset fromStart fromSpace)
        (Engine.startConfig (tokenizerWith reset fromStart fromSpace)) X
        = ⟨States.IN_TEXT, CaptureMode.IN_TEXT, 0⟩ →
      (X.length, 32) ∈ Engine.deliveries (tokenizerWith reset fromStart fromSpace)
          (X ++ W ++ Y) ∧
      ∀ j, 1 ≤ j → j < W.length →
        ¬ Engine.delivered (tokenizerWith reset fromStart fromSpace) (X ++ W ++ Y)
            (X.length + j)) ∧
    (∀ (X0 : List Nat) (s : States) (m : CaptureMode), X = X0 ++ [62] →
      Engine.configAfter (tokenizerWith reset fromStart fromSpace)
        (Engine.startConfig (tokenizerWith reset fromStart fromSpace)) X0 = ⟨s, m, 0⟩ →
      ((tokenizerWith reset fromStart fromSpace).parse s 62).1 = States.IN_TEXT_SPACE →
      ∀ j, j < W.length →
        ¬ Engine.delivered (tokenizerWith reset fromStart fromSpace) (X ++ W ++ Y)
            (X.length + j)) := by
  have e : X ++ W ++ Y ++ [0, 0, 0, 0] = X ++ W ++ (Y ++ [0, 0, 0, 0]) := by
    simp [List.append_assoc]
  have hWt : ∀ b ∈ W, b < 128 ∧ b ≠ 60 := fun b hb => isspace_lt b (hW b hb)
  constructor
  · intro hq
    have hag := Engine.text_agree reset fromStart fromSpace
      ⟨States.IN_TEXT, CaptureMode.IN_TEXT, 0⟩ W ⟨rfl, Or.inl ⟨rfl, rfl⟩⟩ hWt
    obtain ⟨hfirst, hrest⟩ := Engine.space_first W hne hW
    constructor
    · rw [Engine.mem_deliveries, e]
      have := Engine.scanFrom_getElem?_mid (tokenizerWith reset fromStart fromSpace)
        (Engine.startConfig (tokenizerWith reset fromStart fromSpace)) X W (Y ++ [0, 0, 0, 0]) 0
        (List.length_pos.2 hne)
      rw [Nat.add_zero] at this
      rw [this, hq, hag.1, hfirst]
    · rintro j h1 h2 ⟨b, hb⟩
      rw [Engine.mem_deliveries, e, Engine.scanFrom_getElem?_mid _ _ _ _ _ j h2, hq,
        hag.1] at hb
      obtain ⟨b2, hb2⟩ := hrest j h1 h2
      rw [hb2] at hb
      simp at hb
  · rintro X0 s m rfl hq hs j h2 ⟨b, hb⟩
    have h0 : 62 &&& 0x80 = 0x00 := by decide
    have hq2 : Engine.configAfter (tokenizerWith reset fromStart fromSpace)
        (Engine.startConfig (tokenizerWith reset fromStart fromSpace)) (X0 ++ [62])
        = ⟨States.IN_TEXT_SPACE,
          (Engine.dispatch ((tokenizerWith reset fromStart fromSpace).parse s 62).2 (m, 62)).1,
          0⟩ := by
      rw [Engine.configAfter_append, hq]
      simp only [Engine.configAfter, Engine.nextConfig, h0, if_true, hs]
    have hag := Engine.text_agree reset fromStart fromSpace
      ⟨States.IN_TEXT_SPACE,
        (Engine.dispatch ((tokenizerWith reset fromStart fromSpace).parse s 62).2 (m, 62)).1, 0⟩
      W ⟨rfl, Or.inr (Or.inl rfl)⟩ hWt
    rw [Engine.mem_deliveries, e, Engine.scanFrom_getElem?_mid _ _ _ _ _ j h2, hq2, hag.1,
      Engine.space_scan _ _ W (Or.inl rfl) hW j h2] at hb
    simp at hb

/-- Witness of C8 amended, with the open edges of `htmlParser`: the run of two whitespace
bytes in `a` `" \n"` `<p>b` gives one `0x20` at position 1 and nothing at position 2; the run
in `<p>` `"  "` `b`, which follows the `>` read in `IN_TAG_SEARCH`, gives nothing. -/
theorem Engine.whitespace_run_witness :
    (ascii " \n" ≠ [] ∧ (∀ b ∈ ascii " \n", isspace b = true) ∧
      Engine.configAfter (tokenizerWith States.IN_TEXT fallbackState fallbackState)
        (Engine.startConfig (tokenizerWith States.IN_TEXT fallbackState fallbackState))
        (ascii "a") = ⟨States.IN_TEXT, CaptureMode.IN_TEXT, 0⟩ ∧
      (1, 32) ∈ Engine.deliveries (tokenizerWith States.IN_TEXT fallbackState fallbackState)
        (ascii "a" ++ ascii " \n" ++ ascii "<p>b") ∧
      ¬ Engine.delivered (tokenizerWith States.IN_TEXT fallbackState fallbackState)
        (ascii "a" ++ ascii " \n" ++ ascii "<p>b") 2) ∧
    (ascii "  " ≠ [] ∧ (∀ b ∈ ascii "  ", isspace b = true) ∧
      ascii "<p>" = ascii "<p" ++ [62] ∧
      Engine.configAfter (tokenizerWith States.IN_TEXT fallbackState fallbackState)
        (Engine.startConfig (tokenizerWith States.IN_TEXT fallbackState fallbackState))
        (ascii "<p") = ⟨States.IN_TAG_SEARCH, CaptureMode.IGNORE, 0⟩ ∧
      ((tokenizerWith States.IN_TEXT fallbackState fallbackState).parse
        States.IN_TAG_SEARCH 62).1 = States.IN_TEXT_SPACE ∧
      ¬ Engine.delivered (tokenizerWith States.IN_TEXT fallbackState fallbackState)
        (ascii "<p>" ++ ascii "  " ++ ascii "b") 3) :=
  ⟨⟨by decide, by decide, by decide,
      ((Engine.whitespace_run States.IN_TEXT fallbackState fallbackState (ascii "a")
        (ascii " \n") (ascii "<p>b") (by decide) (by decide)).1 (by decide)).1,
      ((Engine.whitespace_run States.IN_TEXT fallbackState fallbackState (ascii "a")
        (ascii " \n") (ascii "<p>b") (by decide) (by decide)).1 (by decide)).2 1 (by decide)
        (by decide)⟩,
    ⟨by decide, by decide, by decide, by decide, by decide,
      (Engine.whitespace_run States.IN_TEXT fallbackState fallbackState (ascii "<p>")
        (ascii "  ") (ascii "b") (by decide) (by decide)).2 (ascii "<p") States.IN_TAG_SEARCH
        CaptureMode.IGNORE (by decide) (by decide) (by decide) 0 (by decide)⟩⟩

/-- Claim C9, multi-byte pass-through, evaluated on the code: on `<p>` followed by the
two-byte character `0xC3 0xA9` and `x`, the output is `x` and the four zero bytes of the
padding; neither byte of the character is in the output. -/
theorem Scrubber.scrub_multibyte_after_tag_dropped :
    Scrubber.scrub (ascii "<p>" ++ [0xC3, 0xA9] ++ ascii "x") = ascii "x" ++ [0, 0, 0, 0] ∧
    0xC3 ∉ Scrubber.scrub (ascii "<p>" ++ [0xC3, 0xA9] ++ ascii "x") ∧
    0xA9 ∉ Scrubber.scrub (ascii "<p>" ++ [0xC3, 0xA9] ++ ascii "x") := by
  decide

/-- Claim C11, attribute wrapping for src, href and cite, evaluated on the code for every
value `U` of ASCII bytes other than `"`: scrubbing `<a X="U">` returns the begin marker of
`X`, then `U`, then the four zero bytes of the padding. The position of the closing quote is
not delivered to the sink, although the buffer holds the finish marker of `X` there: the
sequence `begin_X ++ U ++ finish_X` never reaches the sink. -/
theorem Scrubber.scrub_attribute_drops_finish (U : List Nat)
    (hU : ∀ b ∈ U, b < 128 ∧ b ≠ 34) :
    (Scrubber.scrub (ascii "<a src=\"" ++ U ++ ascii "\">") = [0x18] ++ U ++ [0, 0, 0, 0] ∧
      ¬ Engine.delivered htmlParser (ascii "<a src=\"" ++ U ++ ascii "\">") (8 + U.length) ∧
      (Engine.buffer htmlParser (ascii "<a src=\"" ++ U ++ ascii "\">"))[8 + U.length]?
        = some Engine.finishSrcAttribute) ∧
    (Scrubber.scrub (ascii "<a href=\"" ++ U ++ ascii "\">") = [0x1A] ++ U ++ [0, 0, 0, 0] ∧
      ¬ Engine.delivered htmlParser (ascii "<a href=\"" ++ U ++ ascii "\">") (9 + U.length) ∧
      (Engine.buffer htmlParser (ascii "<a href=\"" ++ U ++ ascii "\">"))[9 + U.length]?
        = some Engine.finishHrefAttribute) ∧
    (Scrubber.scrub (ascii "<a cite=\"" ++ U ++ ascii "\">") = [0x1C] ++ U ++ [0, 0, 0, 0] ∧
      ¬ Engine.delivered htmlParser (ascii "<a cite=\"" ++ U ++ ascii "\">") (9 + U.length) ∧
      (Engine.buffer htmlParser (ascii "<a cite=\"" ++ U ++ ascii "\">"))[9 + U.length]?
        = some Engine.finishCiteAttribute) := by
  refine ⟨?_, ?_, ?_⟩
  · exact Engine.attribute_result (ascii "<a src=\"") 0x19 _ U (by decide)
      (Engine.attribute_views (ascii "<a src=\"") States.IN_TAG_SPACE_SRC_EQUALS_QUOTE 0x19
        [(60, false), (97, false), (32, false), (115, false), (114, false), (99, false),
          (61, false), (0x18, true)]
        (Or.inl rfl) (by decide) (by decide) (by decide) U hU)
  · exact Engine.attribute_result (ascii "<a href=\"") 0x1B _ U (by decide)
      (Engine.attribute_views (ascii "<a href=\"") States.IN_TAG_SPACE_HREF_EQUALS_QUOTE 0x1B
        [(60, false), (97, false), (32, false), (104, false), (114, false), (101, false),
          (102, false), (61, false), (0x1A, true)]
        (Or.inr (Or.inl rfl)) (by decide) (by decide) (by decide) U hU)
  · exact Engine.attribute_result (ascii "<a cite=\"") 0x1D _ U (by decide)
      (Engine.attribute_views (ascii "<a cite=\"") States.IN_TAG_SPACE_CITE_EQUALS_QUOTE 0x1D
        [(60, false), (97, false), (32, false), (99, false), (105, false), (116, false),
          (101, false), (61, false), (0x1C, true)]
        (Or.inr (Or.inr rfl)) (by decide) (by decide) (by decide) U hU)

/-- Witness of C11: the value `http://x/y.png` in an href attribute. -/
theorem Scrubber.scrub_attribute_drops_finish_witness :
    (∀ b ∈ ascii "http://x/y.png", b < 128 ∧ b ≠ 34) ∧
    Scrubber.scrub (ascii "<a href=\"" ++ ascii "http://x/y.png" ++ ascii "\">")
      = [0x1A] ++ ascii "http://x/y.png" ++ [0, 0, 0, 0] :=
  ⟨by decide,
    (Scrubber.scrub_attribute_drops_finish (ascii "http://x/y.png") (by decide)).2.1.1⟩

/-- Claim C12, ordered and non-overlapping delivery. For every tokenizer table and every
input, the `update` calls `(b_1, l_1), ..., (b_k, l_k)` of `Engine::scrub` satisfy
`b_i + l_i ≤ b_(i+1)` for consecutive calls (and `b_i + l_i ≤ b_j` for every later call `j`),
and the positions handed to the sink are strictly increasing, so that no position is
delivered twice. -/
theorem Engine.runs_ordered (P : Parser) (rawData : List Nat) :
    (∀ i (h : i + 1 < (Engine.runs P rawData).length),
      ((Engine.runs P rawData)[i]).1 + ((Engine.runs P rawData)[i]).2.1
        ≤ ((Engine.runs P rawData)[i + 1]).1) ∧
    (Engine.runs P rawData).Pairwise (fun r t => r.1 + r.2.1 ≤ t.1) ∧
    ((Engine.deliveries P rawData).map Prod.fst).Pairwise (fun a b => a < b) := by
  have hp := (Engine.runs_inv P rawData).2
  refine ⟨?_, hp, ?_⟩
  · intro i h
    exact List.pairwise_iff_getElem.mp hp i (i + 1) (by omega) h (by omega)
  · rw [Engine.deliveries_eq_visible]
    exact (Engine.visibleFrom_sorted 0 _).1

/-- Witness of C12: the two calls made on `a<p>b`. -/
theorem Engine.runs_ordered_witness :
    0 + 1 < (Engine.runs htmlParser (ascii "a<p>b")).length ∧
    (Engine.runs htmlParser (ascii "a<p>b")).Pairwise (fun r t => r.1 + r.2.1 ≤ t.1) ∧
    Engine.runs htmlParser (ascii "a<p>b") = [(0, 1, [97]), (4, 5, [98, 0, 0, 0, 0])] :=
  ⟨by decide, (Engine.runs_ordered htmlParser (ascii "a<p>b")).2.1, by decide⟩

/-- Counterexample to C13 as stated: on `<p>x` the engine makes two `update` calls, the first
of length zero, while the scan has one stretch of visible bytes (`x` and the padding). -/
theorem Engine.runs_empty_first_call :
    Engine.runs htmlParser (ascii "<p>x") = [(0, 0, []), (3, 5, [120, 0, 0, 0, 0])] ∧
    Engine.stretches htmlParser (ascii "<p>x") = [(3, 5, [120, 0, 0, 0, 0])] ∧
    (Engine.runs htmlParser (ascii "<p>x")).length
      ≠ (Engine.stretches htmlParser (ascii "<p>x")).length := by decide

/-- Claim C13, amended. For every tokenizer table and every input, the `update` calls of
non-zero length are exactly the maximal contiguous stretches of visible bytes of the scan, in
order, each call with the first position, the length and the bytes of its stretch; every call
after the first has a non-zero length, so that only the first call can be empty. The per-byte
view used for the stretches has one entry for each byte of the padded buffer: the byte that
the buffer holds after the scan, and whether the position was scanned with a capture mode
other than `IGNORE`. -/
theorem Engine.runs_are_stretches (P : Parser) (rawData : List Nat) :
    (Engine.runs P rawData).filter (fun r => decide (r.2.1 ≠ 0)) = Engine.stretches P rawData ∧
    (∀ r ∈ (Engine.runs P rawData).tail, r.2.1 ≠ 0) ∧
    (Engine.views P rawData).length = rawData.length + 4 ∧
    (∀ i b f, (Engine.views P rawData)[i]? = some (b, f) →
      (Engine.buffer P rawData)[i]? = some b ∧ (f = true ↔ Engine.visibleAt P rawData i)) := by
  refine ⟨Engine.runs_filter_eq_stretches P rawData, Engine.runs_tail_nonzero P rawData,
    Engine.views_length P rawData, ?_⟩
  intro i b f h
  constructor
  · rw [Engine.buffer_eq_views, List.getElem?_map, h]
    rfl
  · rw [Engine.visibleAt_iff, h]
    constructor
    · rintro rfl
      exact ⟨b, rfl⟩
    · rintro ⟨b2, hb2⟩
      simp only [Option.some.injEq, Prod.mk.injEq] at hb2
      exact hb2.2

/-- Witness of C13 amended: on `<p>x` the second call has length 5. -/
theorem Engine.runs_are_stretches_witness :
    (3, 5, [120, 0, 0, 0, 0]) ∈ (Engine.runs htmlParser (ascii "<p>x")).tail ∧
    ((3, 5, [120, 0, 0, 0, 0]) : Nat × Nat × List Nat).2.1 ≠ 0 :=
  ⟨by decide, (Engine.runs_are_stretches htmlParser (ascii "<p>x")).2.1 _ (by decide)⟩

/-- Claim C14, in-place rewriting only. For every input of length `n`, the buffer after
`Engine::scrub` has length `n + 4`; at every position below `n` the byte is the byte of the
input, or the input held a whitespace byte there and the buffer now holds `0x20`, or the
input held a `"` there and the buffer now holds a marker byte `0x18 .. 0x1D`; the four
padding bytes are still zero. -/
theorem Engine.buffer_rewritten_in_place (rawData : List Nat) :
    (Engine.buffer htmlParser rawData).length = rawData.length + 4 ∧
    (∀ (i b c : Nat), (Engine.buffer htmlParser rawData)[i]? = some b →
      rawData[i]? = some c →
      b = c ∨ (isspace c = true ∧ b = 32) ∨ (c = 34 ∧ isMarker b = true)) ∧
    (∀ (i : Nat), rawData.length ≤ i → i < rawData.length + 4 →
      (Engine.buffer htmlParser rawData)[i]? = some 0) := by
  have key : ∀ (i b c : Nat), (Engine.buffer htmlParser rawData)[i]? = some b →
      (rawData ++ [0, 0, 0, 0])[i]? = some c →
      b = c ∨ (isspace c = true ∧ b = 32) ∨ (c = 34 ∧ isMarker b = true) := by
    intro i b c hb hc
    rw [Engine.buffer_eq_views, List.getElem?_map] at hb
    cases hv : (Engine.views htmlParser rawData)[i]? with
    | none => rw [hv] at hb; simp at hb
    | some v =>
      rw [hv] at hb
      simp only [Option.map_some', Option.some.injEq] at hb
      obtain ⟨q2, d, hd, hvd⟩ := Engine.scanFrom_getElem? _ _ _ _ _ hv
      rw [hc] at hd
      simp only [Option.some.injEq] at hd
      subst hd
      subst hb
      rw [hvd]
      exact Engine.byteView_rewrite q2 c
  have hlen : (Engine.buffer htmlParser rawData).length = rawData.length + 4 := by
    rw [Engine.buffer_eq_views, List.length_map, Engine.views_length]
  refine ⟨hlen, ?_, ?_⟩
  · intro i b c hb hc
    have hi : i < rawData.length := (List.getElem?_eq_some.mp hc).1
    exact key i b c hb (by rw [List.getElem?_append_left hi]; exact hc)
  · intro i h1 h2
    have hz : (rawData ++ [0, 0, 0, 0])[i]? = some 0 := by
      rw [List.getElem?_append_right h1]
      obtain ⟨d, hd⟩ : ∃ d, i - rawData.length = d := ⟨_, rfl⟩
      have hd4 : d < 4 := by omega
      rw [hd]
      interval_cases d <;> rfl
    have hb : ∃ b, (Engine.buffer htmlParser rawData)[i]? = some b :=
      ⟨_, List.getElem?_eq_getElem (by rw [hlen]; exact h2)⟩
    obtain ⟨b, hb⟩ := hb
    rcases key i b 0 hb hz with h | h | h
    · rw [hb, h]
    · exact absurd h.1 (by decide)
    · exact absurd h.1 (by decide)

/-- Witness of C14: in `a`, tab, `b` the tab at position 1 is now `0x20`. -/
theorem Engine.buffer_rewritten_in_place_witness :
    (Engine.buffer htmlParser [97, 9, 98])[1]? = some 32 ∧
    ([97, 9, 98] : List Nat)[1]? = some 9 ∧
    (32 = 9 ∨ (isspace 9 = true ∧ 32 = 32) ∨ (9 = 34 ∧ isMarker 32 = true)) :=
  ⟨by decide, by decide,
    (Engine.buffer_rewritten_in_place [97, 9, 98]).2.1 1 32 9 (by decide) (by decide)⟩

/-- Claim C15, in-bounds scanning. For every tokenizer table and every input of length `n`:
at the head of every iteration and at loop exit the buffer has length `n + 4` and
`inputIndex` is at most `n + 4`; every iteration reads the buffer at an index below `n + 4`
and leaves the cursor at most at `n + 4`; every run passed to `update` satisfies
`base + length ≤ n + 4`; the padding bytes keep their top bit clear, so they are never
treated as lead bytes, and with the tokenizer of the repository they stay zero. -/
theorem Engine.scan_in_bounds (P : Parser) (rawData : List Nat) :
    (∀ k, (Engine.loopState P rawData k).inputData.length = rawData.length + 4 ∧
      (Engine.loopState P rawData k).inputIndex ≤ rawData.length + 4) ∧
    (∀ t ∈ Engine.iterations P rawData,
      t.1 < rawData.length + 4 ∧ t.1 + t.2.1 ≤ rawData.length + 4) ∧
    (∀ r ∈ Engine.runs P rawData, r.1 + r.2.1 ≤ rawData.length + 4) ∧
    (∀ k j, rawData.length ≤ j →
      (Engine.loopState P rawData k).inputData.getD j 0 &&& 0x80 = 0x00) ∧
    (∀ k j, rawData.length ≤ j →
      (Engine.loopState htmlParser rawData k).inputData.getD j 0 = 0) := by
  refine ⟨fun k => ⟨(Engine.loopState_inv P rawData k).2.2.1,
      (Engine.loopState_inv P rawData k).2.2.2.1⟩, ?_,
    fun r hr => ((Engine.runs_inv P rawData).1 r hr).2, ?_,
    fun k j hj => Engine.loopState_zero_padding rawData k j hj⟩
  · intro t ht
    unfold Engine.iterations at ht
    obtain ⟨f, ⟨hp, hl⟩, hlt, rfl⟩ := Engine.scanLog_mem P Engine.record
      (fun e => Engine.PadInv e ∧ e.inputData.length = rawData.length + 4)
      (fun e he hlt => ⟨Engine.scrubStep_padInv P _ e he.1,
        by rw [Engine.scrubStep_inputData_length]; exact he.2⟩)
      _ (Engine.start P rawData []) ⟨Engine.start_padInv P rawData [], by simp [Engine.start]⟩
      t ht
    have h1 := Engine.scrubStep_inputIndex_le P Engine.record f hp hlt
    have h2 := Engine.scrubStep_inputIndex_lt P Engine.record f
    simp only
    omega
  · intro k j hj
    exact (Engine.loopState_inv P rawData k).2.1 j (by
      rw [(Engine.loopState_inv P rawData k).2.2.1]; omega)

/-- Witness of C15: a four-byte lead `0xF0` as the only byte of the input skips into the
padding and stays in bounds. -/
theorem Engine.scan_in_bounds_witness :
    (0, 4, CaptureMode.IN_TEXT) ∈ Engine.iterations htmlParser [0xF0] ∧
    (0 < [0xF0].length + 4 ∧ 0 + 4 ≤ [0xF0].length + 4) :=
  ⟨by decide, (Engine.scan_in_bounds htmlParser [0xF0]).2.1 (0, 4, CaptureMode.IN_TEXT)
    (by decide)⟩

/-- Claim C16, pending-run invariant. For every tokenizer table and every input, at the head
of every iteration of the scan loop and at loop exit: if `captureMode` is not `IGNORE` then
`inputBase + outputLength = inputIndex`, and if `captureMode` is `IGNORE` then
`outputLength = 0`. Moreover, outside `IGNORE`, every position of the pending run was scanned
with a capture mode other than `IGNORE`, and when `inputBase` is not 0 the iteration that
ended right before `inputBase` ended in `IGNORE`: `inputBase` is the first byte of the current
stretch and `outputLength` the number of its bytes scanned so far. -/
theorem Engine.pending_run_invariant (P : Parser) (rawData : List Nat) (k : Nat) :
    ((Engine.loopState P rawData k).captureMode ≠ CaptureMode.IGNORE →
      (Engine.loopState P rawData k).inputBase + (Engine.loopState P rawData k).outputLength
        = (Engine.loopState P rawData k).inputIndex) ∧
    ((Engine.loopState P rawData k).captureMode = CaptureMode.IGNORE →
      (Engine.loopState P rawData k).outputLength = 0) ∧
    ((Engine.loopState P rawData k).captureMode ≠ CaptureMode.IGNORE →
      (∀ i, (Engine.loopState P rawData k).inputBase ≤ i →
        i < (Engine.loopState P rawData k).inputBase
          + (Engine.loopState P rawData k).outputLength →
        Engine.loggedVisible (Engine.logUpTo P rawData k) i) ∧
      (0 < (Engine.loopState P rawData k).inputBase →
        ∃ t ∈ Engine.logUpTo P rawData k,
          t.1 + t.2.1 = (Engine.loopState P rawData k).inputBase ∧
          t.2.2 = CaptureMode.IGNORE)) := by
  obtain ⟨hA, hB, hC, hD⟩ := Engine.loopState_logInv P rawData k
  obtain ⟨⟨w1, w2⟩, _⟩ := Engine.loopState_inv P rawData k
  refine ⟨w1, w2, fun hm => ⟨fun i h1 h2 => hB hm i h1 (by have := w1 hm; omega), hD hm⟩⟩

/-- Witness of C16: the state after three iterations on `hello`. -/
theorem Engine.pending_run_invariant_witness :
    (Engine.loopState htmlParser (ascii "hello") 3).captureMode ≠ CaptureMode.IGNORE ∧
    (Engine.loopState htmlParser (ascii "hello") 3).inputBase
        + (Engine.loopState htmlParser (ascii "hello") 3).outputLength
      = (Engine.loopState htmlParser (ascii "hello") 3).inputIndex :=
  ⟨by decide, (Engine.pending_run_invariant htmlParser (ascii "hello") 3).1 (by decide)⟩

/-- Claim C17, the window excludes ignored bytes. For every tokenizer table and every input,
every position inside a run passed to `update` was handled by an iteration of the scan loop
at whose end the capture mode was not `IGNORE` (for an ASCII byte: after `parse` and its
callback; for a byte of a skipped multi-byte group: when the group was skipped). -/
theorem Engine.runs_visible (P : Parser) (rawData : List Nat) :
    ∀ r ∈ Engine.runs P rawData, ∀ i, r.1 ≤ i → i < r.1 + r.2.1 →
      Engine.visibleAt P rawData i := by
  obtain ⟨hA, hB, hC, hD⟩ := Engine.loopState_logInv P rawData (rawData.length + 4)
  obtain ⟨⟨w1, w2⟩, _⟩ := Engine.loopState_inv P rawData (rawData.length + 4)
  intro r hr i h1 h2
  unfold Engine.visibleAt
  rw [Engine.iterations_eq]
  rw [Engine.runs_eq] at hr
  unfold Engine.finalFlush at hr
  by_cases hm : (Engine.loopState P rawData (rawData.length + 4)).captureMode
      = CaptureMode.IGNORE
  · simp only [hm, ne_eq, not_true_eq_false, if_false] at hr
    exact hC r hr i h1 h2
  · simp only [hm, ne_eq, not_false_eq_true, if_true, Engine.record] at hr
    rw [List.mem_append] at hr
    rcases hr with hr | hr
    · exact hC r hr i h1 h2
    · simp only [List.mem_singleton] at hr
      subst hr
      have hb := w1 hm
      exact hB hm i h1 (by
        have : i < (Engine.loopState P rawData (rawData.length + 4)).inputBase
          + (Engine.loopState P rawData (rawData.length + 4)).outputLength := h2
        omega)

/-- Witness of C17: position 4 of `a<p>b` lies in the second run. -/
theorem Engine.runs_visible_witness :
    (4, 5, [98, 0, 0, 0, 0]) ∈ Engine.runs htmlParser (ascii "a<p>b") ∧
    Engine.visibleAt htmlParser (ascii "a<p>b") 4 :=
  ⟨by decide, Engine.runs_visible htmlParser (ascii "a<p>b") (4, 5, [98, 0, 0, 0, 0])
    (by decide) 4 (by decide) (by decide)⟩

/-- Claim C18, high-bit bytes are opaque. An iteration on a byte whose top bit is set does
not consult the tokenizer (its result is the same for every tokenizer table) and changes
neither the tokenizer state nor `captureMode` nor the buffer nor the sink; `captureMode`
changes only in an iteration on an ASCII byte whose edge carries a callback, to the value
that the callback sets; and every byte `128 .. 255` of the input is still in the buffer, at
its position, after the scrub. -/
theorem Engine.highbit_opaque {σ : Type} (P Q : Parser) (u : σ → List Nat → Nat → Nat → σ)
    (e : ScrubState σ) (rawData : List Nat) :
    (¬ (e.inputData.getD e.inputIndex 0 &&& 0x80 = 0x00) →
      Engine.scrubStep P u e = Engine.scrubStep Q u e ∧
      (Engine.scrubStep P u e).currentState = e.currentState ∧
      (Engine.scrubStep P u e).captureMode = e.captureMode ∧
      (Engine.scrubStep P u e).inputData = e.inputData ∧
      (Engine.scrubStep P u e).sink = e.sink) ∧
    ((Engine.scrubStep P u e).captureMode ≠ e.captureMode →
      e.inputData.getD e.inputIndex 0 &&& 0x80 = 0x00 ∧
      (P.parse e.currentState (e.inputData.getD e.inputIndex 0)).2 ≠ Callback.noCallback ∧
      (Engine.scrubStep P u e).captureMode
        = (Engine.dispatch (P.parse e.currentState (e.inputData.getD e.inputIndex 0)).2
            (e.captureMode, e.inputData.getD e.inputIndex 0)).1) ∧
    (∀ (i c : Nat), rawData[i]? = some c → 128 ≤ c → c < 256 →
      (Engine.buffer P rawData)[i]? = some c) := by
  refine ⟨?_, ?_, ?_⟩
  · intro hc
    rw [Engine.scrubStep_highbit P u e hc, Engine.scrubStep_highbit Q u e hc]
    exact ⟨rfl, rfl, rfl, rfl, rfl⟩
  · intro hne
    by_cases hc : e.inputData.getD e.inputIndex 0 &&& 0x80 = 0x00
    · obtain ⟨_, _, s3, _⟩ := Engine.scrubStep_ascii_inputData P u e hc
      refine ⟨hc, ?_, s3⟩
      intro hcb
      rw [s3, hcb] at hne
      exact hne rfl
    · rw [Engine.scrubStep_highbit P u e hc] at hne
      exact absurd rfl hne
  · intro i c hi h1 h2
    have hlt : i < rawData.length := (List.getElem?_eq_some.mp hi).1
    have hv : ∃ v, (Engine.views P rawData)[i]? = some v :=
      ⟨_, List.getElem?_eq_getElem (by rw [Engine.views_length]; omega)⟩
    obtain ⟨v, hv⟩ := hv
    obtain ⟨q2, d, hd, hvd⟩ := Engine.scanFrom_getElem? _ _ _ _ _ hv
    rw [List.getElem?_append_left hlt, hi] at hd
    simp only [Option.some.injEq] at hd
    subst hd
    rw [Engine.buffer_eq_views, List.getElem?_map, hv, hvd]
    simp only [Option.map_some', Option.some.injEq]
    exact Engine.byteView_highbit P q2 c (highbit_of_ge c h1 h2)

/-- Witness of C18: the lead byte `0xC3` at position 1 of `a`, `0xC3`, `0xA9`. -/
theorem Engine.highbit_opaque_witness :
    ([97, 0xC3, 0xA9] : List Nat)[1]? = some 0xC3 ∧ 128 ≤ 0xC3 ∧ 0xC3 < 256 ∧
    (Engine.buffer htmlParser [97, 0xC3, 0xA9])[1]? = some 0xC3 :=
  ⟨by decide, by decide, by decide,
    (Engine.highbit_opaque htmlParser htmlParser (fun _ _ _ _ => ())
      (Engine.start htmlParser [] ()) [97, 0xC3, 0xA9]).2.2 1 0xC3 (by decide) (by decide)
      (by decide)⟩

/-- Claim C19, termination. Every iteration of the scan loop increases `inputIndex` by at
least 1 and at most 4; for an input of length `n` the loop condition `inputIndex <
inputLength` is false after at most `n + 4` iterations, allowing more iterations changes
nothing, and the loop never makes more than `n + 4` iterations. -/
theorem Engine.scan_terminates {σ : Type} (P : Parser) (u : σ → List Nat → Nat → Nat → σ)
    (rawData : List Nat) :
    (∀ e : ScrubState σ, e.inputIndex + 1 ≤ (Engine.scrubStep P u e).inputIndex ∧
      (Engine.scrubStep P u e).inputIndex ≤ e.inputIndex + 4) ∧
    ¬ ((Engine.loopState P rawData (rawData.length + 4)).inputIndex
        < (Engine.loopState P rawData (rawData.length + 4)).inputData.length) ∧
    (∀ k, rawData.length + 4 ≤ k →
      Engine.loopState P rawData k = Engine.loopState P rawData (rawData.length + 4)) ∧
    (∀ k, (Engine.logUpTo P rawData k).length ≤ rawData.length + 4) := by
  have hexit : ¬ ((Engine.loopState P rawData (rawData.length + 4)).inputIndex
      < (Engine.loopState P rawData (rawData.length + 4)).inputData.length) := by
    unfold Engine.loopState
    exact Engine.scrubLoop_exit P Engine.record _ _ (by simp [Engine.start])
  refine ⟨fun e => ⟨Engine.scrubStep_inputIndex_lt P u e, Engine.scrubStep_inputIndex_le_add P u e⟩,
    hexit, ?_, ?_⟩
  · intro k hk
    obtain ⟨d, rfl⟩ : ∃ d, k = rawData.length + 4 + d := ⟨k - (rawData.length + 4), by omega⟩
    unfold Engine.loopState at hexit ⊢
    rw [Engine.scrubLoop_add]
    exact Engine.scrubLoop_of_exit P Engine.record d _ hexit
  · intro k
    have := Engine.scanLog_length P Engine.record k (Engine.start P rawData [])
    unfold Engine.logUpTo
    simpa [Engine.start] using this

/-- Witness of C19: on `hello`, twenty iterations allowed give the state of nine. -/
theorem Engine.scan_terminates_witness :
    (ascii "hello").length + 4 ≤ 20 ∧
    Engine.loopState htmlParser (ascii "hello") 20
      = Engine.loopState htmlParser (ascii "hello") ((ascii "hello").length + 4) :=
  ⟨by decide,
    (Engine.scan_terminates htmlParser (fun (_ : Unit) _ _ _ => ()) (ascii "hello")).2.2.1 20
      (by decide)⟩

/-- Claim C20, byte classification. For every byte value `c` below 256 read by an iteration,
exactly one of the five classes applies: top bit 0, `110xxxxx`, `1110xxxx`, `11110xxx`, or
another high-bit byte (`10xxxxxx` or `11111xxx`). The iteration advances the cursor by 1 (and
passes the byte to `parse`), by 2, by 3, by 4, and by 1 respectively; on a high-bit byte
`outputLength` grows by the same amount as the cursor when `captureMode` is not `IGNORE` and
does not change when it is `IGNORE`. -/
theorem Engine.byte_classification {σ : Type} (P : Parser) (u : σ → List Nat → Nat → Nat → σ)
    (e : ScrubState σ) (c : Nat) (hc : e.inputData.getD e.inputIndex 0 = c) (h256 : c < 256) :
    ((c &&& 0x80 = 0x00 ∧ ¬ c &&& 0xE0 = 0xC0 ∧ ¬ c &&& 0xF0 = 0xE0 ∧ ¬ c &&& 0xF8 = 0xF0 ∧
        ¬ (c &&& 0xC0 = 0x80 ∨ c &&& 0xF8 = 0xF8)) ∨
      (¬ c &&& 0x80 = 0x00 ∧ c &&& 0xE0 = 0xC0 ∧ ¬ c &&& 0xF0 = 0xE0 ∧ ¬ c &&& 0xF8 = 0xF0 ∧
        ¬ (c &&& 0xC0 = 0x80 ∨ c &&& 0xF8 = 0xF8)) ∨
      (¬ c &&& 0x80 = 0x00 ∧ ¬ c &&& 0xE0 = 0xC0 ∧ c &&& 0xF0 = 0xE0 ∧ ¬ c &&& 0xF8 = 0xF0 ∧
        ¬ (c &&& 0xC0 = 0x80 ∨ c &&& 0xF8 = 0xF8)) ∨
      (¬ c &&& 0x80 = 0x00 ∧ ¬ c &&& 0xE0 = 0xC0 ∧ ¬ c &&& 0xF0 = 0xE0 ∧ c &&& 0xF8 = 0xF0 ∧
        ¬ (c &&& 0xC0 = 0x80 ∨ c &&& 0xF8 = 0xF8)) ∨
      (¬ c &&& 0x80 = 0x00 ∧ ¬ c &&& 0xE0 = 0xC0 ∧ ¬ c &&& 0xF0 = 0xE0 ∧ ¬ c &&& 0xF8 = 0xF0 ∧
        (c &&& 0xC0 = 0x80 ∨ c &&& 0xF8 = 0xF8))) ∧
    (c &&& 0x80 = 0x00 →
      (Engine.scrubStep P u e).inputIndex = e.inputIndex + 1 ∧
      (Engine.scrubStep P u e).currentState = (P.parse e.currentState c).1) ∧
    (c &&& 0xE0 = 0xC0 → (Engine.scrubStep P u e).inputIndex = e.inputIndex + 2) ∧
    (c &&& 0xF0 = 0xE0 → (Engine.scrubStep P u e).inputIndex = e.inputIndex + 3) ∧
    (c &&& 0xF8 = 0xF0 → (Engine.scrubStep P u e).inputIndex = e.inputIndex + 4) ∧
    (c &&& 0xC0 = 0x80 ∨ c &&& 0xF8 = 0xF8 →
      (Engine.scrubStep P u e).inputIndex = e.inputIndex + 1) ∧
    (¬ c &&& 0x80 = 0x00 →
      (e.captureMode ≠ CaptureMode.IGNORE →
        (Engine.scrubStep P u e).outputLength
          = e.outputLength + ((Engine.scrubStep P u e).inputIndex - e.inputIndex)) ∧
      (e.captureMode = CaptureMode.IGNORE →
        (Engine.scrubStep P u e).outputLength = e.outputLength)) := by
  obtain ⟨r0, r1, r2, r3, r4, r5⟩ := Engine.class_ranges c h256
  have hw : ¬ c &&& 0x80 = 0x00 → Engine.width c
      = if 192 ≤ c ∧ c < 224 then 2 else if 224 ≤ c ∧ c < 240 then 3
        else if 240 ≤ c ∧ c < 248 then 4 else 1 := by
    intro _
    unfold Engine.width
    simp only [r1, r2, r3]
  have hstep : ¬ c &&& 0x80 = 0x00 →
      (Engine.scrubStep P u e).inputIndex = e.inputIndex + Engine.width c ∧
      (Engine.scrubStep P u e).outputLength
        = if e.captureMode ≠ CaptureMode.IGNORE then e.outputLength + Engine.width c
          else e.outputLength := by
    intro h
    rw [Engine.scrubStep_highbit P u e (by rw [hc]; exact h), hc]
    exact ⟨rfl, rfl⟩
  refine ⟨?_, ?_, ?_, ?_, ?_, ?_, ?_⟩
  · rw [r0, r1, r2, r3, r4, r5]
    omega
  · intro h
    obtain ⟨_, s2, _, s4⟩ := Engine.scrubStep_ascii_inputData P u e (by rw [hc]; exact h)
    exact ⟨s2, by rw [s4, hc]⟩
  · intro h
    have h' := r1.mp h
    have hn : ¬ c &&& 0x80 = 0x00 := by rw [r0]; omega
    rw [(hstep hn).1, hw hn]
    simp [h']
  · intro h
    have h' := r2.mp h
    have hn : ¬ c &&& 0x80 = 0x00 := by rw [r0]; omega
    rw [(hstep hn).1, hw hn]
    have : ¬ (192 ≤ c ∧ c < 224) := by omega
    simp [h', this]
  · intro h
    have h' := r3.mp h
    have hn : ¬ c &&& 0x80 = 0x00 := by rw [r0]; omega
    rw [(hstep hn).1, hw hn]
    have h1 : ¬ (192 ≤ c ∧ c < 224) := by omega
    have h2 : ¬ (224 ≤ c ∧ c < 240) := by omega
    simp [h', h1, h2]
  · intro h
    rw [r4, r5] at h
    have hn : ¬ c &&& 0x80 = 0x00 := by rw [r0]; omega
    rw [(hstep hn).1, hw hn]
    have h1 : ¬ (192 ≤ c ∧ c < 224) := by omega
    have h2 : ¬ (224 ≤ c ∧ c < 240) := by omega
    have h3 : ¬ (240 ≤ c ∧ c < 248) := by omega
    simp [h1, h2, h3]
  · intro hn
    obtain ⟨s1, s2⟩ := hstep hn
    rw [s1, s2]
    constructor
    · intro hm
      simp [hm]
    · intro hm
      simp [hm]

/-- Witness of C20: the two-byte lead `0xC3` at the start of the buffer. -/
theorem Engine.byte_classification_witness :
    (Engine.start htmlParser [0xC3, 0xA9] ()).inputData.getD
        (Engine.start htmlParser [0xC3, 0xA9] ()).inputIndex 0 = 0xC3 ∧
    0xC3 < 256 ∧
    (Engine.scrubStep htmlParser (fun _ _ _ _ => ()) (Engine.start htmlParser [0xC3, 0xA9] ())).inputIndex
      = (Engine.start htmlParser [0xC3, 0xA9] ()).inputIndex + 2 :=
  ⟨by decide, by decide,
    (Engine.byte_classification htmlParser (fun _ _ _ _ => ())
      (Engine.start htmlParser [0xC3, 0xA9] ()) 0xC3 (by decide) (by decide)).2.2.1 (by decide)⟩

/-- Claim C21, the src attribute of a script tag, evaluated on the code for every value `U`
of ASCII bytes other than `"` (in particular for every value without `<`, `>` and
whitespace): scrubbing `<script src="U"></script>x` returns the begin marker `0x18`, then
`U`, then the byte `>` that follows the closing quote, then `x` and the four zero bytes of
the padding. The position of the closing quote is not delivered to the sink, although the
buffer holds the finish marker `0x19` there, and the position of the `>` after it is
delivered: the sequence `0x18 ++ U ++ 0x19 ++ x` never reaches the sink. -/
theorem Scrubber.scrub_script_src_delivers_bracket (U : List Nat)
    (hU : ∀ b ∈ U, b < 128 ∧ b ≠ 34) :
    Scrubber.scrub (ascii "<script src=\"" ++ U ++ ascii "\"></script>x")
      = [0x18] ++ U ++ [62, 120, 0, 0, 0, 0] ∧
    ¬ Engine.delivered htmlParser (ascii "<script src=\"" ++ U ++ ascii "\"></script>x")
      (13 + U.length) ∧
    (Engine.buffer htmlParser (ascii "<script src=\"" ++ U ++ ascii "\"></script>x"))[
      13 + U.length]? = some Engine.finishSrcAttribute ∧
    (14 + U.length, 62)
      ∈ Engine.deliveries htmlParser (ascii "<script src=\"" ++ U ++ ascii "\"></script>x") := by
  have h := Engine.script_src_views U hU
  obtain ⟨hq, hb⟩ := Engine.script_src_result U h
  have hv : Engine.scanFrom htmlParser (Engine.startConfig htmlParser)
      (ascii "<script src=\"" ++ U ++ ascii "\"></script>x" ++ [0, 0, 0, 0])
      = Engine.views htmlParser (ascii "<script src=\"" ++ U ++ ascii "\"></script>x") := rfl
  refine ⟨?_, ?_, ?_, ?_⟩
  · unfold Scrubber.scrub
    rw [Scrubber.scrubWith_eq_filter, h]
    simp [List.filter_append, List.filter_map, Function.comp_def]
  · rintro ⟨b, hd⟩
    rw [Engine.mem_deliveries, hv, hq] at hd
    simp at hd
  · rw [Engine.buffer_eq_views, List.getElem?_map, hq]
    rfl
  · rw [Engine.mem_deliveries, hv, hb]

/-- Witness of C21: the value `u.js`, which has no quote, no angle bracket and no
whitespace. -/
theorem Scrubber.scrub_script_src_delivers_bracket_witness :
    (∀ b ∈ ascii "u.js", b < 128 ∧ b ≠ 34 ∧ b ≠ 60 ∧ b ≠ 62 ∧ isspace b = false) ∧
    Scrubber.scrub (ascii "<script src=\"" ++ ascii "u.js" ++ ascii "\"></script>x")
      = [0x18] ++ ascii "u.js" ++ [62, 120, 0, 0, 0, 0] :=
  ⟨by decide,
    (Scrubber.scrub_script_src_delivers_bracket (ascii "u.js") (by decide)).1⟩

/-- Claim C22, the run-accumulating loop equals a per-byte filter. For every tokenizer table
and every input, the concatenation of the runs that `Engine::scrub` passes to `update` (and
so the output of `Scrubber::scrub`) is the subsequence of the final buffer made of the
positions whose capture mode was not `IGNORE` right after they were scanned. A position
handled by an iteration is delivered exactly when the capture mode at the end of that
iteration is not `IGNORE`: the byte whose callback switches the mode to `IGNORE` is never
delivered. When an iteration that ends in `IGNORE` is followed by one that does not, the
position of the latter is the base of a non-empty run whose first byte is the byte that the
buffer holds there: the byte whose callback switches the mode away from `IGNORE` is
delivered as the first byte of the next run. -/
theorem Engine.runs_eq_perByteFilter (P : Parser) (rawData : List Nat) :
    Engine.runBytes P rawData = Engine.perByteFilter P rawData ∧
    Scrubber.scrubWith P rawData = Engine.perByteFilter P rawData ∧
    (∀ t ∈ Engine.iterations P rawData, ∀ i, t.1 ≤ i → i < t.1 + t.2.1 →
      (Engine.delivered P rawData i ↔ t.2.2 ≠ CaptureMode.IGNORE)) ∧
    (∀ (k : Nat) (t t2 : Nat × Nat × CaptureMode),
      (Engine.iterations P rawData)[k]? = some t →
      (Engine.iterations P rawData)[k + 1]? = some t2 →
      t.2.2 = CaptureMode.IGNORE → t2.2.2 ≠ CaptureMode.IGNORE →
      ∃ r ∈ Engine.runs P rawData, r.1 = t2.1 ∧ r.2.1 ≠ 0 ∧
        r.2.2.head? = (Engine.buffer P rawData)[t2.1]?) := by
  refine ⟨?_, ?_, ?_, ?_⟩
  · rw [Engine.runBytes_eq, ← Scrubber.scrubWith_eq_deliveries, Scrubber.scrubWith_eq_filter,
      Engine.perByteFilter_eq]
  · rw [Scrubber.scrubWith_eq_filter, Engine.perByteFilter_eq]
  · intro t ht i h1 h2
    rw [Engine.delivered_iff_visibleAt]
    exact Engine.iterations_covering P rawData t ht i h1 h2
  · exact Engine.run_starts_after_ignore P rawData

/-- Witness of C22: on `<a href="u">x` the per-byte filter is the begin marker of href, the
value, `x` and the padding; the closing quote (iteration 10, position 10) is not delivered
and the opening quote (iteration 8, position 8) is the base of a run. -/
theorem Engine.runs_eq_perByteFilter_witness :
    Engine.perByteFilter htmlParser (ascii "<a href=\"u\">x") = [0x1A, 117, 120, 0, 0, 0, 0] ∧
    ¬ Engine.delivered htmlParser (ascii "<a href=\"u\">x") 10 ∧
    ∃ r ∈ Engine.runs htmlParser (ascii "<a href=\"u\">x"), r.1 = 8 ∧ r.2.1 ≠ 0 ∧
      r.2.2.head? = (Engine.buffer htmlParser (ascii "<a href=\"u\">x"))[8]? :=
  ⟨(Engine.runs_eq_perByteFilter htmlParser (ascii "<a href=\"u\">x")).2.1.symm.trans
      (by decide),
    fun hd => (((Engine.runs_eq_perByteFilter htmlParser (ascii "<a href=\"u\">x")).2.2.1
      (10, 1, CaptureMode.IGNORE) (by decide) 10 (by decide) (by decide)).1 hd) rfl,
    (Engine.runs_eq_perByteFilter htmlParser (ascii "<a href=\"u\">x")).2.2.2 7
      (7, 1, CaptureMode.IGNORE) (8, 1, CaptureMode.IN_URL) (by decide) (by decide) rfl
      (by decide)⟩

/-- Claim C23, reachable capture modes. No transition callback assigns `IN_SCRIPT`: a
callback leaves the capture mode as it is or sets it to `IGNORE`, `IN_TEXT`, `IN_STYLE` or
`IN_URL`. For every tokenizer table, every sink and every input, the capture mode at the
head of the loop after any number of iterations, the capture mode at the end of every
iteration, and the capture mode when `Engine::scrub` returns are among `IGNORE`, `IN_TEXT`,
`IN_STYLE` and `IN_URL`, and so never `IN_SCRIPT`. -/
theorem Engine.captureMode_never_in_script {σ : Type} (P : Parser)
    (u : σ → List Nat → Nat → Nat → σ) (rawData : List Nat) (sink : σ) :
    (∀ (cb : Callback) (v : CaptureMode × Nat), (Engine.dispatch cb v).1 = v.1 ∨
      (Engine.dispatch cb v).1 ∈ [CaptureMode.IGNORE, CaptureMode.IN_TEXT,
        CaptureMode.IN_STYLE, CaptureMode.IN_URL]) ∧
    (∀ k, (Engine.scrubLoop P u k (Engine.start P rawData sink)).captureMode
      ∈ [CaptureMode.IGNORE, CaptureMode.IN_TEXT, CaptureMode.IN_STYLE, CaptureMode.IN_URL]) ∧
    (∀ t ∈ Engine.scanLog P u (rawData.length + 4) (Engine.start P rawData sink),
      t.2.2 ∈ [CaptureMode.IGNORE, CaptureMode.IN_TEXT, CaptureMode.IN_STYLE,
        CaptureMode.IN_URL]) ∧
    (Engine.scrub P u rawData sink).captureMode
      ∈ [CaptureMode.IGNORE, CaptureMode.IN_TEXT, CaptureMode.IN_STYLE, CaptureMode.IN_URL] ∧
    (Engine.scrub P u rawData sink).captureMode ≠ CaptureMode.IN_SCRIPT := by
  have hmem : ∀ m : CaptureMode, m ≠ CaptureMode.IN_SCRIPT →
      m ∈ [CaptureMode.IGNORE, CaptureMode.IN_TEXT, CaptureMode.IN_STYLE,
        CaptureMode.IN_URL] := by
    intro m hm
    cases m <;> simp at hm ⊢
  have hstart : (Engine.start P rawData sink).captureMode ≠ CaptureMode.IN_SCRIPT := by
    simp [Engine.start]
  have hloop : ∀ k, (Engine.scrubLoop P u k (Engine.start P rawData sink)).captureMode
      ≠ CaptureMode.IN_SCRIPT := fun k =>
    Engine.scrubLoop_induction P u (fun e => e.captureMode ≠ CaptureMode.IN_SCRIPT)
      (fun e he _ => Engine.scrubStep_mode P u e he) k _ hstart
  have hfinal : (Engine.scrub P u rawData sink).captureMode ≠ CaptureMode.IN_SCRIPT := by
    have := hloop (Engine.start P rawData sink).inputData.length
    unfold Engine.scrub Engine.finalFlush
    simp only
    split_ifs <;> exact this
  refine ⟨?_, fun k => hmem _ (hloop k), ?_, hmem _ hfinal, hfinal⟩
  · intro cb v
    rcases Engine.dispatch_mode cb v with h | h | h | h | h
    · exact Or.inl h
    all_goals exact Or.inr (by rw [h]; simp)
  · intro t ht
    obtain ⟨f, hf, -, rfl⟩ := Engine.scanLog_mem P u
      (fun e => e.captureMode ≠ CaptureMode.IN_SCRIPT)
      (fun e he _ => Engine.scrubStep_mode P u e he) _ _ hstart t ht
    exact hmem _ (Engine.scrubStep_mode P u f hf)

/-- Witness of C23: inside the body of a script element (after the nine bytes `<script>a`)
the capture mode is `IN_TEXT`, not `IN_SCRIPT`. -/
theorem Engine.captureMode_never_in_script_witness :
    (Engine.scrubLoop htmlParser Scrubber.update 9
      (Engine.start htmlParser (ascii "<script>a</script>") [])).captureMode
      = CaptureMode.IN_TEXT ∧
    (Engine.scrubLoop htmlParser Scrubber.update 9
      (Engine.start htmlParser (ascii "<script>a</script>") [])).captureMode
      ∈ [CaptureMode.IGNORE, CaptureMode.IN_TEXT, CaptureMode.IN_STYLE, CaptureMode.IN_URL] :=
  ⟨by decide,
    (Engine.captureMode_never_in_script htmlParser Scrubber.update
      (ascii "<script>a</script>") []).2.1 9⟩

end HtmlScrubber
